import Mathlib

/-!
# SIM7080G modem driver (pico-modem): embedding of `src/driver/sim7080g.cpp`

The driver talks to hardware through the Pico SDK (`time_us_32`, `sleep_ms`,
`gpio_put`, `uart_puts`, `uart_is_readable`, `uart_read_blocking`, `printf`).
Those primitives are modelled as transitions of a `World`, answered by an
environment oracle `Env`; every call is appended to `World.trace`.

The oracle is consulted by position: `World.win` counts the read windows
(calls of `read_buffer`) opened so far and `World.op` counts the hardware
operations executed since the current window was opened.  For each position
the environment fixes how long the operation takes (`Env.dt`, microseconds)
and what the UART receive FIFO holds when it is polled (`Env.rx`).

The polling loop of `read_buffer` is unbounded in the source; it is modelled
with a fuel argument, and a run that is still polling when the fuel is used up
ends in `Outcome.spin` carrying the state reached so far.

What the transport does in one read window is summarised by `capture`: the
bytes a `read_buffer` call takes from the UART in that window.  It depends on
the script of that window only (`capture_congr`), and it is defined whenever
the clock keeps advancing (`capture_defined`).
-/

namespace Sim7080G

/-! ## Bytes and strings -/

/-- One `uint8_t` / `char`. -/
abbrev Byte := Fin 256

/-- A `std::string`: a length-counted byte sequence (NUL bytes allowed). -/
abbrev Bytes := List Byte

/-- The bytes of a string literal of the source. -/
def str (s : String) : Bytes := s.toList.map fun c => Fin.ofNat c.toNat

/-- The C string seen through `c_str()` by a `const char*` consumer: the bytes
before the first NUL. -/
def c_str (s : Bytes) : Bytes := s.takeWhile fun b => b ≠ 0

/-- Whether `needle` matches `hay` at its first position. -/
def starts : Bytes → Bytes → Bool
  | _, [] => true
  | [], _ :: _ => false
  | h :: hay, n :: needle => h = n && starts hay needle

/-- Search of `std::string::find`: the lowest position `pos + i` at which
`needle` occurs in `hay` (whose first byte has position `pos`), `none` for
`npos`. -/
def find_from (needle : Bytes) : Bytes → Nat → Option Nat
  | [], pos => if starts [] needle then some pos else none
  | h :: hay, pos =>
    if starts (h :: hay) needle then some pos else find_from needle hay (pos + 1)

/-- The call `hay.find(needle)`. -/
def find (hay needle : Bytes) : Option Nat := find_from needle hay 0

/-- The call `msg.find(c, start)` for a single character. -/
def find_char (msg : Bytes) (c : Byte) (start : Nat) : Option Nat :=
  (find_from [c] (msg.drop start) start)

/-- The call `msg.substr(pos, len)`. -/
def substr (msg : Bytes) (pos len : Nat) : Bytes := (msg.drop pos).take len

/-! ## Hardware, environment and driver state -/

/-- Build-time constants of `config.h` and `sim7080g.h`, which are not part of
the sources at hand, together with the default arguments that `sim7080g.h`
declares for `send_at`. -/
structure Config where
  UART_BUFFER_SIZE : Nat
  PIN_MODEM_PWR : Nat
  LED_PIN : Nat
  send_at_expected : Bytes
  send_at_timeout : Nat

/-- An argument of a `printf` call. -/
inductive Arg where
  | u (n : Nat)
  | s (text : Bytes)
  | c (b : Byte)
  deriving DecidableEq

/-- One call of an SDK primitive, as recorded in the trace.  `clear_buffer` is
a marker for the driver zero-filling its receive buffer. -/
inductive Event where
  | printf (fmt : String) (args : List Arg)
  | gpio_put (pin : Nat) (value : Bool)
  | sleep_ms (ms : Nat)
  | uart_puts (text : Bytes)
  | time_us_32 (t : Nat)
  | uart_is_readable (r : Bool)
  | uart_read_blocking (idx : Nat) (b : Byte)
  | clear_buffer
  deriving DecidableEq

/-- The environment oracle. `dt j i` is the time in microseconds taken by the
`i`-th hardware operation after read window `j` was opened; `rx j i` is the
head of the UART receive FIFO seen by that operation when it is a poll
(`none`: nothing to read). -/
structure Env where
  dt : Nat → Nat → Nat
  rx : Nat → Nat → Option Byte

/-- Driver and hardware state. `now` is the free-running microsecond counter
before truncation to 32 bits; `rx_ptr` is the offset `rx_ptr - &uart_buffer[0]`;
`uart_buffer i` is the memory cell at offset `i` from the start of the buffer
(offsets `≥ UART_BUFFER_SIZE` lie outside the array). -/
structure World where
  now : Nat
  win : Nat
  op : Nat
  trace : List Event
  uart_buffer : Nat → Byte
  rx_ptr : Nat

/-- Result of running driver code: it returned `val` in state `world`, or the
polling loop was still running in state `world` when the fuel ran out. -/
inductive Outcome (α : Type) where
  | ret (val : α) (world : World)
  | spin (world : World)

/-- The state in which a run ended or was cut off. -/
def Outcome.world {α : Type} : Outcome α → World
  | .ret _ w => w
  | .spin w => w

/-- The returned value, if the run returned. -/
def Outcome.val {α : Type} : Outcome α → Option α
  | .ret a _ => some a
  | .spin _ => none

/-- Record one hardware operation: it takes `extra` microseconds plus the
duration the environment assigns to this position. -/
def World.emit (env : Env) (e : Event) (extra : Nat) (w : World) : World :=
  { w with
    now := w.now + extra + env.dt w.win w.op
    op := w.op + 1
    trace := w.trace ++ [e] }

/-- Store byte `b` at offset `i` from the start of the receive buffer. -/
def World.store (w : World) (i : Nat) (b : Byte) : World :=
  { w with uart_buffer := Function.update w.uart_buffer i b }

/-- Assign the receive cursor: `rx_ptr = &uart_buffer[0] + p`. -/
def World.seek (w : World) (p : Nat) : World :=
  { w with rx_ptr := p }

/-- Move on to the next read window. -/
def World.next_window (w : World) : World :=
  { w with win := w.win + 1, op := 0 }

/-- Truncation to `uint32_t`. -/
def u32 (n : Nat) : Nat := n % 4294967296

/-- Subtraction of `uint32_t` values. -/
def sub32 (a b : Nat) : Nat := (u32 a + 4294967296 - u32 b) % 4294967296

/-- Multiplication of `uint32_t` values. -/
def mul32 (a b : Nat) : Nat := (u32 a * u32 b) % 4294967296

/-- The call `printf(fmt, args...)`; the output is recorded, not formatted. -/
def printf (env : Env) (fmt : String) (args : List Arg) (w : World) : World :=
  w.emit env (.printf fmt args) 0

/-- The call `gpio_put(pin, value)`. -/
def gpio_put (env : Env) (pin : Nat) (value : Bool) (w : World) : World :=
  w.emit env (.gpio_put pin value) 0

/-- The call `sleep_ms(ms)`: returns no earlier than `ms` milliseconds later. -/
def sleep_ms (env : Env) (ms : Nat) (w : World) : World :=
  w.emit env (.sleep_ms ms) (ms * 1000)

/-- The call `uart_puts(MODEM_UART, s)` on a `const char*`. -/
def uart_puts (env : Env) (s : Bytes) (w : World) : World :=
  w.emit env (.uart_puts (c_str s)) 0

/-- The call `time_us_32()`: the low 32 bits of the microsecond counter. -/
def time_us_32 (env : Env) (w : World) : Nat × World :=
  (u32 w.now, w.emit env (.time_us_32 (u32 w.now)) 0)

/-- The call `uart_is_readable(MODEM_UART)`. The C function returns whether the
receive FIFO is non-empty; the model also hands out the byte at its head, which
is what a following `uart_read_blocking` of one byte stores. -/
def uart_is_readable (env : Env) (w : World) : Option Byte × World :=
  (env.rx w.win w.op, w.emit env (.uart_is_readable (env.rx w.win w.op).isSome) 0)

/-- The call `uart_read_blocking(MODEM_UART, rx_ptr, 1)` once a byte `b` is
known to be at the head of the FIFO: `b` is stored at offset `rx_ptr`. -/
def uart_read_blocking (env : Env) (b : Byte) (w : World) : World :=
  (w.emit env (.uart_read_blocking w.rx_ptr b) 0).store w.rx_ptr b

/-! ## The driver (`src/driver/sim7080g.cpp`) -/

/-- Loop of `clear_buffer`: `for (i = 0; i < UART_BUFFER_SIZE; i++) uart_buffer[i] = 0`,
with `n` iterations left. -/
def clear_loop (size : Nat) : Nat → Nat → (Nat → Byte) → (Nat → Byte)
  | 0, _, buf => buf
  | n + 1, i, buf =>
    if i < size then clear_loop size n (i + 1) (Function.update buf i 0) else buf

/-- Source: `Sim7080G::clear_buffer`. Zero-fills the array; `rx_ptr` is not touched. -/
def clear_buffer (cfg : Config) (env : Env) (w : World) : World :=
  { w.emit env .clear_buffer 0 with
    uart_buffer := clear_loop cfg.UART_BUFFER_SIZE cfg.UART_BUFFER_SIZE 0 w.uart_buffer }

/-- Source: `Sim7080G::buffer_to_string`: the `rx_ptr - uart_buffer` bytes at the
start of the buffer, as a counted string. -/
def buffer_to_string (w : World) : Bytes :=
  (List.range w.rx_ptr).map w.uart_buffer

/-- The `while` loop of `read_buffer`, with `fuel` iterations allowed. -/
def poll (cfg : Config) (env : Env) (start timeout : Nat) : Nat → World → Outcome Unit
  | 0, w => .spin w
  | fuel + 1, w =>
    let (t, w1) := time_us_32 env w
    if sub32 t start < mul32 timeout 1000 ∧ w1.rx_ptr < cfg.UART_BUFFER_SIZE then
      match uart_is_readable env w1 with
      | (some b, w2) =>
        let w3 := uart_read_blocking env b w2
        poll cfg env start timeout fuel (w3.seek (w3.rx_ptr + 1))
      | (none, w2) => poll cfg env start timeout fuel w2
    else .ret () w1

/-- Source: `Sim7080G::read_buffer`. Entering it opens the next read window. -/
def read_buffer (cfg : Config) (env : Env) (fuel timeout : Nat) (w : World) : Outcome Unit :=
  let w1 := clear_buffer cfg env w.next_window
  let w2 := w1.seek 0
  let (start, w3) := time_us_32 env w2
  poll cfg env start timeout fuel w3

/-- Debug dump of `send_at_response`: one `printf` per byte of the first 50. -/
def dump_raw (env : Env) : Bytes → World → World
  | [], w => w
  | b :: bs, w =>
    if 32 ≤ b.val ∧ b.val < 127 then dump_raw env bs (printf env "%c" [.c b] w)
    else dump_raw env bs (printf env "[0x%02X]" [.u b.val] w)

/-- Source: `Sim7080G::send_at_response`. -/
def send_at_response (cfg : Config) (env : Env) (fuel : Nat) (cmd : Bytes) (timeout : Nat)
    (w : World) : Outcome Bytes :=
  let data_out := cmd ++ str "\r\n"
  let w1 := uart_puts env data_out w
  let w2 := printf env "[TX] %s\n" [.s (c_str cmd)] w1
  match read_buffer cfg env fuel timeout w2 with
  | .spin w3 => .spin w3
  | .ret _ w3 =>
    let bytes_read := w3.rx_ptr
    let w4 := printf env "[RX] Read %u bytes\n" [.u bytes_read] w3
    if bytes_read > 0 then
      let w5 := printf env "[RX] Raw: " [] w4
      let w6 := dump_raw env ((buffer_to_string w5).take 50) w5
      let w7 := printf env "\n" [] w6
      .ret (buffer_to_string w7) w7
    else .ret (str "ERROR") w4

/-- Source: `Sim7080G::send_at`. -/
def send_at (cfg : Config) (env : Env) (fuel : Nat) (cmd expected : Bytes) (timeout : Nat)
    (w : World) : Outcome Bool :=
  match send_at_response cfg env fuel cmd timeout w with
  | .spin w1 => .spin w1
  | .ret response w1 =>
    .ret (decide (response.length > 0) && (find response expected).isSome) w1

/-- Strip one trailing carriage return, as both branches of `print_response` do. -/
def strip_cr (line : Bytes) : Bytes :=
  if line ≠ [] ∧ line.getLast? = some 13 then substr line 0 (line.length - 1) else line

/-- Print one line of `print_response` unless it is empty. -/
def print_line (env : Env) (line : Bytes) (w : World) : World :=
  if strip_cr line ≠ [] then printf env "  %s\n" [.s (c_str (strip_cr line))] w else w

/-- The `while` loop of `print_response` followed by its final `if`, with `n`
iterations allowed (each iteration moves `start` past one line feed). -/
def print_loop (env : Env) (msg : Bytes) : Nat → Nat → World → World
  | 0, _, w => w
  | n + 1, start, w =>
    match find_char msg 10 start with
    | some stop =>
      print_loop env msg n (stop + 1) (print_line env (substr msg start (stop - start)) w)
    | none =>
      if start < msg.length then print_line env (msg.drop start) w else w

/-- Source: `Sim7080G::print_response`. -/
def print_response (env : Env) (msg : Bytes) (w : World) : World :=
  print_loop env msg (msg.length + 1) 0 w

/-- Source: `Sim7080G::toggle_module_power`. -/
def toggle_module_power (cfg : Config) (env : Env) (w : World) : World :=
  let w1 := gpio_put env cfg.PIN_MODEM_PWR true w
  let w2 := sleep_ms env 1500 w1
  gpio_put env cfg.PIN_MODEM_PWR false w2

/-- The `while (attempts < 20)` loop of `boot_modem`, with `n` iterations allowed. -/
def boot_loop (cfg : Config) (env : Env) (fuel start_time : Nat) :
    Nat → Bool → Nat → World → Outcome Bool
  | 0, _, _, w => .spin w
  | n + 1, powered, attempts, w =>
    if attempts < 20 then
      let w1 :=
        if !powered then
          let a := printf env "Toggling power...\n" [] w
          let b := toggle_module_power cfg env a
          let c := printf env "Waiting 30s for modem boot...\n" [] b
          sleep_ms env 35000 c
        else w
      let w2 := printf env "Sending AT (attempt %u)...\n" [.u (attempts + 1)] w1
      match send_at_response cfg env fuel (str "AT") 1000 w2 with
      | .spin w3 => .spin w3
      | .ret response w3 =>
        if (find response (str "OK")).isSome then
          let (t, w4) := time_us_32 env w3
          let boot_time := sub32 t start_time / 1000
          let w5 := printf env "Modem responded:\n" [] w4
          let w6 := print_response env response w5
          let w7 := printf env "Modem ready after %u ms (%u attempts)\n"
            [.u boot_time, .u (attempts + 1)] w6
          .ret true w7
        else
          let w4 := printf env "No response or error: %s\n" [.s (c_str response)] w3
          let w5 := sleep_ms env 4000 w4
          boot_loop cfg env fuel start_time n true (attempts + 1) w5
    else .ret false w

/-- Source: `Sim7080G::boot_modem`. The loop runs at most 20 times; the 21st
evaluation of its condition fails. -/
def boot_modem (cfg : Config) (env : Env) (fuel : Nat) (w : World) : Outcome Bool :=
  let (start_time, w1) := time_us_32 env w
  boot_loop cfg env fuel start_time 21 false 0 w1

/-- Source: `Sim7080G::check_sim`. -/
def check_sim (cfg : Config) (env : Env) (fuel : Nat) (w : World) : Outcome Bool :=
  let w1 := printf env "\n=== Checking SIM ===\n" [] w
  match send_at_response cfg env fuel (str "AT+CPIN?") 1000 w1 with
  | .spin w2 => .spin w2
  | .ret response w2 =>
    let w3 := print_response env response w2
    if (find response (str "READY")).isSome then
      .ret true (printf env "SIM: READY\n" [] w3)
    else if (find response (str "SIM PIN")).isSome then
      .ret false (printf env "SIM: PIN REQUIRED\n" [] w3)
    else if (find response (str "SIM PUK")).isSome then
      .ret false (printf env "SIM: PUK REQUIRED\n" [] w3)
    else
      .ret false (printf env "SIM: NOT DETECTED\n" [] w3)

/-- The failure blink of `start_modem`: `n` on/off cycles of the LED. -/
def blink (cfg : Config) (env : Env) : Nat → World → World
  | 0, w => w
  | n + 1, w =>
    blink cfg env n
      (sleep_ms env 100 (gpio_put env cfg.LED_PIN false
        (sleep_ms env 100 (gpio_put env cfg.LED_PIN true w))))

/-- Source: `Sim7080G::start_modem`. -/
def start_modem (cfg : Config) (env : Env) (fuel : Nat) (w : World) : Outcome Bool :=
  let w1 := printf env "\n=== Starting Modem ===\n" [] w
  match boot_modem cfg env fuel w1 with
  | .spin w2 => .spin w2
  | .ret true w2 =>
    let w3 := printf env "Modem ready\n" [] w2
    match send_at cfg env fuel (str "ATE1") cfg.send_at_expected cfg.send_at_timeout w3 with
    | .spin w4 => .spin w4
    | .ret _ w4 =>
      match send_at cfg env fuel (str "AT+CMEE=2") cfg.send_at_expected
          cfg.send_at_timeout w4 with
      | .spin w5 => .spin w5
      | .ret _ w5 => .ret true w5
  | .ret false w2 =>
    let w3 := printf env "ERROR: Modem boot failed\n" [] w2
    .ret false (blink cfg env 6 w3)

/-! ## Observations on traces -/

/-- Events that act on the modem: power line and LED writes, delays, UART writes. -/
def Event.isHw : Event → Bool
  | .gpio_put _ _ => true
  | .sleep_ms _ => true
  | .uart_puts _ => true
  | _ => false

/-- The actuation part of a trace, in order. -/
def hw (tr : List Event) : List Event := tr.filter Event.isHw

/-- The buffer offsets written by the `uart_read_blocking` calls of a trace, in order. -/
def read_offsets (tr : List Event) : List Nat :=
  tr.filterMap fun e => match e with
    | .uart_read_blocking i _ => some i
    | _ => none

/-- The texts written to the UART by a trace, in order. -/
def puts (tr : List Event) : List Bytes :=
  tr.filterMap fun e => match e with
    | .uart_puts s => some s
    | _ => none

/-- The writes to GPIO pin `pin` made by a trace, in order. -/
def gpio (pin : Nat) (tr : List Event) : List Bool :=
  tr.filterMap fun e => match e with
    | .gpio_put p v => if p = pin then some v else none
    | _ => none

/-- The bytes taken from the UART by the `uart_read_blocking` calls of a trace, in order. -/
def reads (tr : List Event) : Bytes :=
  tr.filterMap fun e => match e with
    | .uart_read_blocking _ b => some b
    | _ => none

/-- A driver state with window `j` current, an empty trace and a zeroed buffer. -/
def World.blank (j : Nat) : World :=
  { now := 0, win := j, op := 0, trace := [], uart_buffer := fun _ => 0, rx_ptr := 0 }

/-- The transport's behaviour in one read window, seen from outside the driver:
the bytes that `read_buffer(timeout)` takes from the UART in the window that
follows window `j`, or `none` when that window is still open after `fuel`
polls. -/
def capture (cfg : Config) (env : Env) (fuel timeout j : Nat) : Option Bytes :=
  match read_buffer cfg env fuel timeout (World.blank j) with
  | .ret _ w => some (reads w.trace)
  | .spin _ => none

/-- State after an iteration of the polling loop that found nothing to read. -/
def idle_step (env : Env) (w : World) : World :=
  (uart_is_readable env (time_us_32 env w).2).2

/-- State after an iteration of the polling loop that read byte `b`. -/
def read_step (env : Env) (b : Byte) (w : World) : World :=
  (uart_read_blocking env b (idle_step env w)).seek (w.rx_ptr + 1)

/-- The loop condition of `read_buffer` as evaluated in state `w`. -/
def in_window (cfg : Config) (start timeout : Nat) (w : World) : Prop :=
  sub32 (u32 w.now) start < mul32 timeout 1000 ∧ w.rx_ptr < cfg.UART_BUFFER_SIZE

/-- The state in which `read_buffer` enters its polling loop. -/
def window_start (cfg : Config) (env : Env) (w : World) : World :=
  (time_us_32 env ((clear_buffer cfg env w.next_window).seek 0)).2

/-- The value of `start` sampled by `read_buffer`, before truncation. -/
def window_clock (env : Env) (w : World) : Nat :=
  w.now + env.dt (w.win + 1) 0

/-- Diagnostic output events. -/
def Event.isPrintf : Event → Bool
  | .printf _ _ => true
  | _ => false

/-- State `w2` differs from `w1` by diagnostic output only (and by the time
that output took). -/
def Quiet (w1 w2 : World) : Prop :=
  w2.win = w1.win ∧ w2.rx_ptr = w1.rx_ptr ∧ w2.uart_buffer = w1.uart_buffer ∧
    ∃ new : List Event, w2.trace = w1.trace ++ new ∧ ∀ e ∈ new, e.isPrintf = true

/-- The text `send_at_response` hands back for captured bytes `bs`. -/
def response_of (bs : Bytes) : Bytes := if bs = [] then str "ERROR" else bs

/-- The first-iteration block of `boot_modem`, guarded by `!powered`. -/
def power_up (cfg : Config) (env : Env) (powered : Bool) (w : World) : World :=
  if !powered then
    sleep_ms env 35000 (printf env "Waiting 30s for modem boot...\n" []
      (toggle_module_power cfg env (printf env "Toggling power...\n" [] w)))
  else w

/-- The actuation events of the power-up block: one pulse of the power line,
held for 1500 ms, and the settle delay. -/
def pulse (cfg : Config) : List Event :=
  [.gpio_put cfg.PIN_MODEM_PWR true, .sleep_ms 1500, .gpio_put cfg.PIN_MODEM_PWR false,
    .sleep_ms 35000]

/-- The UART write of one liveness probe. -/
def probe : Event := .uart_puts (str "AT\r\n")

/-- State in which the probe of one loop iteration is sent. -/
def probe_state (cfg : Config) (env : Env) (powered : Bool) (attempts : Nat) (w : World) : World :=
  printf env "Sending AT (attempt %u)...\n" [.u (attempts + 1)] (power_up cfg env powered w)

/-- The actuation events of `m` unanswered probes: each is followed by the
inter-attempt delay. -/
def cycles : Nat → List Event
  | 0 => []
  | m + 1 => probe :: .sleep_ms 4000 :: cycles m

/-! ## Concrete configurations and transports -/

/-- A configuration with an 8-byte receive buffer. -/
def cfg8 : Config :=
  { UART_BUFFER_SIZE := 8, PIN_MODEM_PWR := 14, LED_PIN := 25,
    send_at_expected := str "OK", send_at_timeout := 1000 }

/-- A driver state before any read window, with a clock close to wrap-around
and a buffer holding old data. -/
def w_init : World :=
  { now := 4294000000, win := 0, op := 0, trace := [], uart_buffer := fun _ => 7, rx_ptr := 3 }

/-- A transport that stays silent in windows 1 to 4 and delivers `OK` in window 5;
every hardware operation takes 200 ms. -/
def env_ok_fifth : Env :=
  { dt := fun _ _ => 200000
    rx := fun j i =>
      if j = 5 then (if i = 3 then some 79 else if i = 6 then some 75 else none) else none }

/-- A transport that never delivers a byte; every hardware operation takes 600 ms. -/
def env_silent : Env :=
  { dt := fun _ _ => 600000
    rx := fun _ _ => none }

/-- A driver state in which four read windows have been used. -/
def w_fourth : World :=
  { now := 0, win := 4, op := 0, trace := [], uart_buffer := fun _ => 0, rx_ptr := 0 }

/-- A transport that delivers the five bytes `ERROR` in window 1 and the two
bytes `OK` in every later window. -/
def env_error_then_ok : Env :=
  { dt := fun j _ => if j = 1 then 50000 else 200000
    rx := fun j i =>
      if j = 1 then
        (if i = 3 then some 69 else if i = 6 then some 82 else if i = 9 then some 82
          else if i = 12 then some 79 else if i = 15 then some 82 else none)
      else (if i = 3 then some 79 else if i = 6 then some 75 else none) }

/-- The driver state left by a call that captured the five bytes `ERROR`. -/
def w_after_error : World :=
  (send_at_response cfg8 env_error_then_ok 8 (str "AT") 1000 w_init).world

/-- A configuration with a 64-byte receive buffer. -/
def cfg64 : Config :=
  { UART_BUFFER_SIZE := 64, PIN_MODEM_PWR := 14, LED_PIN := 25,
    send_at_expected := str "OK", send_at_timeout := 1000 }

/-- Fifty-two bytes with NUL and other non-printable bytes among them. -/
def long_reply : Bytes :=
  (List.range 52).map fun m => Fin.ofNat (m * 5)

/-- A transport that has the bytes of `long_reply` ready at every poll, one
microsecond per operation, and then lets the window run out. -/
def env_long : Env :=
  { dt := fun _ i => if i < 160 then 1 else 1000000
    rx := fun _ i => if i % 3 = 0 ∧ 3 ≤ i then long_reply[i / 3 - 1]? else none }

/-- Total duration of the `n` hardware operations numbered `a, a + 1, ...` of a
window whose operation times are `dt`. -/
def span (dt : Nat → Nat) (a : Nat) : Nat → Nat
  | 0 => 0
  | n + 1 => span dt a n + dt (a + n)

/-- A configuration with a 4-byte receive buffer. -/
def cfg4 : Config :=
  { UART_BUFFER_SIZE := 4, PIN_MODEM_PWR := 14, LED_PIN := 25,
    send_at_expected := str "OK", send_at_timeout := 1000 }

/-- Six bytes offered to a 4-byte buffer. -/
def flood : Bytes := [70, 76, 79, 79, 68, 33]

/-- A transport that has the next byte of `flood` ready at every poll; every
hardware operation takes one millisecond. -/
def env_flood : Env :=
  { dt := fun _ _ => 1000
    rx := fun _ i => if i % 3 = 0 ∧ 3 ≤ i then flood[i / 3 - 1]? else none }

/-- A transport that has the bytes of `reply` ready, one per poll, in every
window (one microsecond per operation) and then lets the window run out. -/
def env_say (reply : Bytes) : Env :=
  { dt := fun _ i => if i < 3 * reply.length + 3 then 1 else 1000000
    rx := fun _ i => if i % 3 = 0 ∧ 3 ≤ i then reply[i / 3 - 1]? else none }

/-- Outcome of the SIM readiness check, in the words of the specification. -/
inductive SimStatus where
  | ready
  | pin_required
  | puk_required
  | not_detected
  deriving DecidableEq

/-- Classification of a SIM-status response as the specification words it:
`READY` first, else `SIM PIN`, else `SIM PUK`, else not detected. -/
def classify_sim (R : Bytes) : SimStatus :=
  if str "READY" <:+: R then .ready
  else if str "SIM PIN" <:+: R then .pin_required
  else if str "SIM PUK" <:+: R then .puk_required
  else .not_detected

/-- The diagnostic line by which `check_sim` reports each outcome. -/
def SimStatus.line : SimStatus → String
  | .ready => "SIM: READY\n"
  | .pin_required => "SIM: PIN REQUIRED\n"
  | .puk_required => "SIM: PUK REQUIRED\n"
  | .not_detected => "SIM: NOT DETECTED\n"

/-- Shape of the events produced by the polling loop of `read_buffer`: a
sequence of iterations, each a clock read followed by an availability check
that found nothing, or a clock read, an availability check that found a byte
and the read of one byte; possibly ended by the clock read at which the loop
stopped. -/
def poll_shaped : List Event → Bool
  | [] => true
  | [.time_us_32 _] => true
  | .time_us_32 _ :: .uart_is_readable false :: rest => poll_shaped rest
  | .time_us_32 _ :: .uart_is_readable true :: .uart_read_blocking _ _ :: rest =>
    poll_shaped rest
  | _ => false

/-- Events of the polling loop: clock reads, availability checks, one-byte reads. -/
def Event.isPoll : Event → Bool
  | .time_us_32 _ => true
  | .uart_is_readable _ => true
  | .uart_read_blocking _ _ => true
  | _ => false

/-- Stripping of the trailing carriage return, in the words of the
specification. -/
def spec_strip (seg : Bytes) : Bytes :=
  if seg.getLast? = some 13 then seg.dropLast else seg

/-- The logical lines of a text, in the words of the specification: split at
every line feed, strip the trailing carriage return from each segment, drop
the segments that are then empty, keep the rest in order. -/
def spec_lines (msg : Bytes) : List Bytes :=
  ((msg.splitOn 10).map spec_strip).filter fun l => l ≠ []

/-- The `printf` call by which `print_response` prints one line. -/
def line_event (line : Bytes) : Event := .printf "  %s\n" [.s (c_str line)]

/-- The events `print_response` produces for one segment of its input. -/
def segment_events (seg : Bytes) : List Event :=
  if strip_cr seg ≠ [] then [line_event (strip_cr seg)] else []

/-- Total of the delays requested by the `sleep_ms` calls of a trace, in
milliseconds. -/
def slept : List Event → Nat
  | [] => 0
  | .sleep_ms ms :: tr => ms + slept tr
  | _ :: tr => slept tr

/-- A transport that answers `OK` like `env_say`, with operations that take no
time before the first window except the settle delay, which overruns by
`2^32 - 36500000` microseconds. -/
def env_stall : Env :=
  { dt := fun j i =>
      if j = 0 then (if i = 6 then 4294967296 - 36500000 else 0)
      else (env_say (str "OK")).dt j i
    rx := (env_say (str "OK")).rx }

/-! ## The hardware clock along a trace -/

/-- Reading of the hardware clock together with the place reached in the
environment's script: the microsecond counter before truncation, the current
read window and the number of operations executed in it. -/
structure Clock where
  now : Nat
  win : Nat
  op : Nat
  deriving DecidableEq

/-- The clock of a driver state. -/
def World.clock (w : World) : Clock :=
  { now := w.now, win := w.win, op := w.op }

/-- The clock after one more recorded operation. Every operation takes the time
the environment assigns to its position, `sleep_ms(ms)` takes `ms` milliseconds
on top of that, and the buffer-clear marker is the first operation of the next
read window. -/
def Clock.step (env : Env) (c : Clock) : Event → Clock
  | .sleep_ms ms => { now := c.now + ms * 1000 + env.dt c.win c.op, win := c.win, op := c.op + 1 }
  | .clear_buffer => { now := c.now + 0 + env.dt (c.win + 1) 0, win := c.win + 1, op := 1 }
  | _ => { now := c.now + 0 + env.dt c.win c.op, win := c.win, op := c.op + 1 }

/-- The clock after a sequence of recorded operations. -/
def Clock.run (env : Env) (c : Clock) (tr : List Event) : Clock :=
  tr.foldl (Clock.step env) c

/-- State `w2` is reached from `w` by the recorded operations `new`, and its
clock is the clock of `w` run through them. -/
def Tracks (env : Env) (w w2 : World) : Prop :=
  ∃ new : List Event, w2.trace = w.trace ++ new ∧ w2.clock = Clock.run env w.clock new

@[simp] theorem hw_append (a b : List Event) : hw (a ++ b) = hw a ++ hw b := by
  simp [hw]

@[simp] theorem reads_append (a b : List Event) : reads (a ++ b) = reads a ++ reads b := by
  simp [reads]

@[simp] theorem read_offsets_append (a b : List Event) :
    read_offsets (a ++ b) = read_offsets a ++ read_offsets b := by
  simp [read_offsets]

@[simp] theorem puts_append (a b : List Event) : puts (a ++ b) = puts a ++ puts b := by
  simp [puts]

@[simp] theorem gpio_append (pin : Nat) (a b : List Event) :
    gpio pin (a ++ b) = gpio pin a ++ gpio pin b := by
  simp [gpio]

@[simp] theorem hw_nil : hw [] = [] := rfl
@[simp] theorem reads_nil : reads [] = [] := rfl
@[simp] theorem read_offsets_nil : read_offsets [] = [] := rfl
@[simp] theorem hw_cons (e : Event) (tr : List Event) :
    hw (e :: tr) = if e.isHw then e :: hw tr else hw tr := by
  simp [hw, List.filter_cons]
@[simp] theorem reads_read (i : Nat) (b : Byte) (tr : List Event) :
    reads (.uart_read_blocking i b :: tr) = b :: reads tr := rfl
@[simp] theorem reads_time (t : Nat) (tr : List Event) :
    reads (.time_us_32 t :: tr) = reads tr := rfl
@[simp] theorem reads_poll (r : Bool) (tr : List Event) :
    reads (.uart_is_readable r :: tr) = reads tr := rfl
@[simp] theorem read_offsets_read (i : Nat) (b : Byte) (tr : List Event) :
    read_offsets (.uart_read_blocking i b :: tr) = i :: read_offsets tr := rfl
@[simp] theorem read_offsets_time (t : Nat) (tr : List Event) :
    read_offsets (.time_us_32 t :: tr) = read_offsets tr := rfl
@[simp] theorem read_offsets_poll (r : Bool) (tr : List Event) :
    read_offsets (.uart_is_readable r :: tr) = read_offsets tr := rfl

/-! ## State bookkeeping -/

@[simp] theorem emit_trace (env : Env) (e : Event) (x : Nat) (w : World) :
    (w.emit env e x).trace = w.trace ++ [e] := rfl
@[simp] theorem emit_win (env : Env) (e : Event) (x : Nat) (w : World) :
    (w.emit env e x).win = w.win := rfl
@[simp] theorem emit_op (env : Env) (e : Event) (x : Nat) (w : World) :
    (w.emit env e x).op = w.op + 1 := rfl
@[simp] theorem emit_now (env : Env) (e : Event) (x : Nat) (w : World) :
    (w.emit env e x).now = w.now + x + env.dt w.win w.op := rfl
@[simp] theorem emit_rx_ptr (env : Env) (e : Event) (x : Nat) (w : World) :
    (w.emit env e x).rx_ptr = w.rx_ptr := rfl
@[simp] theorem emit_uart_buffer (env : Env) (e : Event) (x : Nat) (w : World) :
    (w.emit env e x).uart_buffer = w.uart_buffer := rfl

@[simp] theorem store_trace (w : World) (i : Nat) (b : Byte) : (w.store i b).trace = w.trace := rfl
@[simp] theorem store_win (w : World) (i : Nat) (b : Byte) : (w.store i b).win = w.win := rfl
@[simp] theorem store_op (w : World) (i : Nat) (b : Byte) : (w.store i b).op = w.op := rfl
@[simp] theorem store_now (w : World) (i : Nat) (b : Byte) : (w.store i b).now = w.now := rfl
@[simp] theorem store_rx_ptr (w : World) (i : Nat) (b : Byte) :
    (w.store i b).rx_ptr = w.rx_ptr := rfl
@[simp] theorem store_uart_buffer (w : World) (i : Nat) (b : Byte) :
    (w.store i b).uart_buffer = Function.update w.uart_buffer i b := rfl

@[simp] theorem seek_trace (w : World) (p : Nat) : (w.seek p).trace = w.trace := rfl
@[simp] theorem seek_win (w : World) (p : Nat) : (w.seek p).win = w.win := rfl
@[simp] theorem seek_op (w : World) (p : Nat) : (w.seek p).op = w.op := rfl
@[simp] theorem seek_now (w : World) (p : Nat) : (w.seek p).now = w.now := rfl
@[simp] theorem seek_rx_ptr (w : World) (p : Nat) : (w.seek p).rx_ptr = p := rfl
@[simp] theorem seek_uart_buffer (w : World) (p : Nat) :
    (w.seek p).uart_buffer = w.uart_buffer := rfl

@[simp] theorem next_window_trace (w : World) : w.next_window.trace = w.trace := rfl
@[simp] theorem next_window_win (w : World) : w.next_window.win = w.win + 1 := rfl
@[simp] theorem next_window_op (w : World) : w.next_window.op = 0 := rfl
@[simp] theorem next_window_now (w : World) : w.next_window.now = w.now := rfl
@[simp] theorem next_window_rx_ptr (w : World) : w.next_window.rx_ptr = w.rx_ptr := rfl
@[simp] theorem next_window_uart_buffer (w : World) :
    w.next_window.uart_buffer = w.uart_buffer := rfl

@[simp] theorem world_ret {α : Type} (a : α) (w : World) : (Outcome.ret a w).world = w := rfl
@[simp] theorem world_spin {α : Type} (w : World) : (Outcome.spin w : Outcome α).world = w := rfl
@[simp] theorem val_ret {α : Type} (a : α) (w : World) : (Outcome.ret a w).val = some a := rfl
@[simp] theorem val_spin {α : Type} (w : World) : (Outcome.spin w : Outcome α).val = none := rfl

/-! ## The polling loop -/

theorem poll_zero (cfg : Config) (env : Env) (start timeout : Nat) (w : World) :
    poll cfg env start timeout 0 w = .spin w := rfl

theorem poll_stop (cfg : Config) (env : Env) (start timeout n : Nat) (w : World)
    (h : ¬ in_window cfg start timeout w) :
    poll cfg env start timeout (n + 1) w = .ret () (time_us_32 env w).2 := by
  unfold in_window at h
  simp only [poll, time_us_32, emit_rx_ptr]
  rw [if_neg h]

theorem poll_idle (cfg : Config) (env : Env) (start timeout n : Nat) (w : World)
    (h : in_window cfg start timeout w) (hrx : env.rx w.win (w.op + 1) = none) :
    poll cfg env start timeout (n + 1) w = poll cfg env start timeout n (idle_step env w) := by
  unfold in_window at h
  simp only [poll, time_us_32, emit_rx_ptr, idle_step]
  rw [if_pos h]
  simp only [uart_is_readable, emit_win, emit_op, hrx]

theorem poll_read (cfg : Config) (env : Env) (start timeout n : Nat) (w : World) (b : Byte)
    (h : in_window cfg start timeout w) (hrx : env.rx w.win (w.op + 1) = some b) :
    poll cfg env start timeout (n + 1) w
      = poll cfg env start timeout n (read_step env b w) := by
  unfold in_window at h
  simp only [poll, time_us_32, emit_rx_ptr, read_step, idle_step]
  rw [if_pos h]
  simp only [uart_is_readable, emit_win, emit_op, hrx, uart_read_blocking, emit_rx_ptr,
    store_rx_ptr]

@[simp] theorem stop_trace (env : Env) (w : World) :
    (time_us_32 env w).2.trace = w.trace ++ [.time_us_32 (u32 w.now)] := rfl
@[simp] theorem stop_win (env : Env) (w : World) : (time_us_32 env w).2.win = w.win := rfl
@[simp] theorem stop_op (env : Env) (w : World) : (time_us_32 env w).2.op = w.op + 1 := rfl
@[simp] theorem stop_now (env : Env) (w : World) :
    (time_us_32 env w).2.now = w.now + 0 + env.dt w.win w.op := rfl
@[simp] theorem stop_rx_ptr (env : Env) (w : World) :
    (time_us_32 env w).2.rx_ptr = w.rx_ptr := rfl
@[simp] theorem stop_uart_buffer (env : Env) (w : World) :
    (time_us_32 env w).2.uart_buffer = w.uart_buffer := rfl

@[simp] theorem idle_step_trace (env : Env) (w : World) :
    (idle_step env w).trace = w.trace ++
      [.time_us_32 (u32 w.now), .uart_is_readable (env.rx w.win (w.op + 1)).isSome] := by
  simp [idle_step, uart_is_readable, time_us_32]
@[simp] theorem idle_step_win (env : Env) (w : World) : (idle_step env w).win = w.win := rfl
@[simp] theorem idle_step_op (env : Env) (w : World) : (idle_step env w).op = w.op + 2 := rfl
@[simp] theorem idle_step_now (env : Env) (w : World) :
    (idle_step env w).now = w.now + env.dt w.win w.op + env.dt w.win (w.op + 1) := by
  simp [idle_step, uart_is_readable, time_us_32]
@[simp] theorem idle_step_rx_ptr (env : Env) (w : World) :
    (idle_step env w).rx_ptr = w.rx_ptr := rfl
@[simp] theorem idle_step_uart_buffer (env : Env) (w : World) :
    (idle_step env w).uart_buffer = w.uart_buffer := rfl

@[simp] theorem read_step_trace (env : Env) (b : Byte) (w : World) :
    (read_step env b w).trace = w.trace ++
      [.time_us_32 (u32 w.now), .uart_is_readable (env.rx w.win (w.op + 1)).isSome,
        .uart_read_blocking w.rx_ptr b] := by
  simp [read_step, uart_read_blocking]
@[simp] theorem read_step_win (env : Env) (b : Byte) (w : World) :
    (read_step env b w).win = w.win := rfl
@[simp] theorem read_step_op (env : Env) (b : Byte) (w : World) :
    (read_step env b w).op = w.op + 3 := rfl
@[simp] theorem read_step_now (env : Env) (b : Byte) (w : World) :
    (read_step env b w).now
      = w.now + env.dt w.win w.op + env.dt w.win (w.op + 1) + env.dt w.win (w.op + 2) := by
  simp [read_step, uart_read_blocking]
@[simp] theorem read_step_rx_ptr (env : Env) (b : Byte) (w : World) :
    (read_step env b w).rx_ptr = w.rx_ptr + 1 := rfl
@[simp] theorem read_step_uart_buffer (env : Env) (b : Byte) (w : World) :
    (read_step env b w).uart_buffer = Function.update w.uart_buffer w.rx_ptr b := rfl

theorem buffer_to_string_read_step (env : Env) (b : Byte) (w : World) :
    buffer_to_string (read_step env b w) = buffer_to_string w ++ [b] := by
  simp only [buffer_to_string, read_step_rx_ptr, read_step_uart_buffer, List.range_succ,
    List.map_append, List.map_cons, List.map_nil, Function.update_same]
  congr 1
  apply List.map_congr_left
  intro i hi
  have h : i ≠ w.rx_ptr := by
    have := List.mem_range.mp hi
    omega
  simp [Function.update_noteq h]

theorem offsets_shift (p n : Nat) :
    p :: (List.range n).map (fun i => p + 1 + i) = (List.range (n + 1)).map (fun i => p + i) := by
  rw [List.range_succ_eq_map]
  simp only [List.map_cons, List.map_map, Nat.add_zero]
  congr 1
  apply List.map_congr_left
  intro i _
  simp only [Function.comp, Nat.succ_eq_add_one]
  omega

/-- What one run of the polling loop leaves behind: only clock reads, polls and
one-byte reads are added to the trace; the bytes read are stored at consecutive
offsets from `rx_ptr` on, all below `UART_BUFFER_SIZE`; nothing else in memory
changes. -/
theorem poll_inv (cfg : Config) (env : Env) (start timeout : Nat) :
    ∀ (fuel : Nat) (w : World), ∃ new : List Event,
      (poll cfg env start timeout fuel w).world.trace = w.trace ++ new ∧
      hw new = [] ∧
      (poll cfg env start timeout fuel w).world.win = w.win ∧
      (poll cfg env start timeout fuel w).world.rx_ptr = w.rx_ptr + (reads new).length ∧
      buffer_to_string (poll cfg env start timeout fuel w).world
        = buffer_to_string w ++ reads new ∧
      read_offsets new = (List.range (reads new).length).map (fun i => w.rx_ptr + i) ∧
      (w.rx_ptr ≤ cfg.UART_BUFFER_SIZE →
        (poll cfg env start timeout fuel w).world.rx_ptr ≤ cfg.UART_BUFFER_SIZE) ∧
      (∀ i, i < w.rx_ptr ∨ cfg.UART_BUFFER_SIZE ≤ i →
        (poll cfg env start timeout fuel w).world.uart_buffer i = w.uart_buffer i) := by
  intro fuel
  induction fuel with
  | zero => intro w; exact ⟨[], by simp [poll_zero]⟩
  | succ n ih =>
    intro w
    by_cases hc : in_window cfg start timeout w
    · cases hrx : env.rx w.win (w.op + 1) with
      | none =>
        rw [poll_idle cfg env start timeout n w hc hrx]
        obtain ⟨new, h1, h2, h3, h4, h5, h6, h7, h8⟩ := ih (idle_step env w)
        refine ⟨[.time_us_32 (u32 w.now), .uart_is_readable false] ++ new, ?_⟩
        simp only [idle_step_trace, idle_step_win, idle_step_rx_ptr, idle_step_uart_buffer,
          hrx, Option.isSome_none] at h1 h3 h4 h5 h6 h7 h8
        refine ⟨?_, ?_, h3, ?_, ?_, ?_, h7, h8⟩
        · rw [h1]; simp
        · simpa [Event.isHw] using h2
        · rw [h4]; simp
        · rw [h5]; simp [buffer_to_string]
        · simpa using h6
      | some b =>
        rw [poll_read cfg env start timeout n w b hc hrx]
        obtain ⟨new, h1, h2, h3, h4, h5, h6, h7, h8⟩ := ih (read_step env b w)
        refine ⟨[.time_us_32 (u32 w.now), .uart_is_readable true,
          .uart_read_blocking w.rx_ptr b] ++ new, ?_⟩
        rw [buffer_to_string_read_step] at h5
        simp only [read_step_trace, read_step_win, read_step_rx_ptr, read_step_uart_buffer,
          hrx, Option.isSome_some] at h1 h3 h4 h6 h7 h8
        have hlt : w.rx_ptr < cfg.UART_BUFFER_SIZE := hc.2
        refine ⟨?_, ?_, h3, ?_, ?_, ?_, ?_, ?_⟩
        · rw [h1]; simp
        · simpa [Event.isHw] using h2
        · rw [h4]; simp; omega
        · rw [h5]; simp
        · simp only [List.cons_append, List.nil_append, read_offsets_time, read_offsets_poll,
            read_offsets_read, reads_time, reads_poll, reads_read, List.length_cons, h6]
          exact offsets_shift _ _
        · intro _; apply h7; omega
        · intro i hi
          rw [h8 i (by omega)]
          have : i ≠ w.rx_ptr := by omega
          simp [Function.update_noteq this]
    · rw [poll_stop cfg env start timeout n w hc]
      exact ⟨[.time_us_32 (u32 w.now)], by simp [Event.isHw, buffer_to_string]⟩

/-- Elapsed time as the loop computes it, when the clock has advanced by `e`
microseconds since `start` was sampled. -/
theorem sub32_elapsed (n e : Nat) : sub32 (u32 (n + e)) (u32 n) = e % 4294967296 := by
  simp only [sub32, u32]
  omega

/-- Two runs of the polling loop that see the same window script, have spent
the same time in the window and hold the same number of bytes, proceed in
lockstep: both return or both are still polling, and they read the same bytes. -/
theorem poll_lockstep (cfg : Config) (ea eb : Env) (timeout : Nat) :
    ∀ (fuel : Nat) (wa wb : World) (na nb e : Nat),
      ea.dt wa.win = eb.dt wb.win → ea.rx wa.win = eb.rx wb.win →
      wa.op = wb.op → wa.rx_ptr = wb.rx_ptr →
      wa.now = na + e → wb.now = nb + e →
      ∃ bs : Bytes,
        reads (poll cfg ea (u32 na) timeout fuel wa).world.trace = reads wa.trace ++ bs ∧
        reads (poll cfg eb (u32 nb) timeout fuel wb).world.trace = reads wb.trace ++ bs ∧
        (poll cfg ea (u32 na) timeout fuel wa).val = (poll cfg eb (u32 nb) timeout fuel wb).val := by
  intro fuel
  induction fuel with
  | zero => intro wa wb na nb e _ _ _ _ _ _; exact ⟨[], by simp [poll_zero]⟩
  | succ n ih =>
    intro wa wb na nb e hdt hrx hop hptr hna hnb
    have hcond : in_window cfg (u32 na) timeout wa ↔ in_window cfg (u32 nb) timeout wb := by
      simp only [in_window, hna, hnb, sub32_elapsed, hptr]
    by_cases hc : in_window cfg (u32 na) timeout wa
    · have hc2 := hcond.mp hc
      have hrx2 : ea.rx wa.win (wa.op + 1) = eb.rx wb.win (wb.op + 1) := by rw [hrx, hop]
      have hd0 : ea.dt wa.win wa.op = eb.dt wb.win wb.op := by rw [hdt, hop]
      have hd1 : ea.dt wa.win (wa.op + 1) = eb.dt wb.win (wb.op + 1) := by rw [hdt, hop]
      have hd2 : ea.dt wa.win (wa.op + 2) = eb.dt wb.win (wb.op + 2) := by rw [hdt, hop]
      cases h : ea.rx wa.win (wa.op + 1) with
      | none =>
        rw [poll_idle cfg ea _ timeout n wa hc h,
          poll_idle cfg eb _ timeout n wb hc2 (hrx2 ▸ h)]
        obtain ⟨bs, h1, h2, h3⟩ := ih (idle_step ea wa) (idle_step eb wb) na nb
          (e + ea.dt wa.win wa.op + ea.dt wa.win (wa.op + 1))
          (by simpa using hdt) (by simpa using hrx) (by simp [hop]) (by simpa using hptr)
          (by simp [hna]; omega) (by simp [hnb, ← hd0, ← hd1]; omega)
        refine ⟨bs, ?_, ?_, h3⟩
        · simpa using h1
        · simpa using h2
      | some b =>
        rw [poll_read cfg ea _ timeout n wa b hc h,
          poll_read cfg eb _ timeout n wb b hc2 (hrx2 ▸ h)]
        obtain ⟨bs, h1, h2, h3⟩ := ih (read_step ea b wa) (read_step eb b wb) na nb
          (e + ea.dt wa.win wa.op + ea.dt wa.win (wa.op + 1) + ea.dt wa.win (wa.op + 2))
          (by simpa using hdt) (by simpa using hrx) (by simp [hop]) (by simpa using hptr)
          (by simp [hna]; omega) (by simp [hnb, ← hd0, ← hd1, ← hd2]; omega)
        refine ⟨b :: bs, ?_, ?_, h3⟩
        · simpa using h1
        · simpa using h2
    · rw [poll_stop cfg ea _ timeout n wa hc,
        poll_stop cfg eb _ timeout n wb (fun h => hc (hcond.mpr h))]
      exact ⟨[], by simp⟩

/-! ## `clear_buffer` and `read_buffer` -/

theorem clear_loop_apply (size : Nat) :
    ∀ (n i : Nat) (buf : Nat → Byte) (j : Nat),
      clear_loop size n i buf j = if i ≤ j ∧ j < i + n ∧ j < size then 0 else buf j := by
  intro n
  induction n with
  | zero =>
    intro i buf j
    rw [if_neg (by omega)]
    rfl
  | succ n ih =>
    intro i buf j
    unfold clear_loop
    split
    · rename_i hi
      rw [ih]
      by_cases hj : j = i
      · subst hj
        rw [if_neg (by omega), if_pos (by omega), Function.update_same]
      · rw [Function.update_noteq hj]
        by_cases h1 : i + 1 ≤ j ∧ j < i + 1 + n ∧ j < size
        · rw [if_pos h1, if_pos (by omega)]
        · rw [if_neg h1, if_neg (by omega)]
    · rename_i hi
      rw [if_neg (by omega)]

@[simp] theorem clear_buffer_trace (cfg : Config) (env : Env) (w : World) :
    (clear_buffer cfg env w).trace = w.trace ++ [.clear_buffer] := rfl
@[simp] theorem clear_buffer_win (cfg : Config) (env : Env) (w : World) :
    (clear_buffer cfg env w).win = w.win := rfl
@[simp] theorem clear_buffer_op (cfg : Config) (env : Env) (w : World) :
    (clear_buffer cfg env w).op = w.op + 1 := rfl
@[simp] theorem clear_buffer_now (cfg : Config) (env : Env) (w : World) :
    (clear_buffer cfg env w).now = w.now + 0 + env.dt w.win w.op := rfl
@[simp] theorem clear_buffer_rx_ptr (cfg : Config) (env : Env) (w : World) :
    (clear_buffer cfg env w).rx_ptr = w.rx_ptr := rfl
theorem clear_buffer_apply (cfg : Config) (env : Env) (w : World) (j : Nat) :
    (clear_buffer cfg env w).uart_buffer j
      = if j < cfg.UART_BUFFER_SIZE then 0 else w.uart_buffer j := by
  show clear_loop _ _ 0 _ j = _
  rw [clear_loop_apply]
  by_cases h : j < cfg.UART_BUFFER_SIZE
  · rw [if_pos h, if_pos (by omega)]
  · rw [if_neg h, if_neg (by omega)]

theorem read_buffer_eq (cfg : Config) (env : Env) (fuel timeout : Nat) (w : World) :
    read_buffer cfg env fuel timeout w
      = poll cfg env (u32 (window_clock env w)) timeout fuel (window_start cfg env w) := by
  simp [read_buffer, window_start, window_clock, time_us_32]

/-- Effect of one `read_buffer` call, whether or not the window closed within the
fuel: the events added are the buffer-clear marker, clock reads, polls and
one-byte reads; the bytes `bs` read are stored at offsets `0, 1, ...` in order,
the cursor ends at their count, which is at most `UART_BUFFER_SIZE`, and memory
outside the array is untouched. -/
theorem read_buffer_inv (cfg : Config) (env : Env) (fuel timeout : Nat) (w : World) :
    ∃ new : List Event,
      (read_buffer cfg env fuel timeout w).world.trace = w.trace ++ new ∧
      hw new = [] ∧
      (read_buffer cfg env fuel timeout w).world.win = w.win + 1 ∧
      (read_buffer cfg env fuel timeout w).world.rx_ptr = (reads new).length ∧
      buffer_to_string (read_buffer cfg env fuel timeout w).world = reads new ∧
      read_offsets new = List.range (reads new).length ∧
      (read_buffer cfg env fuel timeout w).world.rx_ptr ≤ cfg.UART_BUFFER_SIZE ∧
      (∀ i, cfg.UART_BUFFER_SIZE ≤ i →
        (read_buffer cfg env fuel timeout w).world.uart_buffer i = w.uart_buffer i) := by
  rw [read_buffer_eq]
  obtain ⟨new, h1, h2, h3, h4, h5, h6, h7, h8⟩ :=
    poll_inv cfg env (u32 (window_clock env w)) timeout fuel (window_start cfg env w)
  have hp : (window_start cfg env w).rx_ptr = 0 := rfl
  have ht : (window_start cfg env w).trace
      = w.trace ++ [.clear_buffer, .time_us_32 (u32 (window_clock env w))] := by
    simp [window_start, window_clock]
  have hb : buffer_to_string (window_start cfg env w) = [] := by
    simp [buffer_to_string, hp]
  rw [hp] at h4 h6 h7 h8
  rw [hb] at h5
  refine ⟨[.clear_buffer, .time_us_32 (u32 (window_clock env w))] ++ new, ?_⟩
  have hr : reads ([.clear_buffer, .time_us_32 (u32 (window_clock env w))] ++ new)
      = reads new := rfl
  have hro : read_offsets ([.clear_buffer, .time_us_32 (u32 (window_clock env w))] ++ new)
      = read_offsets new := rfl
  rw [hr, hro]
  refine ⟨?_, ?_, ?_, ?_, ?_, ?_, h7 (Nat.zero_le _), ?_⟩
  · rw [h1, ht]; simp
  · simpa [Event.isHw] using h2
  · rw [h3]; rfl
  · simpa using h4
  · simpa using h5
  · simpa using h6
  · intro i hi
    rw [h8 i (Or.inr hi)]
    show (clear_buffer cfg env w.next_window).uart_buffer i = _
    rw [clear_buffer_apply, if_neg (by omega)]
    rfl

/-- Two `read_buffer` calls that are given the same window script return alike
and read the same bytes, whatever the two driver states were before. -/
theorem read_buffer_lockstep (cfg : Config) (ea eb : Env) (fuel timeout : Nat) (wa wb : World)
    (hdt : ea.dt (wa.win + 1) = eb.dt (wb.win + 1))
    (hrx : ea.rx (wa.win + 1) = eb.rx (wb.win + 1)) :
    ∃ bs : Bytes,
      reads (read_buffer cfg ea fuel timeout wa).world.trace = reads wa.trace ++ bs ∧
      reads (read_buffer cfg eb fuel timeout wb).world.trace = reads wb.trace ++ bs ∧
      (read_buffer cfg ea fuel timeout wa).val = (read_buffer cfg eb fuel timeout wb).val := by
  rw [read_buffer_eq, read_buffer_eq]
  obtain ⟨bs, h1, h2, h3⟩ := poll_lockstep cfg ea eb timeout fuel
    (window_start cfg ea wa) (window_start cfg eb wb) (window_clock ea wa) (window_clock eb wb)
    (ea.dt (wa.win + 1) 1) hdt hrx rfl rfl
    (by simp [window_start, window_clock]) (by simp [window_start, window_clock, hdt])
  refine ⟨bs, ?_, ?_, h3⟩
  · rw [h1]; simp [window_start, reads]
  · rw [h2]; simp [window_start, reads]

/-- A `read_buffer` call made in any driver state whose current window is `j`
reads exactly the bytes `capture` reports for `j`, and returns exactly when
`capture` is defined. -/
theorem read_buffer_capture (cfg : Config) (env : Env) (fuel timeout : Nat) (w : World) :
    ∃ bs : Bytes,
      reads (read_buffer cfg env fuel timeout w).world.trace = reads w.trace ++ bs ∧
      capture cfg env fuel timeout w.win
        = (read_buffer cfg env fuel timeout w).val.map (fun _ => bs) := by
  obtain ⟨bs, h1, h2, h3⟩ := read_buffer_lockstep cfg env env fuel timeout w (World.blank w.win)
    rfl rfl
  refine ⟨bs, h1, ?_⟩
  unfold capture
  rw [h3]
  cases h : read_buffer cfg env fuel timeout (World.blank w.win) with
  | ret u w2 => rw [h] at h2; simpa [World.blank] using h2
  | spin w2 => simp

/-! ## Diagnostic output -/

theorem Quiet.refl (w : World) : Quiet w w :=
  ⟨rfl, rfl, rfl, [], by simp, by simp⟩

theorem Quiet.trans {w1 w2 w3 : World} (h12 : Quiet w1 w2) (h23 : Quiet w2 w3) :
    Quiet w1 w3 := by
  obtain ⟨a1, a2, a3, n1, a4, a5⟩ := h12
  obtain ⟨b1, b2, b3, n2, b4, b5⟩ := h23
  refine ⟨b1.trans a1, b2.trans a2, b3.trans a3, n1 ++ n2, ?_, ?_⟩
  · rw [b4, a4, List.append_assoc]
  · intro e he
    rcases List.mem_append.mp he with h | h
    · exact a5 e h
    · exact b5 e h

theorem quiet_printf (env : Env) (fmt : String) (args : List Arg) (w : World) :
    Quiet w (printf env fmt args w) :=
  ⟨rfl, rfl, rfl, [.printf fmt args], rfl, by simp [Event.isPrintf]⟩

theorem hw_of_printf (new : List Event) (h : ∀ e ∈ new, e.isPrintf = true) : hw new = [] := by
  induction new with
  | nil => rfl
  | cons e tl ih =>
    have he := h e (List.mem_cons_self _ _)
    have := ih (fun x hx => h x (List.mem_cons_of_mem _ hx))
    cases e <;> simp_all [Event.isPrintf, Event.isHw]

theorem reads_of_printf (new : List Event) (h : ∀ e ∈ new, e.isPrintf = true) :
    reads new = [] := by
  induction new with
  | nil => rfl
  | cons e tl ih =>
    have he := h e (List.mem_cons_self _ _)
    have := ih (fun x hx => h x (List.mem_cons_of_mem _ hx))
    cases e <;> simp_all [Event.isPrintf, reads]

theorem Quiet.hw_eq {w1 w2 : World} (h : Quiet w1 w2) : hw w2.trace = hw w1.trace := by
  obtain ⟨_, _, _, new, h4, h5⟩ := h
  rw [h4, hw_append, hw_of_printf new h5, List.append_nil]

theorem Quiet.reads_eq {w1 w2 : World} (h : Quiet w1 w2) :
    reads w2.trace = reads w1.trace := by
  obtain ⟨_, _, _, new, h4, h5⟩ := h
  rw [h4, reads_append, reads_of_printf new h5, List.append_nil]

theorem Quiet.buffer_eq {w1 w2 : World} (h : Quiet w1 w2) :
    buffer_to_string w2 = buffer_to_string w1 := by
  obtain ⟨_, h2, h3, _⟩ := h
  simp [buffer_to_string, h2, h3]

theorem quiet_dump_raw (env : Env) : ∀ (bs : Bytes) (w : World), Quiet w (dump_raw env bs w) := by
  intro bs
  induction bs with
  | nil => intro w; exact Quiet.refl w
  | cons b bs ih =>
    intro w
    unfold dump_raw
    split
    · exact (quiet_printf env _ _ w).trans (ih _)
    · exact (quiet_printf env _ _ w).trans (ih _)

theorem quiet_print_line (env : Env) (line : Bytes) (w : World) :
    Quiet w (print_line env line w) := by
  unfold print_line
  split
  · exact quiet_printf env _ _ w
  · exact Quiet.refl w

theorem quiet_print_loop (env : Env) (msg : Bytes) :
    ∀ (n start : Nat) (w : World), Quiet w (print_loop env msg n start w) := by
  intro n
  induction n with
  | zero => intro start w; exact Quiet.refl w
  | succ n ih =>
    intro start w
    unfold print_loop
    split
    · exact (quiet_print_line env _ w).trans (ih _ _)
    · split
      · exact quiet_print_line env _ w
      · exact Quiet.refl w

theorem quiet_print_response (env : Env) (msg : Bytes) (w : World) :
    Quiet w (print_response env msg w) :=
  quiet_print_loop env msg _ _ w

/-! ## `send_at_response` and `send_at` -/

/-- Effect of one `send_at_response` call: one UART write of the command line,
one read window, and as result the bytes read in that window, or the text
`ERROR` when there were none. -/
theorem send_at_response_spec (cfg : Config) (env : Env) (fuel : Nat) (cmd : Bytes)
    (timeout : Nat) (w : World) :
    ∃ bs : Bytes,
      reads (send_at_response cfg env fuel cmd timeout w).world.trace = reads w.trace ++ bs ∧
      hw (send_at_response cfg env fuel cmd timeout w).world.trace
        = hw w.trace ++ [.uart_puts (c_str (cmd ++ str "\r\n"))] ∧
      (send_at_response cfg env fuel cmd timeout w).world.win = w.win + 1 ∧
      (send_at_response cfg env fuel cmd timeout w).world.rx_ptr ≤ cfg.UART_BUFFER_SIZE ∧
      bs.length ≤ cfg.UART_BUFFER_SIZE ∧
      capture cfg env fuel timeout w.win
        = (send_at_response cfg env fuel cmd timeout w).val.map (fun _ => bs) ∧
      (send_at_response cfg env fuel cmd timeout w).val
        = (capture cfg env fuel timeout w.win).map response_of := by
  obtain ⟨new, h1, h2, h3, h4, h5, -, h7, -⟩ := read_buffer_inv cfg env fuel timeout
    (printf env "[TX] %s\n" [.s (c_str cmd)] (uart_puts env (cmd ++ str "\r\n") w))
  obtain ⟨bs, c1, c2⟩ := read_buffer_capture cfg env fuel timeout
    (printf env "[TX] %s\n" [.s (c_str cmd)] (uart_puts env (cmd ++ str "\r\n") w))
  have hbs : bs = reads new := by
    rw [h1, reads_append] at c1
    exact (List.append_cancel_left c1).symm
  have hw2 : (printf env "[TX] %s\n" [.s (c_str cmd)]
      (uart_puts env (cmd ++ str "\r\n") w)).win = w.win := rfl
  have ht2 : (printf env "[TX] %s\n" [.s (c_str cmd)]
      (uart_puts env (cmd ++ str "\r\n") w)).trace
      = w.trace ++ [.uart_puts (c_str (cmd ++ str "\r\n")), .printf "[TX] %s\n" [.s (c_str cmd)]] := by
    simp [printf, uart_puts]
  rw [hw2] at c2 h3
  rw [ht2] at h1 c1
  refine ⟨bs, ?_⟩
  unfold send_at_response
  simp only []
  cases hr : read_buffer cfg env fuel timeout
      (printf env "[TX] %s\n" [.s (c_str cmd)] (uart_puts env (cmd ++ str "\r\n") w)) with
  | spin w3 =>
    rw [hr] at h1 h3 h4 h7 c1 c2
    simp only [world_spin, val_spin, Option.map_none'] at h1 h3 h4 h7 c1 c2 ⊢
    refine ⟨?_, ?_, h3, h7, ?_, c2, ?_⟩
    · rw [c1]; simp [reads]
    · rw [h1]; simp [Event.isHw, h2]
    · rw [hbs, ← h4]; exact h7
    · rw [c2]; rfl
  | ret u w3 =>
    rw [hr] at h1 h3 h4 h5 h7 c1 c2
    simp only [world_ret, val_ret, Option.map_some'] at h1 h3 h4 h5 h7 c1 c2
    have hlen : bs.length ≤ cfg.UART_BUFFER_SIZE := by rw [hbs, ← h4]; exact h7
    have hr3 : reads w3.trace = reads w.trace ++ bs := by rw [c1]; simp [reads]
    have hh3 : hw w3.trace = hw w.trace ++ [.uart_puts (c_str (cmd ++ str "\r\n"))] := by
      rw [h1]; simp [Event.isHw, h2]
    dsimp only
    by_cases hpos : w3.rx_ptr > 0
    · rw [if_pos hpos]
      have hq : Quiet w3 (printf env "\n" []
          (dump_raw env
            (List.take 50 (buffer_to_string
              (printf env "[RX] Raw: " [] (printf env "[RX] Read %u bytes\n" [.u w3.rx_ptr] w3))))
            (printf env "[RX] Raw: " [] (printf env "[RX] Read %u bytes\n" [.u w3.rx_ptr] w3)))) :=
        ((quiet_printf env _ _ w3).trans (quiet_printf env _ _ _)).trans
          ((quiet_dump_raw env _ _).trans (quiet_printf env _ _ _))
      simp only [world_ret, val_ret, Option.map_some']
      have hne : bs ≠ [] := by
        intro h
        rw [hbs] at h
        rw [h] at h4
        simp at h4
        omega
      refine ⟨?_, ?_, ?_, ?_, hlen, c2, ?_⟩
      · rw [hq.reads_eq, hr3]
      · rw [hq.hw_eq, hh3]
      · rw [hq.1, h3]
      · rw [hq.2.1]; exact h7
      · rw [c2, hq.buffer_eq, h5, ← hbs]
        simp [response_of, hne]
    · rw [if_neg hpos]
      have hq : Quiet w3 (printf env "[RX] Read %u bytes\n" [.u w3.rx_ptr] w3) :=
        quiet_printf env _ _ w3
      simp only [world_ret, val_ret, Option.map_some']
      have he : bs = [] := by
        have : (reads new).length = 0 := by omega
        rw [hbs]
        exact List.length_eq_zero.mp this
      refine ⟨?_, ?_, ?_, ?_, hlen, c2, ?_⟩
      · rw [hq.reads_eq, hr3]
      · rw [hq.hw_eq, hh3]
      · rw [hq.1, h3]
      · rw [hq.2.1]; exact h7
      · rw [c2]
        simp [response_of, he]

/-! ## Substring search -/

theorem starts_iff (hay needle : Bytes) : starts hay needle = true ↔ needle <+: hay := by
  induction needle generalizing hay with
  | nil => simp [starts]
  | cons n needle ih =>
    cases hay with
    | nil => simp [starts]
    | cons h hay =>
      simp only [starts, Bool.and_eq_true, decide_eq_true_eq, ih, List.cons_prefix_cons]
      constructor
      · rintro ⟨a, b⟩; exact ⟨a.symm, b⟩
      · rintro ⟨a, b⟩; exact ⟨a.symm, b⟩

theorem find_from_isSome (needle : Bytes) :
    ∀ (hay : Bytes) (pos : Nat), (find_from needle hay pos).isSome = true ↔ needle <:+: hay := by
  intro hay
  induction hay with
  | nil =>
    intro pos
    unfold find_from
    by_cases h : starts [] needle = true
    · rw [if_pos h]
      simp only [Option.isSome_some, true_iff]
      exact ((starts_iff _ _).mp h).isInfix
    · rw [if_neg h]
      simp only [Option.isSome_none, Bool.false_eq_true, false_iff]
      intro hin
      apply h
      rw [starts_iff]
      rw [List.infix_nil] at hin
      rw [hin]
  | cons c hay ih =>
    intro pos
    unfold find_from
    by_cases h : starts (c :: hay) needle = true
    · rw [if_pos h]
      simp only [Option.isSome_some, true_iff]
      exact ((starts_iff _ _).mp h).isInfix
    · rw [if_neg h, ih, List.infix_cons_iff]
      rw [starts_iff] at h
      tauto

/-- The search `hay.find(needle) != npos` succeeds exactly when `needle` occurs
as a contiguous block of `hay`. -/
theorem find_isSome_iff (hay needle : Bytes) :
    (find hay needle).isSome = true ↔ needle <:+: hay :=
  find_from_isSome needle hay 0

theorem find_eq_none_iff (hay needle : Bytes) :
    find hay needle = none ↔ ¬ needle <:+: hay := by
  rw [← find_isSome_iff]
  cases find hay needle <;> simp

/-! ## The boot sequence -/

theorem power_up_win (cfg : Config) (env : Env) (powered : Bool) (w : World) :
    (power_up cfg env powered w).win = w.win := by
  cases powered <;> rfl

theorem power_up_hw (cfg : Config) (env : Env) (powered : Bool) (w : World) :
    hw (power_up cfg env powered w).trace
      = hw w.trace ++ (if powered then [] else pulse cfg) := by
  cases powered
  · simp [power_up, pulse, sleep_ms, printf, toggle_module_power, gpio_put, Event.isHw]
  · simp [power_up]

theorem probe_state_win (cfg : Config) (env : Env) (powered : Bool) (attempts : Nat)
    (w : World) : (probe_state cfg env powered attempts w).win = w.win := by
  show (power_up cfg env powered w).win = w.win
  exact power_up_win cfg env powered w

theorem probe_state_hw (cfg : Config) (env : Env) (powered : Bool) (attempts : Nat)
    (w : World) :
    hw (probe_state cfg env powered attempts w).trace
      = hw w.trace ++ (if powered then [] else pulse cfg) := by
  rw [← power_up_hw cfg env]
  simp [probe_state, printf, Event.isHw]

theorem c_str_probe : c_str (str "AT" ++ str "\r\n") = str "AT\r\n" := by decide

theorem boot_loop_zero (cfg : Config) (env : Env) (fuel st : Nat) (powered : Bool)
    (attempts : Nat) (w : World) :
    boot_loop cfg env fuel st 0 powered attempts w = .spin w := rfl

theorem boot_loop_done (cfg : Config) (env : Env) (fuel st n : Nat) (powered : Bool)
    (attempts : Nat) (w : World) (h : ¬ attempts < 20) :
    boot_loop cfg env fuel st (n + 1) powered attempts w = .ret false w := by
  unfold boot_loop
  rw [if_neg h]

/-- One loop iteration whose probe gets no reply within the fuel. -/
theorem boot_loop_spin (cfg : Config) (env : Env) (fuel st n : Nat) (powered : Bool)
    (attempts : Nat) (w w3 : World) (h : attempts < 20)
    (hs : send_at_response cfg env fuel (str "AT") 1000 (probe_state cfg env powered attempts w)
      = .spin w3) :
    boot_loop cfg env fuel st (n + 1) powered attempts w = .spin w3 := by
  unfold boot_loop
  rw [if_pos h]
  simp only []
  unfold probe_state power_up at hs
  rw [hs]

/-- One loop iteration whose probe is answered without the acknowledgment token. -/
theorem boot_loop_retry (cfg : Config) (env : Env) (fuel st n : Nat) (powered : Bool)
    (attempts : Nat) (w w3 : World) (r : Bytes) (h : attempts < 20)
    (hs : send_at_response cfg env fuel (str "AT") 1000 (probe_state cfg env powered attempts w)
      = .ret r w3)
    (hr : find r (str "OK") = none) :
    boot_loop cfg env fuel st (n + 1) powered attempts w
      = boot_loop cfg env fuel st n true (attempts + 1)
          (sleep_ms env 4000 (printf env "No response or error: %s\n" [.s (c_str r)] w3)) := by
  conv => lhs; unfold boot_loop
  rw [if_pos h]
  simp only []
  unfold probe_state power_up at hs
  rw [hs]
  simp only [hr, Option.isSome_none, Bool.false_eq_true, if_false]

/-- One loop iteration whose probe is answered with the acknowledgment token. -/
theorem boot_loop_ready (cfg : Config) (env : Env) (fuel st n : Nat) (powered : Bool)
    (attempts : Nat) (w w3 : World) (r : Bytes) (h : attempts < 20)
    (hs : send_at_response cfg env fuel (str "AT") 1000 (probe_state cfg env powered attempts w)
      = .ret r w3)
    (hr : (find r (str "OK")).isSome = true) :
    boot_loop cfg env fuel st (n + 1) powered attempts w
      = .ret true (printf env "Modem ready after %u ms (%u attempts)\n"
          [.u (sub32 (u32 w3.now) st / 1000), .u (attempts + 1)]
          (print_response env r (printf env "Modem responded:\n" [] (time_us_32 env w3).2))) := by
  conv => lhs; unfold boot_loop
  rw [if_pos h]
  simp only []
  unfold probe_state power_up at hs
  rw [hs]
  simp only [hr, if_true, time_us_32]

theorem find_response_none (b : Bytes) (h : find b (str "OK") = none) :
    find (response_of b) (str "OK") = none := by
  unfold response_of
  split
  · decide
  · exact h

theorem response_of_found (b : Bytes) (h : (find b (str "OK")).isSome = true) :
    response_of b = b := by
  unfold response_of
  split
  · rename_i hb
    rw [hb] at h
    exact absurd h (by decide)
  · rfl

/-- The state and result of one probe, in terms of what the transport
delivers in its window. -/
theorem probe_spec (cfg : Config) (env : Env) (fuel : Nat) (powered : Bool) (attempts : Nat)
    (w : World) (b : Bytes) (hcap : capture cfg env fuel 1000 w.win = some b) :
    ∃ w3, send_at_response cfg env fuel (str "AT") 1000 (probe_state cfg env powered attempts w)
        = .ret (response_of b) w3 ∧
      w3.win = w.win + 1 ∧
      hw w3.trace = hw w.trace ++ (if powered then [] else pulse cfg) ++ [probe] := by
  obtain ⟨bs, -, h2, h3, -, -, h6, h7⟩ := send_at_response_spec cfg env fuel (str "AT") 1000
    (probe_state cfg env powered attempts w)
  rw [probe_state_win, hcap] at h6 h7
  rw [probe_state_win] at h3
  rw [probe_state_hw, c_str_probe] at h2
  cases hs : send_at_response cfg env fuel (str "AT") 1000
      (probe_state cfg env powered attempts w) with
  | spin w3 => rw [hs] at h7; simp at h7
  | ret r w3 =>
    rw [hs] at h2 h3 h7
    simp only [val_ret, Option.map_some', Option.some.injEq] at h7
    exact ⟨w3, by rw [h7], h3, h2⟩

/-- A run of `m` probes that are all answered without the acknowledgment token:
the loop goes through `m` iterations and arrives, powered, at attempt counter
`attempts + m`. -/
theorem boot_loop_retries (cfg : Config) (env : Env) (fuel st : Nat) :
    ∀ (m n : Nat) (powered : Bool) (attempts : Nat) (w : World),
      attempts + m ≤ 20 →
      (∀ j, j < m → ∃ b, capture cfg env fuel 1000 (w.win + j) = some b ∧
        find b (str "OK") = none) →
      ∃ w2, boot_loop cfg env fuel st (n + m) powered attempts w
          = boot_loop cfg env fuel st n (if m = 0 then powered else true) (attempts + m) w2 ∧
        w2.win = w.win + m ∧
        hw w2.trace
          = hw w.trace ++ (if powered ∨ m = 0 then [] else pulse cfg) ++ cycles m := by
  intro m
  induction m with
  | zero =>
    intro n powered attempts w _ _
    exact ⟨w, by simp, by simp, by simp [cycles]⟩
  | succ m ih =>
    intro n powered attempts w hle hcap
    obtain ⟨b, hb, hnone⟩ := hcap 0 (Nat.succ_pos m)
    obtain ⟨w3, hs, hwin, hhw⟩ := probe_spec cfg env fuel powered attempts w b hb
    have hstep := boot_loop_retry cfg env fuel st (n + m) powered attempts w w3 (response_of b)
      (by omega) hs (find_response_none b hnone)
    obtain ⟨w2, e1, e2, e3⟩ := ih n true (attempts + 1)
      (sleep_ms env 4000 (printf env "No response or error: %s\n" [.s (c_str (response_of b))] w3))
      (by omega)
      (by
        intro j hj
        have := hcap (j + 1) (by omega)
        have hw5 : (sleep_ms env 4000 (printf env "No response or error: %s\n"
            [.s (c_str (response_of b))] w3)).win = w.win + 1 := hwin
        rw [hw5]
        rw [show w.win + 1 + j = w.win + (j + 1) by omega]
        exact this)
    refine ⟨w2, ?_, ?_, ?_⟩
    · rw [show n + (m + 1) = n + m + 1 by omega, hstep, e1]
      simp only [Nat.succ_ne_zero, if_false, ite_self]
      rw [show attempts + 1 + m = attempts + (m + 1) by omega]
    · rw [e2]
      show w3.win + m = _
      rw [hwin]; omega
    · rw [e3]
      have : hw (sleep_ms env 4000 (printf env "No response or error: %s\n"
          [.s (c_str (response_of b))] w3)).trace = hw w3.trace ++ [.sleep_ms 4000] := by
        simp [sleep_ms, printf, Event.isHw]
      rw [this, hhw]
      cases powered <;> simp [cycles]

theorem puts_hw (tr : List Event) : puts (hw tr) = puts tr := by
  induction tr with
  | nil => rfl
  | cons e tr ih =>
    rw [hw_cons]
    cases e <;> simp_all [puts, Event.isHw]

theorem gpio_hw (pin : Nat) (tr : List Event) : gpio pin (hw tr) = gpio pin tr := by
  induction tr with
  | nil => rfl
  | cons e tr ih =>
    rw [hw_cons]
    unfold gpio at ih ⊢
    cases e <;> simp only [Event.isHw, if_true, if_false, Bool.false_eq_true,
      List.filterMap_cons, ih]

theorem puts_pulse (cfg : Config) : puts (pulse cfg) = [] := rfl

theorem gpio_pulse (cfg : Config) : gpio cfg.PIN_MODEM_PWR (pulse cfg) = [true, false] := by
  simp [gpio, pulse]

theorem puts_cycles (m : Nat) : puts (cycles m) = List.replicate m (str "AT\r\n") := by
  induction m with
  | zero => rfl
  | succ m ih =>
    show str "AT\r\n" :: puts (cycles m) = _
    rw [ih, List.replicate_succ]

theorem gpio_cycles (pin m : Nat) : gpio pin (cycles m) = [] := by
  induction m with
  | zero => rfl
  | succ m ih => exact ih

theorem mem_cycles (m : Nat) (e : Event) (h : e ∈ cycles m) :
    e = probe ∨ e = .sleep_ms 4000 := by
  induction m with
  | zero => simp [cycles] at h
  | succ m ih =>
    simp only [cycles, List.mem_cons] at h
    rcases h with h | h | h
    · exact Or.inl h
    · exact Or.inr h
    · exact ih h

/-- The state in which `boot_modem` returns true is the probe's final state
followed by a clock read and diagnostic output. -/
theorem ready_state_hw (env : Env) (r : Bytes) (a b : Nat) (w3 : World) :
    hw (printf env "Modem ready after %u ms (%u attempts)\n" [.u a, .u b]
      (print_response env r (printf env "Modem responded:\n" [] (time_us_32 env w3).2))).trace
      = hw w3.trace := by
  have hq : Quiet (time_us_32 env w3).2
      (printf env "Modem ready after %u ms (%u attempts)\n" [.u a, .u b]
        (print_response env r (printf env "Modem responded:\n" [] (time_us_32 env w3).2))) :=
    ((quiet_printf env _ _ _).trans (quiet_print_response env r _)).trans (quiet_printf env _ _ _)
  rw [hq.hw_eq]
  simp [Event.isHw]

/-- Success on probe `m + 1` after `m` unanswered ones. -/
theorem boot_loop_succeeds (cfg : Config) (env : Env) (fuel st : Nat) (m n : Nat)
    (powered : Bool) (attempts : Nat) (w : World) (hle : attempts + m < 20)
    (hfail : ∀ j, j < m → ∃ b, capture cfg env fuel 1000 (w.win + j) = some b ∧
      find b (str "OK") = none)
    (hok : ∃ b, capture cfg env fuel 1000 (w.win + m) = some b ∧
      (find b (str "OK")).isSome = true) :
    ∃ w2 boot_time, boot_loop cfg env fuel st (n + 1 + m) powered attempts w = .ret true w2 ∧
      w2.trace.getLast? = some (.printf "Modem ready after %u ms (%u attempts)\n"
        [.u boot_time, .u (attempts + m + 1)]) ∧
      hw w2.trace = hw w.trace ++ (if powered then [] else pulse cfg) ++ cycles m ++ [probe] := by
  obtain ⟨w1, e1, e2, e3⟩ := boot_loop_retries cfg env fuel st m (n + 1) powered attempts w
    (by omega) hfail
  obtain ⟨b, hb, hfound⟩ := hok
  rw [← e2] at hb
  obtain ⟨w3, hs, -, hhw⟩ := probe_spec cfg env fuel (if m = 0 then powered else true)
    (attempts + m) w1 b hb
  rw [response_of_found b hfound] at hs
  have hstep := boot_loop_ready cfg env fuel st n (if m = 0 then powered else true)
    (attempts + m) w1 w3 b (by omega) hs hfound
  refine ⟨_, sub32 (u32 w3.now) st / 1000, e1.trans hstep, ?_, ?_⟩
  · simp [printf]
  · rw [ready_state_hw, hhw, e3]
    by_cases hm : m = 0
    · subst hm; cases powered <;> simp [cycles]
    · cases powered <;> simp [hm]

/-- Twenty unanswered probes exhaust the loop. -/
theorem boot_loop_exhausts (cfg : Config) (env : Env) (fuel st : Nat) (m n : Nat)
    (powered : Bool) (attempts : Nat) (w : World) (hle : attempts + m = 20)
    (hfail : ∀ j, j < m → ∃ b, capture cfg env fuel 1000 (w.win + j) = some b ∧
      find b (str "OK") = none) :
    ∃ w2, boot_loop cfg env fuel st (n + 1 + m) powered attempts w = .ret false w2 ∧
      hw w2.trace = hw w.trace ++ (if powered ∨ m = 0 then [] else pulse cfg) ++ cycles m := by
  obtain ⟨w1, e1, -, e3⟩ := boot_loop_retries cfg env fuel st m (n + 1) powered attempts w
    (by omega) hfail
  refine ⟨w1, ?_, e3⟩
  rw [e1, boot_loop_done]
  omega

/-- Whatever the transport does and however far the run gets, the loop's
actuation is: the power-up block (if still due), then only probes and
inter-attempt delays, with no more probes than attempts are left. -/
theorem boot_loop_hw (cfg : Config) (env : Env) (fuel st : Nat) :
    ∀ (n : Nat) (powered : Bool) (attempts : Nat) (w : World),
      ∃ rest : List Event,
        hw (boot_loop cfg env fuel st n powered attempts w).world.trace
          = hw w.trace ++ (if powered = false ∧ attempts < 20 ∧ 0 < n then pulse cfg else [])
              ++ rest ∧
        (∀ e ∈ rest, e = probe ∨ e = .sleep_ms 4000) ∧
        (puts rest).length ≤ 20 - attempts := by
  intro n
  induction n with
  | zero =>
    intro powered attempts w
    exact ⟨[], by simp [boot_loop_zero], by simp, by simp [puts]⟩
  | succ n ih =>
    intro powered attempts w
    by_cases ha : attempts < 20
    · obtain ⟨bs, -, h2, -, -, -, -, -⟩ := send_at_response_spec cfg env fuel (str "AT") 1000
        (probe_state cfg env powered attempts w)
      rw [probe_state_hw, c_str_probe] at h2
      have hpre : (if powered = false ∧ attempts < 20 ∧ 0 < n + 1 then pulse cfg else [])
          = (if powered then [] else pulse cfg) := by
        cases powered <;> simp [ha]
      rw [hpre]
      cases hs : send_at_response cfg env fuel (str "AT") 1000
          (probe_state cfg env powered attempts w) with
      | spin w3 =>
        rw [boot_loop_spin cfg env fuel st n powered attempts w w3 ha hs]
        rw [hs] at h2
        refine ⟨[probe], h2, by simp, ?_⟩
        simp [puts, probe]; omega
      | ret r w3 =>
        rw [hs] at h2
        simp only [world_ret] at h2
        cases hf : find r (str "OK") with
        | some pos =>
          rw [boot_loop_ready cfg env fuel st n powered attempts w w3 r ha hs (by simp [hf])]
          refine ⟨[probe], ?_, by simp, ?_⟩
          · rw [world_ret, ready_state_hw, h2]; rfl
          · simp [puts, probe]; omega
        | none =>
          rw [boot_loop_retry cfg env fuel st n powered attempts w w3 r ha hs hf]
          obtain ⟨rest, r1, r2, r3⟩ := ih true (attempts + 1)
            (sleep_ms env 4000 (printf env "No response or error: %s\n" [.s (c_str r)] w3))
          refine ⟨probe :: .sleep_ms 4000 :: rest, ?_, ?_, ?_⟩
          · rw [r1]
            have : hw (sleep_ms env 4000 (printf env "No response or error: %s\n"
                [.s (c_str r)] w3)).trace = hw w3.trace ++ [.sleep_ms 4000] := by
              simp [sleep_ms, printf, Event.isHw]
            rw [this, h2]
            simp [probe]
          · intro e he
            simp only [List.mem_cons] at he
            rcases he with h | h | h
            · exact Or.inl h
            · exact Or.inr h
            · exact r2 e h
          · have : puts (probe :: .sleep_ms 4000 :: rest) = str "AT\r\n" :: puts rest := rfl
            rw [this, List.length_cons]
            omega
    · rw [boot_loop_done cfg env fuel st n powered attempts w ha]
      exact ⟨[], by simp [ha], by simp, by simp [puts]⟩

theorem boot_modem_hw (cfg : Config) (env : Env) (fuel : Nat) (w : World) :
    ∃ rest : List Event,
      hw (boot_modem cfg env fuel w).world.trace = hw w.trace ++ pulse cfg ++ rest ∧
      (∀ e ∈ rest, e = probe ∨ e = .sleep_ms 4000) ∧
      (puts rest).length ≤ 20 := by
  obtain ⟨rest, h1, h2, h3⟩ := boot_loop_hw cfg env fuel (u32 w.now) 21 false 0
    (time_us_32 env w).2
  refine ⟨rest, ?_, h2, h3⟩
  show hw (boot_loop cfg env fuel (u32 w.now) 21 false 0 (time_us_32 env w).2).world.trace = _
  rw [h1]
  simp [Event.isHw]

theorem send_at_world (cfg : Config) (env : Env) (fuel : Nat) (cmd expected : Bytes)
    (timeout : Nat) (w : World) :
    (send_at cfg env fuel cmd expected timeout w).world
      = (send_at_response cfg env fuel cmd timeout w).world := by
  unfold send_at
  cases send_at_response cfg env fuel cmd timeout w <;> rfl

theorem send_at_hw (cfg : Config) (env : Env) (fuel : Nat) (cmd expected : Bytes)
    (timeout : Nat) (w : World) :
    hw (send_at cfg env fuel cmd expected timeout w).world.trace
      = hw w.trace ++ [.uart_puts (c_str (cmd ++ str "\r\n"))] := by
  rw [send_at_world]
  obtain ⟨bs, -, h2, -⟩ := send_at_response_spec cfg env fuel cmd timeout w
  exact h2

theorem blink_hw (cfg : Config) (env : Env) :
    ∀ (n : Nat) (w : World), ∃ rest : List Event,
      hw (blink cfg env n w).trace = hw w.trace ++ rest ∧
      ∀ e ∈ rest, (∃ d, e = .sleep_ms d) ∨ (∃ v, e = .gpio_put cfg.LED_PIN v) := by
  intro n
  induction n with
  | zero => intro w; exact ⟨[], by simp [blink], by simp⟩
  | succ n ih =>
    intro w
    obtain ⟨rest, h1, h2⟩ := ih (sleep_ms env 100 (gpio_put env cfg.LED_PIN false
        (sleep_ms env 100 (gpio_put env cfg.LED_PIN true w))))
    refine ⟨[.gpio_put cfg.LED_PIN true, .sleep_ms 100, .gpio_put cfg.LED_PIN false,
      .sleep_ms 100] ++ rest, ?_, ?_⟩
    · show hw (blink cfg env n _).trace = _
      rw [h1]
      simp [sleep_ms, gpio_put, Event.isHw]
    · intro e he
      rcases List.mem_append.mp he with h | h
      · simp only [List.mem_cons, List.mem_singleton, List.not_mem_nil, or_false] at h
        rcases h with h | h | h | h
        · exact Or.inr ⟨_, h⟩
        · exact Or.inl ⟨_, h⟩
        · exact Or.inr ⟨_, h⟩
        · exact Or.inl ⟨_, h⟩
      · exact h2 e h

/-- Actuation of `start_modem`: the power-up block comes first, and what follows
is made of UART writes, delays and LED writes only. -/
theorem start_modem_hw (cfg : Config) (env : Env) (fuel : Nat) (w : World) :
    ∃ rest : List Event,
      hw (start_modem cfg env fuel w).world.trace = hw w.trace ++ pulse cfg ++ rest ∧
      ∀ e ∈ rest, (∃ s, e = .uart_puts s) ∨ (∃ d, e = .sleep_ms d) ∨
        (∃ v, e = .gpio_put cfg.LED_PIN v) := by
  obtain ⟨rest, h1, h2, -⟩ := boot_modem_hw cfg env fuel
    (printf env "\n=== Starting Modem ===\n" [] w)
  have h0 : hw (printf env "\n=== Starting Modem ===\n" [] w).trace = hw w.trace := by
    simp [printf, Event.isHw]
  rw [h0] at h1
  have hrest : ∀ e ∈ rest, (∃ s, e = Event.uart_puts s) ∨ (∃ d, e = Event.sleep_ms d) ∨
      (∃ v, e = Event.gpio_put cfg.LED_PIN v) := by
    intro e he
    rcases h2 e he with h | h
    · exact Or.inl ⟨_, h⟩
    · exact Or.inr (Or.inl ⟨_, h⟩)
  unfold start_modem
  simp only []
  cases hb : boot_modem cfg env fuel (printf env "\n=== Starting Modem ===\n" [] w) with
  | spin w2 =>
    rw [hb] at h1
    exact ⟨rest, h1, hrest⟩
  | ret b w2 =>
    rw [hb] at h1
    simp only [world_ret] at h1
    cases b with
    | true =>
      dsimp only
      have e1 := send_at_hw cfg env fuel (str "ATE1") cfg.send_at_expected cfg.send_at_timeout
        (printf env "Modem ready\n" [] w2)
      have e0 : hw (printf env "Modem ready\n" [] w2).trace = hw w2.trace := by
        simp [printf, Event.isHw]
      rw [e0, h1] at e1
      cases hs1 : send_at cfg env fuel (str "ATE1") cfg.send_at_expected cfg.send_at_timeout
          (printf env "Modem ready\n" [] w2) with
      | spin w4 =>
        rw [hs1] at e1
        refine ⟨rest ++ [.uart_puts (c_str (str "ATE1" ++ str "\r\n"))], ?_, ?_⟩
        · simpa using e1
        · intro e he
          rcases List.mem_append.mp he with h | h
          · exact hrest e h
          · exact Or.inl ⟨_, List.mem_singleton.mp h⟩
      | ret r1 w4 =>
        rw [hs1] at e1
        simp only [world_ret] at e1
        dsimp only
        have e2 := send_at_hw cfg env fuel (str "AT+CMEE=2") cfg.send_at_expected
          cfg.send_at_timeout w4
        rw [e1] at e2
        have hfin : hw (match send_at cfg env fuel (str "AT+CMEE=2") cfg.send_at_expected
            cfg.send_at_timeout w4 with
            | .spin w5 => (Outcome.spin w5 : Outcome Bool)
            | .ret _ w5 => .ret true w5).world.trace
            = hw (send_at cfg env fuel (str "AT+CMEE=2") cfg.send_at_expected
              cfg.send_at_timeout w4).world.trace := by
          cases send_at cfg env fuel (str "AT+CMEE=2") cfg.send_at_expected
            cfg.send_at_timeout w4 <;> rfl
        refine ⟨rest ++ [.uart_puts (c_str (str "ATE1" ++ str "\r\n")),
          .uart_puts (c_str (str "AT+CMEE=2" ++ str "\r\n"))], ?_, ?_⟩
        · rw [hfin, e2]; simp
        · intro e he
          rcases List.mem_append.mp he with h | h
          · exact hrest e h
          · simp only [List.mem_cons, List.mem_singleton, List.not_mem_nil, or_false] at h
            rcases h with h | h
            · exact Or.inl ⟨_, h⟩
            · exact Or.inl ⟨_, h⟩
    | false =>
      dsimp only
      obtain ⟨rb, b1, b2⟩ := blink_hw cfg env 6 (printf env "ERROR: Modem boot failed\n" [] w2)
      have e0 : hw (printf env "ERROR: Modem boot failed\n" [] w2).trace = hw w2.trace := by
        simp [printf, Event.isHw]
      rw [e0, h1] at b1
      refine ⟨rest ++ rb, ?_, ?_⟩
      · rw [world_ret, b1]; simp
      · intro e he
        rcases List.mem_append.mp he with h | h
        · exact hrest e h
        · exact Or.inr (b2 e h)

/-! ## Results on the boot sequence -/

/-- C1: if the reply to the `k`-th `AT` probe (`1 ≤ k ≤ 20`) is the first one that
contains `OK` (the windows of probes `1..k-1` close with no byte or with bytes
not containing `OK`), then `boot_modem` returns true, its final report line
carries attempt count `k`, the UART writes it made are exactly `k` probes
`AT\r\n`, and the power line was pulsed once (driven high, then low). Probe
`j + 1` reads in the window that follows window `w.win + j`. -/
theorem boot_modem_ready_on_kth_probe (cfg : Config) (env : Env) (fuel : Nat) (w : World)
    (k : Nat) (hk1 : 1 ≤ k) (hk20 : k ≤ 20)
    (hfail : ∀ j, j + 1 < k →
      ∃ b, capture cfg env fuel 1000 (w.win + j) = some b ∧ ¬ str "OK" <:+: b)
    (hok : ∃ b, capture cfg env fuel 1000 (w.win + (k - 1)) = some b ∧ str "OK" <:+: b) :
    ∃ w2 boot_time, boot_modem cfg env fuel w = .ret true w2 ∧
      w2.trace.getLast? = some (.printf "Modem ready after %u ms (%u attempts)\n"
        [.u boot_time, .u k]) ∧
      puts w2.trace = puts w.trace ++ List.replicate k (str "AT\r\n") ∧
      gpio cfg.PIN_MODEM_PWR w2.trace = gpio cfg.PIN_MODEM_PWR w.trace ++ [true, false] := by
  obtain ⟨m, rfl⟩ : ∃ m, k = m + 1 := ⟨k - 1, by omega⟩
  obtain ⟨w2, bt, h1, h2, h3⟩ := boot_loop_succeeds cfg env fuel (u32 w.now) m (20 - m) false 0
    (time_us_32 env w).2 (by omega)
    (by
      intro j hj
      obtain ⟨b, hb, hn⟩ := hfail j (by omega)
      exact ⟨b, hb, (find_eq_none_iff b _).mpr hn⟩)
    (by
      obtain ⟨b, hb, hy⟩ := hok
      exact ⟨b, hb, (find_isSome_iff b _).mpr hy⟩)
  have hrun : boot_modem cfg env fuel w = .ret true w2 := by
    rw [← h1]
    show boot_loop cfg env fuel (u32 w.now) 21 false 0 _ = _
    rw [show 20 - m + 1 + m = 21 by omega]
    rfl
  have hhw : hw w2.trace = hw w.trace ++ pulse cfg ++ cycles m ++ [probe] := by
    rw [h3]; simp [Event.isHw]
  refine ⟨w2, bt, hrun, ?_, ?_, ?_⟩
  · rw [h2]; simp
  · rw [← puts_hw, hhw, puts_append, puts_append, puts_append, puts_hw, puts_pulse, puts_cycles,
      List.replicate_succ']
    simp [puts, probe]
  · rw [← gpio_hw, hhw, gpio_append, gpio_append, gpio_append, gpio_hw, gpio_pulse, gpio_cycles]
    simp [gpio, probe]

/-- Instance of C1 with `k = 5`: nothing is received on attempts 1 to 4 and `OK`
on attempt 5. -/
theorem boot_modem_ready_on_kth_probe_witness :
    ∃ w2 boot_time, boot_modem cfg8 env_ok_fifth 4 w_init = .ret true w2 ∧
      w2.trace.getLast? = some (.printf "Modem ready after %u ms (%u attempts)\n"
        [.u boot_time, .u 5]) ∧
      puts w2.trace = puts w_init.trace ++ List.replicate 5 (str "AT\r\n") ∧
      gpio cfg8.PIN_MODEM_PWR w2.trace = gpio cfg8.PIN_MODEM_PWR w_init.trace ++ [true, false] :=
  boot_modem_ready_on_kth_probe cfg8 env_ok_fifth 4 w_init 5 (by decide) (by decide)
    (by
      intro j hj
      have hj4 : j < 4 := by omega
      interval_cases j <;> exact ⟨[], by decide, by decide⟩)
    ⟨str "OK", by decide, by decide⟩

/-- C2: if none of the twenty probe windows delivers bytes containing `OK`
(no byte at all, which yields the text `ERROR`, or any other bytes), then
`boot_modem` returns false after writing exactly twenty probes `AT\r\n`; and for
every transport and however far the run gets, the UART writes of one
`boot_modem` call are at most twenty probes. -/
theorem boot_modem_fails_after_twenty (cfg : Config) (env : Env) (fuel : Nat) (w : World) :
    ((∀ j, j < 20 → ∃ b, capture cfg env fuel 1000 (w.win + j) = some b ∧ ¬ str "OK" <:+: b) →
      ∃ w2, boot_modem cfg env fuel w = .ret false w2 ∧
        puts w2.trace = puts w.trace ++ List.replicate 20 (str "AT\r\n")) ∧
    ∃ p, p ≤ 20 ∧
      puts (boot_modem cfg env fuel w).world.trace
        = puts w.trace ++ List.replicate p (str "AT\r\n") := by
  constructor
  · intro hfail
    obtain ⟨w2, h1, h2⟩ := boot_loop_exhausts cfg env fuel (u32 w.now) 20 0 false 0
      (time_us_32 env w).2 (by omega)
      (by
        intro j hj
        obtain ⟨b, hb, hn⟩ := hfail j hj
        exact ⟨b, hb, (find_eq_none_iff b _).mpr hn⟩)
    refine ⟨w2, h1, ?_⟩
    rw [← puts_hw, h2]
    simp only [stop_trace, hw_append, puts_append, puts_hw, puts_cycles]
    simp [puts, pulse, Event.isHw]
  · obtain ⟨rest, h1, h2, h3⟩ := boot_modem_hw cfg env fuel w
    refine ⟨(puts rest).length, h3, ?_⟩
    rw [← puts_hw, h1, puts_append, puts_append, puts_hw, puts_pulse, List.append_nil]
    congr 1
    apply List.eq_replicate_of_mem
    intro s hs
    simp only [puts, List.mem_filterMap] at hs
    obtain ⟨e, he, hes⟩ := hs
    rcases h2 e he with h | h
    · subst h; simp [probe] at hes; exact hes.symm
    · subst h; simp at hes

/-- Instance of C2: a transport that never delivers a byte. -/
theorem boot_modem_fails_after_twenty_witness :
    (∀ j, j < 20 → ∃ b, capture cfg8 env_silent 3 1000 (w_init.win + j) = some b ∧
      ¬ str "OK" <:+: b) ∧
    ∃ w2, boot_modem cfg8 env_silent 3 w_init = .ret false w2 ∧
      puts w2.trace = puts w_init.trace ++ List.replicate 20 (str "AT\r\n") :=
  have h : ∀ j, j < 20 → ∃ b, capture cfg8 env_silent 3 1000 (w_init.win + j) = some b ∧
      ¬ str "OK" <:+: b := by
    intro j hj
    interval_cases j <;> exact ⟨[], by decide, by decide⟩
  ⟨h, (boot_modem_fails_after_twenty cfg8 env_silent 3 w_init).1 h⟩

/-- C3: whatever the transport does and however many probes follow, the
actuation trace of one `boot_modem` call starts with a single pulse of
`PIN_MODEM_PWR` (high, hold 1500 ms, low) and the 35000 ms settle delay, and
everything after it is a probe `AT\r\n` or an inter-attempt delay, so the pulse
precedes the first probe, the line is left low and no retry touches it again.
For `start_modem` the same prefix is followed only by UART writes, delays and
LED writes, none of which is a write to the power line when the LED is on
another pin. -/
theorem power_pulsed_once (cfg : Config) (env : Env) (fuel : Nat) (w : World) :
    (∃ rest : List Event,
      hw (boot_modem cfg env fuel w).world.trace
        = hw w.trace ++ [.gpio_put cfg.PIN_MODEM_PWR true, .sleep_ms 1500,
            .gpio_put cfg.PIN_MODEM_PWR false, .sleep_ms 35000] ++ rest ∧
      (∀ e ∈ rest, e = .uart_puts (str "AT\r\n") ∨ e = .sleep_ms 4000) ∧
      gpio cfg.PIN_MODEM_PWR (boot_modem cfg env fuel w).world.trace
        = gpio cfg.PIN_MODEM_PWR w.trace ++ [true, false]) ∧
    (cfg.LED_PIN ≠ cfg.PIN_MODEM_PWR →
      ∃ rest : List Event,
        hw (start_modem cfg env fuel w).world.trace
          = hw w.trace ++ [.gpio_put cfg.PIN_MODEM_PWR true, .sleep_ms 1500,
              .gpio_put cfg.PIN_MODEM_PWR false, .sleep_ms 35000] ++ rest ∧
        (∀ e ∈ rest, ∀ v, e ≠ .gpio_put cfg.PIN_MODEM_PWR v) ∧
        gpio cfg.PIN_MODEM_PWR (start_modem cfg env fuel w).world.trace
          = gpio cfg.PIN_MODEM_PWR w.trace ++ [true, false]) := by
  constructor
  · obtain ⟨rest, h1, h2, -⟩ := boot_modem_hw cfg env fuel w
    refine ⟨rest, h1, h2, ?_⟩
    rw [← gpio_hw, h1, gpio_append, gpio_append, gpio_hw, gpio_pulse]
    have : gpio cfg.PIN_MODEM_PWR rest = [] := by
      simp only [gpio, List.filterMap_eq_nil_iff]
      intro e he
      rcases h2 e he with h | h <;> subst h <;> rfl
    rw [this, List.append_nil]
  · intro hpin
    obtain ⟨rest, h1, h2⟩ := start_modem_hw cfg env fuel w
    have h3 : ∀ e ∈ rest, ∀ v, e ≠ .gpio_put cfg.PIN_MODEM_PWR v := by
      intro e he v hev
      subst hev
      rcases h2 _ he with ⟨s, h⟩ | ⟨d, h⟩ | ⟨v2, h⟩
      · cases h
      · cases h
      · injection h with hp _
        exact hpin hp.symm
    refine ⟨rest, h1, h3, ?_⟩
    rw [← gpio_hw, h1, gpio_append, gpio_append, gpio_hw, gpio_pulse]
    have : gpio cfg.PIN_MODEM_PWR rest = [] := by
      simp only [gpio, List.filterMap_eq_nil_iff]
      intro e he
      cases e with
      | gpio_put p v =>
        by_cases hp : p = cfg.PIN_MODEM_PWR
        · subst hp; exact absurd rfl (h3 _ he v)
        · simp [hp]
      | _ => rfl
    rw [this, List.append_nil]

/-- Instance of C3 for `start_modem` with the LED on pin 25 and the power line on
pin 14. -/
theorem power_pulsed_once_witness :
    cfg8.LED_PIN ≠ cfg8.PIN_MODEM_PWR ∧
    ∃ rest : List Event,
      hw (start_modem cfg8 env_ok_fifth 4 w_init).world.trace
        = hw w_init.trace ++ [.gpio_put cfg8.PIN_MODEM_PWR true, .sleep_ms 1500,
            .gpio_put cfg8.PIN_MODEM_PWR false, .sleep_ms 35000] ++ rest ∧
      (∀ e ∈ rest, ∀ v, e ≠ .gpio_put cfg8.PIN_MODEM_PWR v) ∧
      gpio cfg8.PIN_MODEM_PWR (start_modem cfg8 env_ok_fifth 4 w_init).world.trace
        = gpio cfg8.PIN_MODEM_PWR w_init.trace ++ [true, false] :=
  ⟨by decide, (power_pulsed_once cfg8 env_ok_fifth 4 w_init).2 (by decide)⟩

/-! ## Results on the command channel -/

theorem eq_ret_of_val {α : Type} (o : Outcome α) (a : α) (h : o.val = some a) :
    o = .ret a o.world := by
  cases o with
  | ret v w => simp only [val_ret, Option.some.injEq] at h; rw [h]; rfl
  | spin w => simp at h

theorem response_of_ne_nil (b : Bytes) : response_of b ≠ [] := by
  unfold response_of
  split
  · decide
  · assumption

/-- A call of `send_at_response` whose window delivers `b`. -/
theorem send_at_response_of_capture (cfg : Config) (env : Env) (fuel : Nat) (cmd : Bytes)
    (timeout : Nat) (w : World) (b : Bytes)
    (hcap : capture cfg env fuel timeout w.win = some b) :
    ∃ w2, send_at_response cfg env fuel cmd timeout w = .ret (response_of b) w2 ∧
      reads w2.trace = reads w.trace ++ b := by
  obtain ⟨bs, h1, -, -, -, -, h6, h7⟩ := send_at_response_spec cfg env fuel cmd timeout w
  rw [hcap] at h6 h7
  have hret := eq_ret_of_val _ _ h7
  rw [h7] at h6
  simp only [Option.map_some', Option.some.injEq] at h6
  refine ⟨_, hret, ?_⟩
  rw [h1, h6]

/-- C4: for every command and every byte sequence `b` that the transport
delivers in the read window, `send_at_response` returns `b` itself (the same
bytes in the same order, whatever their values and however many) when `b` is
not empty, and the five-character text `ERROR` when `b` is empty; `b` is also
exactly what the call read from the UART. -/
theorem send_at_response_returns_capture (cfg : Config) (env : Env) (fuel : Nat) (cmd : Bytes)
    (timeout : Nat) (w : World) (b : Bytes)
    (hcap : capture cfg env fuel timeout w.win = some b) :
    ∃ w2, send_at_response cfg env fuel cmd timeout w
        = .ret (if b = [] then [69, 82, 82, 79, 82] else b) w2 ∧
      reads w2.trace = reads w.trace ++ b := by
  obtain ⟨w2, h1, h2⟩ := send_at_response_of_capture cfg env fuel cmd timeout w b hcap
  exact ⟨w2, h1, h2⟩

set_option maxRecDepth 200000 in
/-- Instance of C4: a reply of 52 bytes, the first of which is NUL, is returned
whole. -/
theorem send_at_response_returns_capture_witness :
    capture cfg64 env_long 60 1000 w_init.win = some long_reply ∧
    ∃ w2, send_at_response cfg64 env_long 60 (str "AT+CGMI") 1000 w_init
        = .ret (if long_reply = [] then [69, 82, 82, 79, 82] else long_reply) w2 ∧
      reads w2.trace = reads w_init.trace ++ long_reply :=
  ⟨by decide, send_at_response_returns_capture cfg64 env_long 60 (str "AT+CGMI") 1000 w_init
    long_reply (by decide)⟩

/-- C5 (as stated) fails: when the transport delivers the five bytes `ERROR`,
the call returns the text `ERROR` although five bytes were read from the UART. -/
theorem error_text_with_bytes_read :
    (send_at_response cfg8 env_error_then_ok 8 (str "AT") 1000 w_init).val
        = some (str "ERROR") ∧
      reads (send_at_response cfg8 env_error_then_ok 8 (str "AT") 1000 w_init).world.trace
        = reads w_init.trace ++ [69, 82, 82, 79, 82] := by
  decide

/-- C5 (amended): if `send_at_response` returns the text `ERROR`, then the bytes
read from the UART during that call are either none at all or exactly the five
bytes `ERROR`; and a call that read no byte returns `ERROR`. -/
theorem error_text_origin (cfg : Config) (env : Env) (fuel : Nat) (cmd : Bytes)
    (timeout : Nat) (w w2 : World) (r : Bytes)
    (h : send_at_response cfg env fuel cmd timeout w = .ret r w2) :
    ∃ bs, reads w2.trace = reads w.trace ++ bs ∧
      (r = str "ERROR" → bs = [] ∨ bs = str "ERROR") ∧
      (bs = [] → r = str "ERROR") := by
  obtain ⟨bs, h1, -, -, -, -, h6, h7⟩ := send_at_response_spec cfg env fuel cmd timeout w
  rw [h] at h1 h6 h7
  simp only [world_ret, val_ret, Option.map_some'] at h1 h6 h7
  rw [h6] at h7
  simp only [Option.map_some', Option.some.injEq] at h7
  refine ⟨bs, h1, ?_, ?_⟩
  · intro hr
    rw [h7] at hr
    unfold response_of at hr
    split at hr
    · rename_i hb; exact Or.inl hb
    · exact Or.inr hr
  · intro hb
    rw [h7, hb]
    rfl

/-- Instance of the amended C5: nothing is received and `ERROR` is returned. -/
theorem error_text_origin_witness :
    send_at_response cfg8 env_silent 3 (str "AT") 1000 w_init
        = .ret (str "ERROR") (send_at_response cfg8 env_silent 3 (str "AT") 1000 w_init).world ∧
    ∃ bs, reads (send_at_response cfg8 env_silent 3 (str "AT") 1000 w_init).world.trace
        = reads w_init.trace ++ bs ∧
      (str "ERROR" = str "ERROR" → bs = [] ∨ bs = str "ERROR") ∧
      (bs = [] → str "ERROR" = str "ERROR") :=
  ⟨eq_ret_of_val _ _ (by decide),
    error_text_origin cfg8 env_silent 3 (str "AT") 1000 w_init _ (str "ERROR")
      (eq_ret_of_val _ _ (by decide))⟩

/-- C6: for every command, timeout and response `R` that `send_at_response`
obtains, `send_at(cmd, "OK", timeout)` returns in the same state, with true if
the two bytes `OK` occur anywhere in `R` and with false if they do not; when
the window delivers no byte it returns false. -/
theorem send_at_ok_iff (cfg : Config) (env : Env) (fuel : Nat) (cmd : Bytes) (timeout : Nat)
    (w : World) :
    (∀ R w2, send_at_response cfg env fuel cmd timeout w = .ret R w2 →
      (str "OK" <:+: R → send_at cfg env fuel cmd (str "OK") timeout w = .ret true w2) ∧
      (¬ str "OK" <:+: R → send_at cfg env fuel cmd (str "OK") timeout w = .ret false w2)) ∧
    (capture cfg env fuel timeout w.win = some [] →
      ∃ w2, send_at cfg env fuel cmd (str "OK") timeout w = .ret false w2) := by
  constructor
  · intro R w2 h
    unfold send_at
    rw [h]
    constructor
    · intro hin
      have hf := (find_isSome_iff R (str "OK")).mpr hin
      have hl : R.length > 0 := by
        cases R with
        | nil => exact absurd hf (by decide)
        | cons a t => simp
      simp [hf, hl]
    · intro hin
      have hf := (find_eq_none_iff R (str "OK")).mpr hin
      simp [hf]
  · intro hcap
    obtain ⟨w2, h1, -⟩ := send_at_response_of_capture cfg env fuel cmd timeout w [] hcap
    refine ⟨w2, ?_⟩
    unfold send_at
    rw [h1]
    have : find (response_of []) (str "OK") = none := by decide
    simp [this]

/-- Instance of C6: the reply `OK` gives true, and silence gives false. -/
theorem send_at_ok_iff_witness :
    (send_at_response cfg8 env_ok_fifth 4 (str "AT") 1000 w_fourth
        = .ret (str "OK") (send_at_response cfg8 env_ok_fifth 4 (str "AT") 1000 w_fourth).world ∧
      str "OK" <:+: str "OK" ∧
      send_at cfg8 env_ok_fifth 4 (str "AT") (str "OK") 1000 w_fourth
        = .ret true (send_at_response cfg8 env_ok_fifth 4 (str "AT") 1000 w_fourth).world) ∧
    (capture cfg8 env_silent 3 1000 w_init.win = some [] ∧
      ∃ w2, send_at cfg8 env_silent 3 (str "AT") (str "OK") 1000 w_init = .ret false w2) :=
  ⟨⟨eq_ret_of_val _ _ (by decide), by decide,
      ((send_at_ok_iff cfg8 env_ok_fifth 4 (str "AT") 1000 w_fourth).1 (str "OK") _
        (eq_ret_of_val _ (str "OK") (by decide))).1 (by decide)⟩,
    ⟨by decide, (send_at_ok_iff cfg8 env_silent 3 (str "AT") 1000 w_init).2 (by decide)⟩⟩

/-- C7 (as stated) fails: with nothing captured, `send_at(cmd, "ERR", timeout)`
returns true although `ERR` does not occur in the (empty) captured bytes. -/
theorem send_at_matches_sentinel :
    (send_at cfg8 env_silent 3 (str "AT") (str "ERR") 1000 w_init).val = some true ∧
      reads (send_at cfg8 env_silent 3 (str "AT") (str "ERR") 1000 w_init).world.trace
        = reads w_init.trace ++ [] ∧
      ¬ str "ERR" <:+: ([] : Bytes) := by
  decide

/-- C7 (amended): for every command, expected text `e` and window content `b`,
`send_at(cmd, e, timeout)` returns true if and only if `e` occurs contiguously
in the response text, which is the raw captured bytes `b` when at least one
byte was captured and the text `ERROR` when none was. -/
theorem send_at_iff_in_response (cfg : Config) (env : Env) (fuel : Nat) (cmd e : Bytes)
    (timeout : Nat) (w : World) (b : Bytes)
    (hcap : capture cfg env fuel timeout w.win = some b) :
    ∃ w2 r, send_at cfg env fuel cmd e timeout w = .ret r w2 ∧
      reads w2.trace = reads w.trace ++ b ∧
      (r = true ↔ e <:+: (if b = [] then str "ERROR" else b)) := by
  obtain ⟨w2, h1, h2⟩ := send_at_response_of_capture cfg env fuel cmd timeout w b hcap
  refine ⟨w2, decide ((response_of b).length > 0) && (find (response_of b) e).isSome,
    ?_, h2, ?_⟩
  · unfold send_at
    rw [h1]
  · have hl : (response_of b).length > 0 := List.length_pos.mpr (response_of_ne_nil b)
    rw [← find_isSome_iff]
    show (decide ((response_of b).length > 0) && (find (response_of b) e).isSome) = true
      ↔ (find (response_of b) e).isSome = true
    simp [hl]

/-- Instance of the amended C7: the captured bytes `OK` contain `K`. -/
theorem send_at_iff_in_response_witness :
    capture cfg8 env_ok_fifth 4 1000 w_fourth.win = some (str "OK") ∧
    ∃ w2 r, send_at cfg8 env_ok_fifth 4 (str "AT") (str "K") 1000 w_fourth = .ret r w2 ∧
      reads w2.trace = reads w_fourth.trace ++ str "OK" ∧
      (r = true ↔ str "K" <:+: (if str "OK" = [] then str "ERROR" else str "OK")) :=
  ⟨by decide, send_at_iff_in_response cfg8 env_ok_fifth 4 (str "AT") (str "K") 1000 w_fourth
    (str "OK") (by decide)⟩

/-! ## Results on the receive buffer -/

theorem span_mono (dt : Nat → Nat) (a : Nat) {m n : Nat} (h : m ≤ n) :
    span dt a m ≤ span dt a n := by
  induction n with
  | zero =>
    have : m = 0 := by omega
    subst this
    exact Nat.le_refl _
  | succ n ih =>
    by_cases hm : m = n + 1
    · subst hm; exact Nat.le_refl _
    · have := ih (by omega)
      simp only [span]
      omega

theorem mul32_lt (a b : Nat) : mul32 a b < 4294967296 := by
  unfold mul32
  omega

/-- While a byte is ready at every poll and the deadline is not reached, the
loop reads one byte per iteration until the buffer is full, and then stops. -/
theorem poll_fills (cfg : Config) (env : Env) (timeout n0 j : Nat) (src : Bytes)
    (hsrc : ∀ m, m < src.length → env.rx j (3 * m + 3) = src[m]?)
    (hlen : cfg.UART_BUFFER_SIZE ≤ src.length)
    (htime : span (env.dt j) 1 (3 * cfg.UART_BUFFER_SIZE) < mul32 timeout 1000) :
    ∀ (r fuel : Nat) (w : World),
      w.win = j → w.op = 3 * w.rx_ptr + 2 → w.rx_ptr + r = cfg.UART_BUFFER_SIZE → r < fuel →
      w.now = n0 + span (env.dt j) 1 (3 * w.rx_ptr + 1) →
      ∃ w2, poll cfg env (u32 n0) timeout fuel w = .ret () w2 ∧
        w2.rx_ptr = cfg.UART_BUFFER_SIZE ∧
        reads w2.trace = reads w.trace ++ (src.drop w.rx_ptr).take r := by
  intro r
  induction r with
  | zero =>
    intro fuel w _ _ hfull hfuel _
    obtain ⟨f, rfl⟩ : ∃ f, fuel = f + 1 := ⟨fuel - 1, by omega⟩
    have hc : ¬ in_window cfg (u32 n0) timeout w := by
      intro h
      have := h.2
      omega
    rw [poll_stop cfg env _ timeout f w hc]
    refine ⟨_, rfl, ?_, ?_⟩
    · rw [stop_rx_ptr]; omega
    · simp
  | succ r ih =>
    intro fuel w hwin hop hfull hfuel hnow
    obtain ⟨f, rfl⟩ : ∃ f, fuel = f + 1 := ⟨fuel - 1, by omega⟩
    have hp : w.rx_ptr < cfg.UART_BUFFER_SIZE := by omega
    have hspan : span (env.dt j) 1 (3 * w.rx_ptr + 1) < mul32 timeout 1000 :=
      Nat.lt_of_le_of_lt (span_mono _ _ (by omega)) htime
    have hT := mul32_lt timeout 1000
    have hc : in_window cfg (u32 n0) timeout w := by
      refine ⟨?_, hp⟩
      rw [hnow, sub32_elapsed, Nat.mod_eq_of_lt (by omega)]
      exact hspan
    have hlt : w.rx_ptr < src.length := by omega
    have hget : src[w.rx_ptr]? = some src[w.rx_ptr] :=
      List.getElem?_eq_getElem hlt
    have hrx : env.rx w.win (w.op + 1) = some src[w.rx_ptr] := by
      rw [hwin, hop, show 3 * w.rx_ptr + 2 + 1 = 3 * w.rx_ptr + 3 by omega,
        hsrc w.rx_ptr (by omega), hget]
    rw [poll_read cfg env _ timeout f w _ hc hrx]
    obtain ⟨w2, h1, h2, h3⟩ := ih f (read_step env src[w.rx_ptr] w)
      (by simpa using hwin) (by simp [hop]; omega) (by simp; omega) (by omega)
      (by
        simp only [read_step_now, read_step_rx_ptr, hnow, hwin, hop]
        have e1 : 3 * (w.rx_ptr + 1) + 1 = 3 * w.rx_ptr + 1 + 1 + 1 + 1 := by omega
        rw [e1]
        simp only [span]
        have a1 : 1 + (3 * w.rx_ptr + 1) = 3 * w.rx_ptr + 2 := by omega
        have a2 : 1 + (3 * w.rx_ptr + 1 + 1) = 3 * w.rx_ptr + 2 + 1 := by omega
        have a3 : 1 + (3 * w.rx_ptr + 1 + 1 + 1) = 3 * w.rx_ptr + 2 + 2 := by omega
        rw [a1, a2, a3]
        omega)
    refine ⟨w2, h1, h2, ?_⟩
    rw [h3]
    simp only [read_step_trace, read_step_rx_ptr, reads_append, List.append_assoc]
    congr 1
    have hd : src.drop w.rx_ptr = src[w.rx_ptr] :: src.drop (w.rx_ptr + 1) :=
      List.drop_eq_getElem_cons hlt
    rw [hd, List.take_succ_cons]
    rfl

/-- C8: for every input and timeout, and however far the run gets,
`read_buffer` writes received bytes only at offsets below `UART_BUFFER_SIZE`,
leaves the cursor at most `UART_BUFFER_SIZE` from the start and leaves memory
outside the array untouched. When the source holds `UART_BUFFER_SIZE + k`
bytes (`k > 0`), one ready at every poll, and the reads finish before the
deadline, the call returns with exactly the first `UART_BUFFER_SIZE` bytes
stored and read; the overflow bytes are neither read nor stored and the call
returns normally. -/
theorem read_buffer_bounded (cfg : Config) (env : Env) (fuel timeout : Nat) (w : World) :
    ((∀ i ∈ read_offsets ((read_buffer cfg env fuel timeout w).world.trace.drop w.trace.length),
        i < cfg.UART_BUFFER_SIZE) ∧
      (read_buffer cfg env fuel timeout w).world.rx_ptr ≤ cfg.UART_BUFFER_SIZE ∧
      (∀ i, cfg.UART_BUFFER_SIZE ≤ i →
        (read_buffer cfg env fuel timeout w).world.uart_buffer i = w.uart_buffer i)) ∧
    (∀ (src : Bytes) (k : Nat), 0 < k → src.length = cfg.UART_BUFFER_SIZE + k →
      (∀ m, m < src.length → env.rx (w.win + 1) (3 * m + 3) = src[m]?) →
      span (env.dt (w.win + 1)) 1 (3 * cfg.UART_BUFFER_SIZE) < mul32 timeout 1000 →
      cfg.UART_BUFFER_SIZE < fuel →
      ∃ w2, read_buffer cfg env fuel timeout w = .ret () w2 ∧
        w2.rx_ptr = cfg.UART_BUFFER_SIZE ∧
        buffer_to_string w2 = src.take cfg.UART_BUFFER_SIZE ∧
        reads w2.trace = reads w.trace ++ src.take cfg.UART_BUFFER_SIZE) := by
  obtain ⟨new, h1, -, -, h4, h5, h6, h7, h8⟩ := read_buffer_inv cfg env fuel timeout w
  constructor
  · refine ⟨?_, h7, h8⟩
    intro i hi
    rw [h1, List.drop_left, h6, List.mem_range, ← h4] at hi
    omega
  · intro src k _ hlen hsrc htime hfuel
    rw [read_buffer_eq] at h1 h5 ⊢
    obtain ⟨w2, e1, e2, e3⟩ := poll_fills cfg env timeout (window_clock env w) (w.win + 1) src
      hsrc (by omega) htime cfg.UART_BUFFER_SIZE fuel (window_start cfg env w) rfl rfl
      (by show 0 + _ = _; omega) hfuel
      (by
        have hp : (window_start cfg env w).rx_ptr = 0 := rfl
        rw [hp]
        show w.now + 0 + env.dt (w.win + 1) 0 + 0 + env.dt (w.win + 1) 1 = _
        simp [window_clock, span])
    rw [e1] at h1 h5
    simp only [world_ret] at h1 h5
    have hr : reads new = src.take cfg.UART_BUFFER_SIZE := by
      have ht : (window_start cfg env w).trace
          = w.trace ++ [.clear_buffer, .time_us_32 (u32 (window_clock env w))] := by
        simp [window_start, window_clock]
      have hp : (window_start cfg env w).rx_ptr = 0 := rfl
      rw [ht, hp, h1, List.drop_zero] at e3
      simp only [reads_append] at e3
      have hz : reads [Event.clear_buffer, Event.time_us_32 (u32 (window_clock env w))] = [] := rfl
      rw [hz, List.append_nil] at e3
      exact List.append_cancel_left e3
    refine ⟨w2, e1, e2, ?_, ?_⟩
    · rw [h5, hr]
    · rw [h1, reads_append, hr]

/-- Instance of C8: six bytes offered to a 4-byte buffer. -/
theorem read_buffer_bounded_witness :
    (0 < 2 ∧ flood.length = cfg4.UART_BUFFER_SIZE + 2 ∧
      (∀ m, m < flood.length → env_flood.rx (w_init.win + 1) (3 * m + 3) = flood[m]?) ∧
      span (env_flood.dt (w_init.win + 1)) 1 (3 * cfg4.UART_BUFFER_SIZE) < mul32 1000 1000 ∧
      cfg4.UART_BUFFER_SIZE < 5) ∧
    ∃ w2, read_buffer cfg4 env_flood 5 1000 w_init = .ret () w2 ∧
      w2.rx_ptr = cfg4.UART_BUFFER_SIZE ∧
      buffer_to_string w2 = flood.take cfg4.UART_BUFFER_SIZE ∧
      reads w2.trace = reads w_init.trace ++ flood.take cfg4.UART_BUFFER_SIZE :=
  ⟨by decide, (read_buffer_bounded cfg4 env_flood 5 1000 w_init).2 flood 2 (by decide)
    (by decide) (by decide) (by decide) (by decide)⟩

theorem not_in_window_zero (cfg : Config) (start : Nat) (w : World) :
    ¬ in_window cfg start 0 w := by
  intro h
  have h1 := h.1
  have : mul32 0 1000 = 0 := by decide
  rw [this] at h1
  exact Nat.not_lt_zero _ h1

/-- The polling loop writes only below the cursor it ends with: every cell at
or past the final cursor is as it was when the loop was entered. -/
theorem poll_above (cfg : Config) (env : Env) (start timeout : Nat) :
    ∀ (fuel : Nat) (w : World) (i : Nat),
      (poll cfg env start timeout fuel w).world.rx_ptr ≤ i →
      (poll cfg env start timeout fuel w).world.uart_buffer i = w.uart_buffer i := by
  intro fuel
  induction fuel with
  | zero => intro w i _; rfl
  | succ n ih =>
    intro w i hi
    by_cases hc : in_window cfg start timeout w
    · cases hrx : env.rx w.win (w.op + 1) with
      | none =>
        rw [poll_idle cfg env start timeout n w hc hrx] at hi ⊢
        exact ih _ i hi
      | some b =>
        rw [poll_read cfg env start timeout n w b hc hrx] at hi ⊢
        obtain ⟨new, -, -, -, h4, -⟩ := poll_inv cfg env start timeout n (read_step env b w)
        rw [ih _ i hi]
        rw [h4, read_step_rx_ptr] at hi
        have : i ≠ w.rx_ptr := by omega
        simp [Function.update_noteq this]
    · rw [poll_stop cfg env start timeout n w hc]
      rfl

/-- After `read_buffer`, every cell of the array at or past the cursor is zero. -/
theorem read_buffer_rest_zero (cfg : Config) (env : Env) (fuel timeout : Nat) (w : World)
    (i : Nat) (hi : (read_buffer cfg env fuel timeout w).world.rx_ptr ≤ i)
    (hN : i < cfg.UART_BUFFER_SIZE) :
    (read_buffer cfg env fuel timeout w).world.uart_buffer i = 0 := by
  rw [read_buffer_eq] at hi ⊢
  rw [poll_above cfg env _ timeout fuel _ i hi]
  show (clear_buffer cfg env w.next_window).uart_buffer i = 0
  rw [clear_buffer_apply, if_pos hN]

/-- C9 (as stated) fails: in the state left by a capture of five bytes,
`clear_buffer()` followed by `buffer_to_string()` yields five NUL bytes, not
the empty text, and the cursor still stands at 5. -/
theorem clear_then_text_not_empty :
    w_after_error.rx_ptr = 5 ∧
      buffer_to_string w_after_error = str "ERROR" ∧
      buffer_to_string (clear_buffer cfg8 env_error_then_ok w_after_error) = [0, 0, 0, 0, 0] ∧
      (clear_buffer cfg8 env_error_then_ok w_after_error).rx_ptr = 5 := by
  decide

/-- C9 (amended): `clear_buffer()` writes zero to every cell of the receive
array, writes nothing outside it, and leaves the cursor where it was. For a
cursor inside the array, `clear_buffer()` followed by `buffer_to_string()`
therefore yields as many NUL bytes as the cursor stands from the start, which
is the empty text only when the cursor is at the start. The length is reset by
`read_buffer`: it clears the array and moves the cursor to the start before it
samples the clock and enters its polling loop with an empty text; whatever the
state before the call, the text after it is the bytes read during the call and
the array cells past them are zero, and with timeout 0 the call returns with
the cursor at the start, an empty text and an all-zero array. -/
theorem clear_buffer_keeps_cursor (cfg : Config) (env : Env) (w : World)
    (h : w.rx_ptr ≤ cfg.UART_BUFFER_SIZE) :
    (clear_buffer cfg env w).rx_ptr = w.rx_ptr ∧
      (∀ i, i < cfg.UART_BUFFER_SIZE → (clear_buffer cfg env w).uart_buffer i = 0) ∧
      (∀ i, cfg.UART_BUFFER_SIZE ≤ i →
        (clear_buffer cfg env w).uart_buffer i = w.uart_buffer i) ∧
      buffer_to_string (clear_buffer cfg env w) = List.replicate w.rx_ptr 0 ∧
      (buffer_to_string (clear_buffer cfg env w) = [] ↔ w.rx_ptr = 0) ∧
      (∀ fuel timeout : Nat, ∃ (ws : World) (start : Nat),
        read_buffer cfg env fuel timeout w = poll cfg env start timeout fuel ws ∧
        ws.trace = w.trace ++ [.clear_buffer, .time_us_32 start] ∧
        ws.rx_ptr = 0 ∧ buffer_to_string ws = [] ∧
        ∀ i, i < cfg.UART_BUFFER_SIZE → ws.uart_buffer i = 0) ∧
      (∀ fuel timeout : Nat, ∃ new : List Event,
        (read_buffer cfg env fuel timeout w).world.trace
          = w.trace ++ .clear_buffer :: new ∧
        (read_buffer cfg env fuel timeout w).world.rx_ptr = (reads new).length ∧
        buffer_to_string (read_buffer cfg env fuel timeout w).world = reads new ∧
        ∀ i, (reads new).length ≤ i → i < cfg.UART_BUFFER_SIZE →
          (read_buffer cfg env fuel timeout w).world.uart_buffer i = 0) ∧
      (∀ fuel : Nat, ∃ w2 : World,
        read_buffer cfg env (fuel + 1) 0 w = .ret () w2 ∧
        w2.rx_ptr = 0 ∧ buffer_to_string w2 = [] ∧
        ∀ i, i < cfg.UART_BUFFER_SIZE → w2.uart_buffer i = 0) := by
  have hz : ∀ (v : World) (i : Nat), i < cfg.UART_BUFFER_SIZE →
      (clear_buffer cfg env v).uart_buffer i = 0 := by
    intro v i hi
    rw [clear_buffer_apply, if_pos hi]
  have hb : buffer_to_string (clear_buffer cfg env w) = List.replicate w.rx_ptr 0 := by
    unfold buffer_to_string
    rw [clear_buffer_rx_ptr]
    apply List.eq_replicate_iff.mpr
    constructor
    · simp
    · intro b hb
      obtain ⟨i, hi, rfl⟩ := List.mem_map.mp hb
      have := List.mem_range.mp hi
      exact hz w i (by omega)
  refine ⟨rfl, hz w, ?_, hb, ?_, ?_, ?_, ?_⟩
  · intro i hi
    rw [clear_buffer_apply, if_neg (by omega)]
  · rw [hb]
    constructor
    · intro h0
      have := congrArg List.length h0
      simpa using this
    · intro h0
      rw [h0]
      rfl
  · intro fuel timeout
    refine ⟨window_start cfg env w, u32 (window_clock env w),
      read_buffer_eq cfg env fuel timeout w, ?_, rfl, ?_, ?_⟩
    · simp [window_start, window_clock]
    · simp [buffer_to_string, window_start]
    · intro i hi
      exact hz w.next_window i hi
  · intro fuel timeout
    obtain ⟨new, h1, h2, h3, h4, h5, h6, h7, h8⟩ :=
      poll_inv cfg env (u32 (window_clock env w)) timeout fuel (window_start cfg env w)
    have hp : (window_start cfg env w).rx_ptr = 0 := rfl
    have hbs : buffer_to_string (window_start cfg env w) = [] := by
      simp [buffer_to_string, hp]
    rw [hp] at h4
    rw [hbs] at h5
    have hr : reads (.time_us_32 (u32 (window_clock env w)) :: new) = reads new := rfl
    refine ⟨.time_us_32 (u32 (window_clock env w)) :: new, ?_, ?_, ?_, ?_⟩
    · rw [read_buffer_eq, h1]
      simp [window_start, window_clock]
    · rw [read_buffer_eq, h4, hr]; simp
    · rw [read_buffer_eq, h5, hr]; simp
    · intro i hi hN
      rw [hr] at hi
      apply read_buffer_rest_zero cfg env fuel timeout w i _ hN
      rw [read_buffer_eq, h4]
      simpa using hi
  · intro fuel
    refine ⟨(time_us_32 env (window_start cfg env w)).2, ?_, rfl, ?_, ?_⟩
    · rw [read_buffer_eq, poll_stop cfg env _ 0 fuel _ (not_in_window_zero cfg _ _)]
    · simp [buffer_to_string, window_start]
    · intro i hi
      exact hz w.next_window i hi

/-- Instance of the amended C9, in the state left by a capture of five bytes. -/
theorem clear_buffer_keeps_cursor_witness :
    w_after_error.rx_ptr ≤ cfg8.UART_BUFFER_SIZE ∧
    ((clear_buffer cfg8 env_error_then_ok w_after_error).rx_ptr = w_after_error.rx_ptr ∧
      (∀ i, i < cfg8.UART_BUFFER_SIZE →
        (clear_buffer cfg8 env_error_then_ok w_after_error).uart_buffer i = 0) ∧
      (∀ i, cfg8.UART_BUFFER_SIZE ≤ i →
        (clear_buffer cfg8 env_error_then_ok w_after_error).uart_buffer i
          = w_after_error.uart_buffer i) ∧
      buffer_to_string (clear_buffer cfg8 env_error_then_ok w_after_error)
        = List.replicate w_after_error.rx_ptr 0 ∧
      (buffer_to_string (clear_buffer cfg8 env_error_then_ok w_after_error) = []
        ↔ w_after_error.rx_ptr = 0) ∧
      (∀ fuel timeout : Nat, ∃ (ws : World) (start : Nat),
        read_buffer cfg8 env_error_then_ok fuel timeout w_after_error
          = poll cfg8 env_error_then_ok start timeout fuel ws ∧
        ws.trace = w_after_error.trace ++ [.clear_buffer, .time_us_32 start] ∧
        ws.rx_ptr = 0 ∧ buffer_to_string ws = [] ∧
        ∀ i, i < cfg8.UART_BUFFER_SIZE → ws.uart_buffer i = 0) ∧
      (∀ fuel timeout : Nat, ∃ new : List Event,
        (read_buffer cfg8 env_error_then_ok fuel timeout w_after_error).world.trace
          = w_after_error.trace ++ .clear_buffer :: new ∧
        (read_buffer cfg8 env_error_then_ok fuel timeout w_after_error).world.rx_ptr
          = (reads new).length ∧
        buffer_to_string (read_buffer cfg8 env_error_then_ok fuel timeout w_after_error).world
          = reads new ∧
        ∀ i, (reads new).length ≤ i → i < cfg8.UART_BUFFER_SIZE →
          (read_buffer cfg8 env_error_then_ok fuel timeout w_after_error).world.uart_buffer i
            = 0) ∧
      (∀ fuel : Nat, ∃ w2 : World,
        read_buffer cfg8 env_error_then_ok (fuel + 1) 0 w_after_error = .ret () w2 ∧
        w2.rx_ptr = 0 ∧ buffer_to_string w2 = [] ∧
        ∀ i, i < cfg8.UART_BUFFER_SIZE → w2.uart_buffer i = 0)) :=
  ⟨by decide, clear_buffer_keeps_cursor cfg8 env_error_then_ok w_after_error (by decide)⟩

/-- The bytes delivered in a window depend only on the script of that window. -/
theorem capture_congr (cfg : Config) (ea eb : Env) (fuel timeout ja jb : Nat)
    (hdt : ea.dt (ja + 1) = eb.dt (jb + 1)) (hrx : ea.rx (ja + 1) = eb.rx (jb + 1)) :
    capture cfg ea fuel timeout ja = capture cfg eb fuel timeout jb := by
  obtain ⟨bs, h1, h2, h3⟩ := read_buffer_lockstep cfg ea eb fuel timeout
    (World.blank ja) (World.blank jb) hdt hrx
  unfold capture
  cases ha : read_buffer cfg ea fuel timeout (World.blank ja) with
  | ret u wa =>
    cases hb : read_buffer cfg eb fuel timeout (World.blank jb) with
    | ret v wb =>
      rw [ha] at h1
      rw [hb] at h2
      simp only [world_ret] at h1 h2
      simp only [h1, h2]
      rfl
    | spin wb => rw [ha, hb] at h3; simp at h3
  | spin wa =>
    cases hb : read_buffer cfg eb fuel timeout (World.blank jb) with
    | ret v wb => rw [ha, hb] at h3; simp at h3
    | spin wb => rfl

/-- C10: two `send_at_response` calls whose read windows are given the same
script (the same bytes at the same polls, the same operation times) return the
same text, or are both still polling, whatever the two driver states held from
earlier captures (buffer contents, cursor, clock, trace); and the text returned
is exactly the bytes read from the UART during this call, or the text `ERROR`
when none was read. -/
theorem no_stale_bytes (cfg : Config) (ea eb : Env) (fuel : Nat) (cmd : Bytes) (timeout : Nat)
    (wa wb : World)
    (hdt : ea.dt (wa.win + 1) = eb.dt (wb.win + 1))
    (hrx : ea.rx (wa.win + 1) = eb.rx (wb.win + 1)) :
    (send_at_response cfg ea fuel cmd timeout wa).val
        = (send_at_response cfg eb fuel cmd timeout wb).val ∧
    ∃ bs : Bytes,
      reads (send_at_response cfg ea fuel cmd timeout wa).world.trace = reads wa.trace ++ bs ∧
      reads (send_at_response cfg eb fuel cmd timeout wb).world.trace = reads wb.trace ++ bs ∧
      ∀ r, (send_at_response cfg ea fuel cmd timeout wa).val = some r →
        r = if bs = [] then str "ERROR" else bs := by
  obtain ⟨ba, a1, -, -, -, -, a6, a7⟩ := send_at_response_spec cfg ea fuel cmd timeout wa
  obtain ⟨bb, b1, -, -, -, -, b6, b7⟩ := send_at_response_spec cfg eb fuel cmd timeout wb
  have hc := capture_congr cfg ea eb fuel timeout wa.win wb.win hdt hrx
  have hval : (send_at_response cfg ea fuel cmd timeout wa).val
      = (send_at_response cfg eb fuel cmd timeout wb).val := by
    rw [a7, b7, hc]
  refine ⟨hval, ?_⟩
  cases hv : (send_at_response cfg ea fuel cmd timeout wa).val with
  | none =>
    -- both runs are still polling: compare the bytes read so far
    obtain ⟨bs, l1, l2, -⟩ := read_buffer_lockstep cfg ea eb fuel timeout
      (printf ea "[TX] %s\n" [.s (c_str cmd)] (uart_puts ea (cmd ++ str "\r\n") wa))
      (printf eb "[TX] %s\n" [.s (c_str cmd)] (uart_puts eb (cmd ++ str "\r\n") wb)) hdt hrx
    have hva : (send_at_response cfg ea fuel cmd timeout wa).world
        = (read_buffer cfg ea fuel timeout
            (printf ea "[TX] %s\n" [.s (c_str cmd)] (uart_puts ea (cmd ++ str "\r\n") wa))).world := by
      unfold send_at_response at hv ⊢
      simp only [] at hv ⊢
      cases hr : read_buffer cfg ea fuel timeout
          (printf ea "[TX] %s\n" [.s (c_str cmd)] (uart_puts ea (cmd ++ str "\r\n") wa)) with
      | spin w3 => rfl
      | ret u w3 =>
        rw [hr] at hv
        dsimp only at hv
        split at hv <;> simp at hv
    have hvb : (send_at_response cfg eb fuel cmd timeout wb).world
        = (read_buffer cfg eb fuel timeout
            (printf eb "[TX] %s\n" [.s (c_str cmd)] (uart_puts eb (cmd ++ str "\r\n") wb))).world := by
      have hv2 := hv
      rw [hval] at hv2
      unfold send_at_response at hv2 ⊢
      simp only [] at hv2 ⊢
      cases hr : read_buffer cfg eb fuel timeout
          (printf eb "[TX] %s\n" [.s (c_str cmd)] (uart_puts eb (cmd ++ str "\r\n") wb)) with
      | spin w3 => rfl
      | ret u w3 =>
        rw [hr] at hv2
        dsimp only at hv2
        split at hv2 <;> simp at hv2
    refine ⟨bs, ?_, ?_, ?_⟩
    · rw [hva, l1]; simp [printf, uart_puts, reads]
    · rw [hvb, l2]; simp [printf, uart_puts, reads]
    · intro r hr; cases hr
  | some r =>
    rw [hv] at a6 a7
    have hvb := hv
    rw [hval] at hvb
    rw [hvb] at b6
    simp only [Option.map_some'] at a6 b6
    rw [a6] at hc
    rw [b6] at hc
    have hab : ba = bb := by simpa using hc
    refine ⟨ba, a1, ?_, ?_⟩
    · rw [b1, hab]
    · intro r2 hr2
      cases hr2
      rw [a6] at a7
      simp only [Option.map_some', Option.some.injEq] at a7
      rw [a7]
      rfl

/-- Instance of C10: the same two-byte reply is returned from a fresh driver
state and from the state left by an earlier, longer capture. -/
theorem no_stale_bytes_witness :
    (env_error_then_ok.dt (w_after_error.win + 1) = env_ok_fifth.dt (w_fourth.win + 1) ∧
      env_error_then_ok.rx (w_after_error.win + 1) = env_ok_fifth.rx (w_fourth.win + 1)) ∧
    ((send_at_response cfg8 env_error_then_ok 4 (str "AT") 1000 w_after_error).val
        = (send_at_response cfg8 env_ok_fifth 4 (str "AT") 1000 w_fourth).val ∧
    ∃ bs : Bytes,
      reads (send_at_response cfg8 env_error_then_ok 4 (str "AT") 1000 w_after_error).world.trace
        = reads w_after_error.trace ++ bs ∧
      reads (send_at_response cfg8 env_ok_fifth 4 (str "AT") 1000 w_fourth).world.trace
        = reads w_fourth.trace ++ bs ∧
      ∀ r, (send_at_response cfg8 env_error_then_ok 4 (str "AT") 1000 w_after_error).val = some r →
        r = if bs = [] then str "ERROR" else bs) :=
  have hdt : env_error_then_ok.dt (w_after_error.win + 1) = env_ok_fifth.dt (w_fourth.win + 1) :=
    rfl
  have hrx : env_error_then_ok.rx (w_after_error.win + 1) = env_ok_fifth.rx (w_fourth.win + 1) :=
    rfl
  ⟨⟨hdt, hrx⟩,
    no_stale_bytes cfg8 env_error_then_ok env_ok_fifth 4 (str "AT") 1000 w_after_error w_fourth
      hdt hrx⟩

/-! ## Read windows close

The results above take as given that a read window closes within the fuel
(`capture … = some b`). That is a property of the clock, not of the driver:
it holds as soon as every hardware operation of the window takes at least one
microsecond and none is long enough to jump over the rest of the 32-bit range. -/

/-- More fuel does not change a run that returned. -/
theorem poll_more_fuel (cfg : Config) (env : Env) (start timeout : Nat) :
    ∀ (fuel extra : Nat) (w w2 : World),
      poll cfg env start timeout fuel w = .ret () w2 →
      poll cfg env start timeout (fuel + extra) w = .ret () w2 := by
  intro fuel
  induction fuel with
  | zero => intro extra w w2 h; rw [poll_zero] at h; cases h
  | succ n ih =>
    intro extra w w2 h
    rw [show n + 1 + extra = (n + extra) + 1 by omega]
    by_cases hc : in_window cfg start timeout w
    · cases hrx : env.rx w.win (w.op + 1) with
      | none =>
        rw [poll_idle cfg env start timeout _ w hc hrx] at h ⊢
        exact ih extra _ _ h
      | some b =>
        rw [poll_read cfg env start timeout _ w b hc hrx] at h ⊢
        exact ih extra _ _ h
    · rw [poll_stop cfg env start timeout _ w hc] at h ⊢
      exact h

/-- A window that closed within some fuel delivers the same bytes with more. -/
theorem capture_more_fuel (cfg : Config) (env : Env) (fuel extra timeout j : Nat) (b : Bytes)
    (h : capture cfg env fuel timeout j = some b) :
    capture cfg env (fuel + extra) timeout j = some b := by
  unfold capture at h ⊢
  rw [read_buffer_eq] at h ⊢
  cases hp : poll cfg env (u32 (window_clock env (World.blank j))) timeout fuel
      (window_start cfg env (World.blank j)) with
  | spin w2 => rw [hp] at h; cases h
  | ret u w2 =>
    rw [hp] at h
    rw [poll_more_fuel cfg env _ timeout fuel extra _ w2 hp]
    exact h

/-- With a clock that advances by between 1 and `D` microseconds per operation,
the polling loop returns once the fuel covers the time left to the deadline. -/
theorem poll_returns (cfg : Config) (env : Env) (timeout n0 j D : Nat)
    (hdt : ∀ i, 1 ≤ env.dt j i ∧ env.dt j i ≤ D)
    (hroom : mul32 timeout 1000 + 3 * D ≤ 4294967296) :
    ∀ (fuel : Nat) (w : World) (e : Nat),
      w.win = j → w.now = n0 + e → e < 4294967296 → mul32 timeout 1000 ≤ e + fuel →
      ∃ w2, poll cfg env (u32 n0) timeout (fuel + 1) w = .ret () w2 := by
  intro fuel
  induction fuel with
  | zero =>
    intro w e _ hnow he hT
    have hc : ¬ in_window cfg (u32 n0) timeout w := by
      intro h
      have h1 := h.1
      rw [hnow, sub32_elapsed, Nat.mod_eq_of_lt he] at h1
      omega
    exact ⟨_, poll_stop cfg env _ timeout 0 w hc⟩
  | succ n ih =>
    intro w e hwin hnow he hT
    by_cases hc : in_window cfg (u32 n0) timeout w
    · have h1 := hc.1
      rw [hnow, sub32_elapsed, Nat.mod_eq_of_lt he] at h1
      have d0 := hdt w.op
      have d1 := hdt (w.op + 1)
      have d2 := hdt (w.op + 2)
      cases hrx : env.rx w.win (w.op + 1) with
      | none =>
        rw [poll_idle cfg env _ timeout _ w hc hrx]
        exact ih (idle_step env w) (e + env.dt j w.op + env.dt j (w.op + 1))
          (by simpa using hwin) (by simp [hnow, hwin]; omega) (by omega) (by omega)
      | some b =>
        rw [poll_read cfg env _ timeout _ w b hc hrx]
        exact ih (read_step env b w)
          (e + env.dt j w.op + env.dt j (w.op + 1) + env.dt j (w.op + 2))
          (by simpa using hwin) (by simp [hnow, hwin]; omega) (by omega) (by omega)
    · exact ⟨_, poll_stop cfg env _ timeout _ w hc⟩

/-- With a clock that advances by between 1 and `D` microseconds per operation
during the window that follows window `j`, that window closes: `capture` is
defined for all fuel above `timeout * 1000` (as computed in 32 bits). -/
theorem capture_defined (cfg : Config) (env : Env) (timeout j D extra : Nat)
    (hdt : ∀ i, 1 ≤ env.dt (j + 1) i ∧ env.dt (j + 1) i ≤ D)
    (hroom : mul32 timeout 1000 + 3 * D ≤ 4294967296) :
    ∃ b, capture cfg env (mul32 timeout 1000 + 1 + extra) timeout j = some b := by
  obtain ⟨w2, h⟩ := poll_returns cfg env timeout (window_clock env (World.blank j)) (j + 1) D
    hdt hroom (mul32 timeout 1000) (window_start cfg env (World.blank j))
    (env.dt (j + 1) 1) rfl
    (by simp [window_start, window_clock, World.blank])
    (by have := (hdt 1).2; have := mul32_lt timeout 1000; omega) (by omega)
  have h2 := poll_more_fuel cfg env _ timeout _ extra _ w2 h
  refine ⟨reads w2.trace, ?_⟩
  unfold capture
  rw [read_buffer_eq, h2]

/-! ## Results on `send_at`, zero timeout and counter wrap-around -/

theorem send_at_response_ne_nil (cfg : Config) (env : Env) (fuel : Nat) (cmd : Bytes)
    (timeout : Nat) (w w2 : World) (r : Bytes)
    (h : send_at_response cfg env fuel cmd timeout w = .ret r w2) : r ≠ [] := by
  obtain ⟨bs, -, -, -, -, -, -, h7⟩ := send_at_response_spec cfg env fuel cmd timeout w
  rw [h] at h7
  cases hc : capture cfg env fuel timeout w.win with
  | none => rw [hc] at h7; simp at h7
  | some b =>
    rw [hc] at h7
    simp only [val_ret, Option.map_some', Option.some.injEq] at h7
    rw [h7]
    exact response_of_ne_nil b

/-- C18: `send_at_response` never returns the empty string: whenever it returns,
the text has length at least 1 (captured bytes, or the five characters of
`ERROR`). Hence the conjunct `response.length() > 0` of `send_at` is always
true, and `send_at(cmd, e, t)` returns, in the same state, whether `e` is found
in the text returned by `send_at_response(cmd, t)`; it is still polling exactly
when `send_at_response` is. -/
theorem send_at_response_never_empty (cfg : Config) (env : Env) (fuel : Nat) (cmd e : Bytes)
    (timeout : Nat) (w : World) :
    (∀ r w2, send_at_response cfg env fuel cmd timeout w = .ret r w2 →
      1 ≤ r.length ∧ decide (r.length > 0) = true ∧
      send_at cfg env fuel cmd e timeout w = .ret (find r e).isSome w2) ∧
    (∀ w2, send_at_response cfg env fuel cmd timeout w = .spin w2 →
      send_at cfg env fuel cmd e timeout w = .spin w2) := by
  constructor
  · intro r w2 h
    have hne := send_at_response_ne_nil cfg env fuel cmd timeout w w2 r h
    have hl : 1 ≤ r.length := List.length_pos.mpr hne
    refine ⟨hl, by simpa using hl, ?_⟩
    unfold send_at
    rw [h]
    have : decide (r.length > 0) = true := by simpa using hl
    simp [this]
  · intro w2 h
    unfold send_at
    rw [h]

/-- Instance of C18: with nothing received the text is `ERROR`, and `send_at`
with expected text `ERR` finds it there. -/
theorem send_at_response_never_empty_witness :
    send_at_response cfg8 env_silent 3 (str "AT") 1000 w_init
        = .ret (str "ERROR") (send_at_response cfg8 env_silent 3 (str "AT") 1000 w_init).world ∧
    (1 ≤ (str "ERROR").length ∧ decide ((str "ERROR").length > 0) = true ∧
      send_at cfg8 env_silent 3 (str "AT") (str "ERR") 1000 w_init
        = .ret (find (str "ERROR") (str "ERR")).isSome
            (send_at_response cfg8 env_silent 3 (str "AT") 1000 w_init).world) :=
  ⟨eq_ret_of_val _ _ (by decide),
    (send_at_response_never_empty cfg8 env_silent 3 (str "AT") (str "ERR") 1000 w_init).1
      (str "ERROR") _ (eq_ret_of_val _ (str "ERROR") (by decide))⟩

theorem capture_zero_timeout (cfg : Config) (env : Env) (fuel j : Nat) :
    capture cfg env (fuel + 1) 0 j = some [] := by
  unfold capture
  rw [read_buffer_eq, poll_stop cfg env _ 0 fuel _ (not_in_window_zero cfg _ _)]
  rfl

/-- C19: with timeout 0 the polling loop of `read_buffer` stops at its first
evaluation of the condition: the call adds to the trace the buffer-clear marker
and two clock reads, no availability check and no read, whatever the UART
holds. Consequently `send_at_response(cmd, 0)` returns `ERROR` and
`send_at(cmd, "OK", 0)` returns false, for every command, transport and state. -/
theorem zero_timeout_reads_nothing (cfg : Config) (env : Env) (fuel : Nat) (cmd : Bytes)
    (w : World) :
    (∃ w2 t0 t1, read_buffer cfg env (fuel + 1) 0 w = .ret () w2 ∧
      w2.trace = w.trace ++ [.clear_buffer, .time_us_32 t0, .time_us_32 t1] ∧
      w2.rx_ptr = 0) ∧
    (∃ w3, send_at_response cfg env (fuel + 1) cmd 0 w = .ret (str "ERROR") w3 ∧
      reads w3.trace = reads w.trace) ∧
    (∃ w4, send_at cfg env (fuel + 1) cmd (str "OK") 0 w = .ret false w4) := by
  refine ⟨?_, ?_, ?_⟩
  · refine ⟨(time_us_32 env (window_start cfg env w)).2, u32 (window_clock env w),
      u32 (window_start cfg env w).now, ?_, ?_, ?_⟩
    · rw [read_buffer_eq, poll_stop cfg env _ 0 fuel _ (not_in_window_zero cfg _ _)]
    · simp [window_start, window_clock]
    · rfl
  · obtain ⟨w3, h1, h2⟩ := send_at_response_of_capture cfg env (fuel + 1) cmd 0 w []
      (capture_zero_timeout cfg env fuel w.win)
    exact ⟨w3, h1, by simpa using h2⟩
  · obtain ⟨w3, h1, -⟩ := send_at_response_of_capture cfg env (fuel + 1) cmd 0 w []
      (capture_zero_timeout cfg env fuel w.win)
    refine ⟨w3, ?_⟩
    unfold send_at
    rw [h1]
    have : find (response_of []) (str "OK") = none := by decide
    simp [this]

/-- C20: the elapsed value that the read loop (and `boot_modem`) computes as
`time_us_32() - start` in 32 bits equals the true elapsed time `d` whenever
`d < 2^32` microseconds, whatever the counter value `s` at the start was, also
when the counter wraps in between. So for `t * 1000 < 2^32`, an evaluation of
the loop condition of `read_buffer` made `d` microseconds after `start` was
sampled compares the true elapsed time with `t * 1000`: the loop stops there
when `d ≥ t * 1000` or the buffer is full, and otherwise polls the UART, reads
the byte on offer if there is one, and goes on. As a consequence a whole
`read_buffer` call does not depend on the counter value at which it starts:
moving the clock by any amount, across a wrap or not, leaves unchanged whether
the call returns and which bytes it reads. -/
theorem elapsed_survives_wrap (s d : Nat) (hd : d < 4294967296) :
    sub32 (u32 (s + d)) (u32 s) = d ∧
    (∀ (cfg : Config) (env : Env) (t fuel : Nat) (w : World),
      t * 1000 < 4294967296 → w.now = s + d →
      (time_us_32 env w).1 = u32 (s + d) ∧
      (in_window cfg (u32 s) t w ↔ d < t * 1000 ∧ w.rx_ptr < cfg.UART_BUFFER_SIZE) ∧
      (¬ (d < t * 1000 ∧ w.rx_ptr < cfg.UART_BUFFER_SIZE) →
        poll cfg env (u32 s) t (fuel + 1) w = .ret () (time_us_32 env w).2) ∧
      (d < t * 1000 ∧ w.rx_ptr < cfg.UART_BUFFER_SIZE →
        poll cfg env (u32 s) t (fuel + 1) w
          = match env.rx w.win (w.op + 1) with
            | some b => poll cfg env (u32 s) t fuel (read_step env b w)
            | none => poll cfg env (u32 s) t fuel (idle_step env w))) ∧
    (∀ (cfg : Config) (env : Env) (t fuel : Nat) (w : World),
      (read_buffer cfg env fuel t { w with now := s + d }).val
          = (read_buffer cfg env fuel t { w with now := s }).val ∧
        reads (read_buffer cfg env fuel t { w with now := s + d }).world.trace
          = reads (read_buffer cfg env fuel t { w with now := s }).world.trace) := by
  have h1 : sub32 (u32 (s + d)) (u32 s) = d := by
    rw [sub32_elapsed, Nat.mod_eq_of_lt hd]
  refine ⟨h1, ?_, ?_⟩
  · intro cfg env t fuel w ht hnow
    have hm : mul32 t 1000 = t * 1000 := by
      unfold mul32 u32
      have : t % 4294967296 = t := Nat.mod_eq_of_lt (by omega)
      rw [this, show (1000 : Nat) % 4294967296 = 1000 by rfl, Nat.mod_eq_of_lt ht]
    have hiff : in_window cfg (u32 s) t w ↔ d < t * 1000 ∧ w.rx_ptr < cfg.UART_BUFFER_SIZE := by
      unfold in_window
      rw [hnow, h1, hm]
    refine ⟨by simp [time_us_32, hnow], hiff, ?_, ?_⟩
    · intro hn
      exact poll_stop cfg env _ t fuel w (fun h => hn (hiff.mp h))
    · intro hc
      cases hrx : env.rx w.win (w.op + 1) with
      | none => exact poll_idle cfg env _ t fuel w (hiff.mpr hc) hrx
      | some b => exact poll_read cfg env _ t fuel w b (hiff.mpr hc) hrx
  · intro cfg env t fuel w
    obtain ⟨bs, a1, a2, a3⟩ := read_buffer_lockstep cfg env env fuel t
      { w with now := s + d } { w with now := s } rfl rfl
    exact ⟨a3, by rw [a1, a2]⟩

/-- Instance of C20: the counter starts 967296 microseconds before it wraps and
two seconds pass. With a timeout of 1000 ms the loop stops at that evaluation,
with a timeout of 3000 ms it polls and goes on; and a whole window started
just before the wrap reads the same two bytes as one started at counter 0. -/
theorem elapsed_survives_wrap_witness :
    ((2000000 : Nat) < 4294967296 ∧
      sub32 (u32 (4294000000 + 2000000)) (u32 4294000000) = 2000000) ∧
    (1000 * 1000 < 4294967296 ∧
      ¬ (2000000 < 1000 * 1000 ∧ w_init.rx_ptr < cfg8.UART_BUFFER_SIZE) ∧
      poll cfg8 env_silent (u32 4294000000) 1000 1
          { w_init with now := 4294000000 + 2000000 }
        = .ret () (time_us_32 env_silent { w_init with now := 4294000000 + 2000000 }).2) ∧
    (3000 * 1000 < 4294967296 ∧
      (2000000 < 3000 * 1000 ∧ w_init.rx_ptr < cfg8.UART_BUFFER_SIZE) ∧
      poll cfg8 env_silent (u32 4294000000) 3000 1
          { w_init with now := 4294000000 + 2000000 }
        = poll cfg8 env_silent (u32 4294000000) 3000 0
            (idle_step env_silent { w_init with now := 4294000000 + 2000000 })) ∧
    ((read_buffer cfg8 env_ok_fifth 4 1000 { w_fourth with now := 4294000000 + 2000000 }).val
        = (read_buffer cfg8 env_ok_fifth 4 1000 { w_fourth with now := 4294000000 }).val ∧
      reads (read_buffer cfg8 env_ok_fifth 4 1000
          { w_fourth with now := 4294000000 + 2000000 }).world.trace
        = reads (read_buffer cfg8 env_ok_fifth 4 1000
          { w_fourth with now := 4294000000 }).world.trace) :=
  ⟨⟨by decide, (elapsed_survives_wrap 4294000000 2000000 (by decide)).1⟩,
    ⟨by decide, by decide,
      ((elapsed_survives_wrap 4294000000 2000000 (by decide)).2.1 cfg8 env_silent 1000 0
        { w_init with now := 4294000000 + 2000000 } (by decide) rfl).2.2.1 (by decide)⟩,
    ⟨by decide, by decide,
      ((elapsed_survives_wrap 4294000000 2000000 (by decide)).2.1 cfg8 env_silent 3000 0
        { w_init with now := 4294000000 + 2000000 } (by decide) rfl).2.2.2 (by decide)⟩,
    (elapsed_survives_wrap 4294000000 2000000 (by decide)).2.2 cfg8 env_ok_fifth 1000 4
      w_fourth⟩

/-! ## Results on the SIM check -/

theorem puts_printf (env : Env) (fmt : String) (args : List Arg) (w : World) :
    puts (printf env fmt args w).trace = puts w.trace := by
  simp [printf, puts]

/-- C11: for every response `R` to the SIM-status command (the bytes `b`
captured for `AT+CPIN?`, or `ERROR` when none were), `check_sim` classifies `R`
by fixed priority (`READY`, else `SIM PIN`, else `SIM PUK`, else not detected),
reports the class in its last diagnostic line and returns true exactly for
ready; the only UART write is the command. A response with `READY` is ready
whatever else it contains, and the text `ERROR` is not detected. -/
theorem check_sim_classifies (cfg : Config) (env : Env) (fuel : Nat) (w : World) (b : Bytes)
    (hcap : capture cfg env fuel 1000 w.win = some b) :
    (∃ w3, check_sim cfg env fuel w
        = .ret (decide (classify_sim (if b = [] then str "ERROR" else b) = .ready)) w3 ∧
      w3.trace.getLast?
        = some (.printf (classify_sim (if b = [] then str "ERROR" else b)).line []) ∧
      puts w3.trace = puts w.trace ++ [str "AT+CPIN?\r\n"]) ∧
    (∀ R : Bytes, str "READY" <:+: R → classify_sim R = .ready) ∧
    classify_sim (str "ERROR") = .not_detected := by
  refine ⟨?_, ?_, by decide⟩
  · obtain ⟨w2, h1, -⟩ := send_at_response_of_capture cfg env fuel (str "AT+CPIN?") 1000
      (printf env "\n=== Checking SIM ===\n" [] w) b hcap
    obtain ⟨bs, -, h2, -⟩ := send_at_response_spec cfg env fuel (str "AT+CPIN?") 1000
      (printf env "\n=== Checking SIM ===\n" [] w)
    rw [h1] at h2
    simp only [world_ret] at h2
    have hp : puts (print_response env (response_of b) w2).trace
        = puts w.trace ++ [str "AT+CPIN?\r\n"] := by
      rw [← puts_hw, (quiet_print_response env (response_of b) w2).hw_eq, h2]
      have hc : c_str (str "AT+CPIN?" ++ str "\r\n") = str "AT+CPIN?\r\n" := by decide
      have h0 : hw (printf env "\n=== Checking SIM ===\n" [] w).trace = hw w.trace := by
        simp [printf, Event.isHw]
      rw [hc, h0, puts_append, puts_hw]
      rfl
    have hR : (if b = [] then str "ERROR" else b) = response_of b := rfl
    rw [hR]
    unfold check_sim
    simp only []
    rw [h1]
    dsimp only
    unfold classify_sim
    by_cases c1 : str "READY" <:+: response_of b
    · have f1 := (find_isSome_iff (response_of b) (str "READY")).mpr c1
      rw [if_pos f1, if_pos c1]
      exact ⟨_, rfl, by simp [printf, SimStatus.line], (puts_printf env _ _ _).trans hp⟩
    · have f1 : ¬ (find (response_of b) (str "READY")).isSome = true :=
        fun h => c1 ((find_isSome_iff _ _).mp h)
      rw [if_neg f1, if_neg c1]
      by_cases c2 : str "SIM PIN" <:+: response_of b
      · have f2 := (find_isSome_iff (response_of b) (str "SIM PIN")).mpr c2
        rw [if_pos f2, if_pos c2]
        exact ⟨_, rfl, by simp [printf, SimStatus.line], (puts_printf env _ _ _).trans hp⟩
      · have f2 : ¬ (find (response_of b) (str "SIM PIN")).isSome = true :=
          fun h => c2 ((find_isSome_iff _ _).mp h)
        rw [if_neg f2, if_neg c2]
        by_cases c3 : str "SIM PUK" <:+: response_of b
        · have f3 := (find_isSome_iff (response_of b) (str "SIM PUK")).mpr c3
          rw [if_pos f3, if_pos c3]
          exact ⟨_, rfl, by simp [printf, SimStatus.line], (puts_printf env _ _ _).trans hp⟩
        · have f3 : ¬ (find (response_of b) (str "SIM PUK")).isSome = true :=
            fun h => c3 ((find_isSome_iff _ _).mp h)
          rw [if_neg f3, if_neg c3]
          exact ⟨_, rfl, by simp [printf, SimStatus.line], (puts_printf env _ _ _).trans hp⟩
  · intro R h
    unfold classify_sim
    rw [if_pos h]

set_option maxRecDepth 200000 in
/-- Instance of C11: a response holding both `SIM PIN` and `READY` is classified
ready. -/
theorem check_sim_classifies_witness :
    capture cfg64 (env_say (str "SIM PIN READY")) 20 1000 w_init.win
        = some (str "SIM PIN READY") ∧
    ∃ w3, check_sim cfg64 (env_say (str "SIM PIN READY")) 20 w_init
        = .ret (decide (classify_sim
            (if str "SIM PIN READY" = [] then str "ERROR" else str "SIM PIN READY") = .ready)) w3 ∧
      w3.trace.getLast?
        = some (.printf (classify_sim
            (if str "SIM PIN READY" = [] then str "ERROR" else str "SIM PIN READY")).line []) ∧
      puts w3.trace = puts w_init.trace ++ [str "AT+CPIN?\r\n"] :=
  ⟨by decide, (check_sim_classifies cfg64 (env_say (str "SIM PIN READY")) 20 w_init
    (str "SIM PIN READY") (by decide)).1⟩

/-! ## Order of events within a command -/

theorem poll_shaped_mem : ∀ (new : List Event), poll_shaped new = true →
    ∀ e ∈ new, e.isPoll = true := by
  intro new
  induction new using poll_shaped.induct with
  | case1 => intro _ e he; simp at he
  | case2 t => intro _ e he; simp at he; subst he; rfl
  | case3 t rest ih =>
    intro h e he
    simp only [poll_shaped] at h
    simp only [List.mem_cons] at he
    rcases he with rfl | rfl | he
    · rfl
    · rfl
    · exact ih h e he
  | case4 t i b rest ih =>
    intro h e he
    simp only [poll_shaped] at h
    simp only [List.mem_cons] at he
    rcases he with rfl | rfl | rfl | he
    · rfl
    · rfl
    · rfl
    · exact ih h e he
  | case5 l h1 h2 h3 h4 =>
    intro h
    rw [poll_shaped] at h
    · cases h
    all_goals assumption

/-- The events added by the polling loop have the shape of whole iterations. -/
theorem poll_shape (cfg : Config) (env : Env) (start timeout : Nat) :
    ∀ (fuel : Nat) (w : World), ∃ new : List Event,
      (poll cfg env start timeout fuel w).world.trace = w.trace ++ new ∧
      poll_shaped new = true := by
  intro fuel
  induction fuel with
  | zero => intro w; exact ⟨[], by simp [poll_zero], rfl⟩
  | succ n ih =>
    intro w
    by_cases hc : in_window cfg start timeout w
    · cases hrx : env.rx w.win (w.op + 1) with
      | none =>
        rw [poll_idle cfg env start timeout n w hc hrx]
        obtain ⟨new, h1, h2⟩ := ih (idle_step env w)
        refine ⟨.time_us_32 (u32 w.now) :: .uart_is_readable false :: new, ?_, ?_⟩
        · rw [h1]; simp [hrx]
        · simpa [poll_shaped] using h2
      | some b =>
        rw [poll_read cfg env start timeout n w b hc hrx]
        obtain ⟨new, h1, h2⟩ := ih (read_step env b w)
        refine ⟨.time_us_32 (u32 w.now) :: .uart_is_readable true ::
          .uart_read_blocking w.rx_ptr b :: new, ?_, ?_⟩
        · rw [h1]; simp [hrx]
        · simpa [poll_shaped] using h2
    · rw [poll_stop cfg env start timeout n w hc]
      exact ⟨[.time_us_32 (u32 w.now)], by simp, rfl⟩

/-- The events of one `read_buffer` call: the buffer-clear marker, the clock
read that samples `start`, then whole iterations of the polling loop. -/
theorem read_buffer_shape (cfg : Config) (env : Env) (fuel timeout : Nat) (w : World) :
    ∃ (t0 : Nat) (new : List Event),
      (read_buffer cfg env fuel timeout w).world.trace
        = w.trace ++ [.clear_buffer, .time_us_32 t0] ++ new ∧
      poll_shaped new = true ∧
      (read_buffer cfg env fuel timeout w).world.rx_ptr = (reads new).length ∧
      buffer_to_string (read_buffer cfg env fuel timeout w).world = reads new ∧
      read_offsets new = List.range (reads new).length := by
  rw [read_buffer_eq]
  obtain ⟨new, h1, h2⟩ := poll_shape cfg env (u32 (window_clock env w)) timeout fuel
    (window_start cfg env w)
  obtain ⟨new2, g1, -, -, g4, g5, g6, -, -⟩ := poll_inv cfg env (u32 (window_clock env w))
    timeout fuel (window_start cfg env w)
  have hnew : new2 = new := by
    rw [h1] at g1
    exact (List.append_cancel_left g1).symm
  subst hnew
  have ht : (window_start cfg env w).trace
      = w.trace ++ [.clear_buffer, .time_us_32 (u32 (window_clock env w))] := by
    simp [window_start, window_clock]
  have hp : (window_start cfg env w).rx_ptr = 0 := rfl
  have hb : buffer_to_string (window_start cfg env w) = [] := by
    simp [buffer_to_string, hp]
  rw [hp] at g4 g6
  rw [hb] at g5
  refine ⟨u32 (window_clock env w), new2, ?_, h2, ?_, ?_, ?_⟩
  · rw [h1, ht]
  · simpa using g4
  · simpa using g5
  · simpa using g6

/-- In a trace of whole loop iterations, every one-byte read directly follows
an availability check that returned true. -/
theorem read_follows_check : ∀ (l : List Event), poll_shaped l = true →
    ∀ (pre post : List Event) (i : Nat) (b : Byte),
      l = pre ++ .uart_read_blocking i b :: post →
      ∃ pre2, pre = pre2 ++ [.uart_is_readable true] := by
  intro l
  induction l using poll_shaped.induct with
  | case1 =>
    intro _ pre post i b h
    simp at h
  | case2 t =>
    intro _ pre post i b h
    cases pre with
    | nil => simp at h
    | cons p pre => simp at h
  | case3 t rest ih =>
    intro hs pre post i b h
    simp only [poll_shaped] at hs
    cases pre with
    | nil => simp at h
    | cons p pre =>
      cases pre with
      | nil => simp at h
      | cons q pre =>
        simp only [List.cons_append, List.cons.injEq] at h
        obtain ⟨rfl, rfl, h3⟩ := h
        obtain ⟨pre2, rfl⟩ := ih hs pre post i b h3
        exact ⟨_ :: _ :: pre2, rfl⟩
  | case4 t j c rest ih =>
    intro hs pre post i b h
    simp only [poll_shaped] at hs
    cases pre with
    | nil => simp at h
    | cons p pre =>
      cases pre with
      | nil => simp at h
      | cons q pre =>
        cases pre with
        | nil =>
          simp only [List.cons_append, List.nil_append, List.cons.injEq] at h
          obtain ⟨rfl, rfl, -⟩ := h
          exact ⟨[_], rfl⟩
        | cons r pre =>
          simp only [List.cons_append, List.cons.injEq] at h
          obtain ⟨rfl, rfl, rfl, h4⟩ := h
          obtain ⟨pre2, rfl⟩ := ih hs pre post i b h4
          exact ⟨_ :: _ :: _ :: pre2, rfl⟩
  | case5 l h1 h2 h3 h4 =>
    intro hs
    rw [poll_shaped] at hs
    · cases hs
    all_goals assumption

/-- C16: for every input and timeout, and however far the run gets, the events
of `read_buffer` after the clear marker and the first clock read are whole loop
iterations, so every one-byte read directly follows an availability check that
returned true and every such check is followed by one read. The bytes read,
in order, are what the buffer holds: the `i`-th byte read was the only one
written at offset `i` and stands at `uart_buffer[i]`, the offsets written are
`0, 1, ..., n-1` in this order, and the cursor (the captured length) equals the
number `n` of reads. -/
theorem read_buffer_stores_in_order (cfg : Config) (env : Env) (fuel timeout : Nat)
    (w : World) :
    ∃ (t0 : Nat) (new : List Event),
      (read_buffer cfg env fuel timeout w).world.trace
        = w.trace ++ [.clear_buffer, .time_us_32 t0] ++ new ∧
      poll_shaped new = true ∧
      (read_buffer cfg env fuel timeout w).world.rx_ptr = (reads new).length ∧
      buffer_to_string (read_buffer cfg env fuel timeout w).world = reads new ∧
      read_offsets new = List.range (reads new).length ∧
      (∀ i, i < (reads new).length →
        (reads new)[i]? = some ((read_buffer cfg env fuel timeout w).world.uart_buffer i)) ∧
      ∀ (pre post : List Event) (i : Nat) (b : Byte),
        new = pre ++ .uart_read_blocking i b :: post →
        ∃ pre2, pre = pre2 ++ [.uart_is_readable true] := by
  obtain ⟨t0, new, h1, h2, h3, h4, h5⟩ := read_buffer_shape cfg env fuel timeout w
  refine ⟨t0, new, h1, h2, h3, h4, h5, ?_, read_follows_check new h2⟩
  intro i hi
  rw [← h4]
  unfold buffer_to_string
  rw [h3]
  simp [List.getElem?_map, List.getElem?_range hi]

/-- Instance of C16: six bytes offered to a 4-byte buffer; four are read, each
after a successful availability check, and stored at offsets 0 to 3. -/
theorem read_buffer_stores_in_order_witness :
    (reads (read_buffer cfg4 env_flood 5 1000 w_init).world.trace = [70, 76, 79, 79] ∧
      read_offsets (read_buffer cfg4 env_flood 5 1000 w_init).world.trace = [0, 1, 2, 3] ∧
      buffer_to_string (read_buffer cfg4 env_flood 5 1000 w_init).world = [70, 76, 79, 79]) ∧
    ∃ (t0 : Nat) (new : List Event),
      (read_buffer cfg4 env_flood 5 1000 w_init).world.trace
        = w_init.trace ++ [.clear_buffer, .time_us_32 t0] ++ new ∧
      poll_shaped new = true ∧
      (read_buffer cfg4 env_flood 5 1000 w_init).world.rx_ptr = (reads new).length ∧
      buffer_to_string (read_buffer cfg4 env_flood 5 1000 w_init).world = reads new ∧
      read_offsets new = List.range (reads new).length ∧
      (∀ i, i < (reads new).length →
        (reads new)[i]? = some ((read_buffer cfg4 env_flood 5 1000 w_init).world.uart_buffer i)) ∧
      ∀ (pre post : List Event) (i : Nat) (b : Byte),
        new = pre ++ .uart_read_blocking i b :: post →
        ∃ pre2, pre = pre2 ++ [.uart_is_readable true] :=
  ⟨by decide, read_buffer_stores_in_order cfg4 env_flood 5 1000 w_init⟩

theorem c_str_of_no_nul (s : Bytes) (h : (0 : Byte) ∉ s) : c_str s = s := by
  unfold c_str
  rw [List.takeWhile_eq_self_iff]
  intro b hb
  have : b ≠ 0 := fun h0 => h (h0 ▸ hb)
  simpa using this

theorem puts_of_poll (new : List Event) (h : ∀ e ∈ new, e.isPoll = true) : puts new = [] := by
  induction new with
  | nil => rfl
  | cons e tl ih =>
    have he := h e (List.mem_cons_self _ _)
    have := ih (fun x hx => h x (List.mem_cons_of_mem _ hx))
    cases e <;> simp_all [Event.isPoll, puts]

theorem puts_of_printf (new : List Event) (h : ∀ e ∈ new, e.isPrintf = true) : puts new = [] := by
  induction new with
  | nil => rfl
  | cons e tl ih =>
    have he := h e (List.mem_cons_self _ _)
    have := ih (fun x hx => h x (List.mem_cons_of_mem _ hx))
    cases e <;> simp_all [Event.isPrintf, puts]

/-- The events of one `send_at_response` call, in order: the UART write of the
command line, its log line, the events of `read_buffer`, then log lines. -/
theorem send_at_response_trace (cfg : Config) (env : Env) (fuel : Nat) (cmd : Bytes)
    (timeout : Nat) (w : World) :
    ∃ (t0 : Nat) (mid tail : List Event),
      (send_at_response cfg env fuel cmd timeout w).world.trace
        = w.trace ++ [.uart_puts (c_str (cmd ++ str "\r\n")), .printf "[TX] %s\n" [.s (c_str cmd)],
            .clear_buffer, .time_us_32 t0] ++ mid ++ tail ∧
      poll_shaped mid = true ∧ (∀ e ∈ tail, e.isPrintf = true) := by
  obtain ⟨t0, mid, h1, h2, -⟩ := read_buffer_shape cfg env fuel timeout
    (printf env "[TX] %s\n" [.s (c_str cmd)] (uart_puts env (cmd ++ str "\r\n") w))
  have ht2 : (printf env "[TX] %s\n" [.s (c_str cmd)]
      (uart_puts env (cmd ++ str "\r\n") w)).trace
      = w.trace ++ [.uart_puts (c_str (cmd ++ str "\r\n")), .printf "[TX] %s\n" [.s (c_str cmd)]] := by
    simp [printf, uart_puts]
  rw [ht2] at h1
  unfold send_at_response
  simp only []
  cases hr : read_buffer cfg env fuel timeout
      (printf env "[TX] %s\n" [.s (c_str cmd)] (uart_puts env (cmd ++ str "\r\n") w)) with
  | spin w3 =>
    rw [hr] at h1
    simp only [world_spin] at h1 ⊢
    exact ⟨t0, mid, [], by rw [h1]; simp, h2, by simp⟩
  | ret u w3 =>
    rw [hr] at h1
    simp only [world_ret] at h1
    dsimp only
    by_cases hpos : w3.rx_ptr > 0
    · rw [if_pos hpos]
      have hq : Quiet w3 (printf env "\n" []
          (dump_raw env
            (List.take 50 (buffer_to_string
              (printf env "[RX] Raw: " [] (printf env "[RX] Read %u bytes\n" [.u w3.rx_ptr] w3))))
            (printf env "[RX] Raw: " [] (printf env "[RX] Read %u bytes\n" [.u w3.rx_ptr] w3)))) :=
        ((quiet_printf env _ _ w3).trans (quiet_printf env _ _ _)).trans
          ((quiet_dump_raw env _ _).trans (quiet_printf env _ _ _))
      obtain ⟨-, -, -, tail, q1, q2⟩ := hq
      refine ⟨t0, mid, tail, ?_, h2, q2⟩
      rw [world_ret, q1, h1]
      simp
    · rw [if_neg hpos]
      refine ⟨t0, mid, [.printf "[RX] Read %u bytes\n" [.u w3.rx_ptr]], ?_, h2, ?_⟩
      · rw [world_ret]
        show w3.trace ++ [_] = _
        rw [h1]
        simp
      · intro e he
        simp only [List.mem_singleton] at he
        subst he
        rfl

/-- C13: for every command text without a NUL byte, one `send_at_response` call
writes to the UART exactly the bytes of `cmd` followed by `\r\n`, once, as the
first event of the call: the log line, the clearing of the receive buffer, the
sampling of `start` and every poll and read of reply bytes come after it, and
nothing else is written to the UART. This holds however far the run gets. -/
theorem command_written_first (cfg : Config) (env : Env) (fuel : Nat) (cmd : Bytes)
    (timeout : Nat) (w : World) (hnul : (0 : Byte) ∉ cmd) :
    ∃ (t0 : Nat) (rest : List Event),
      (send_at_response cfg env fuel cmd timeout w).world.trace
        = w.trace ++ [.uart_puts (cmd ++ str "\r\n"), .printf "[TX] %s\n" [.s cmd],
            .clear_buffer, .time_us_32 t0] ++ rest ∧
      puts rest = [] ∧ .clear_buffer ∉ rest ∧
      reads (send_at_response cfg env fuel cmd timeout w).world.trace
        = reads w.trace ++ reads rest := by
  obtain ⟨t0, mid, tail, h1, h2, h3⟩ := send_at_response_trace cfg env fuel cmd timeout w
  have hc1 : c_str (cmd ++ str "\r\n") = cmd ++ str "\r\n" := by
    apply c_str_of_no_nul
    intro hb
    rcases List.mem_append.mp hb with h | h
    · exact hnul h
    · have hcr : (0 : Byte) ∉ str "\r\n" := by decide
      exact hcr h
  have hc2 : c_str cmd = cmd := c_str_of_no_nul cmd hnul
  rw [hc1, hc2] at h1
  have hmid := poll_shaped_mem mid h2
  refine ⟨t0, mid ++ tail, ?_, ?_, ?_, ?_⟩
  · rw [h1, List.append_assoc]
  · rw [puts_append, puts_of_poll mid hmid, puts_of_printf tail h3]
    rfl
  · intro hm
    rcases List.mem_append.mp hm with h | h
    · exact absurd (hmid _ h) (by decide)
    · exact absurd (h3 _ h) (by decide)
  · rw [h1]
    simp [reads]

/-- Instance of C13 for the command `AT+CPIN?`. -/
theorem command_written_first_witness :
    (0 : Byte) ∉ str "AT+CPIN?" ∧
    ∃ (t0 : Nat) (rest : List Event),
      (send_at_response cfg8 env_ok_fifth 4 (str "AT+CPIN?") 1000 w_fourth).world.trace
        = w_fourth.trace ++ [.uart_puts (str "AT+CPIN?" ++ str "\r\n"),
            .printf "[TX] %s\n" [.s (str "AT+CPIN?")], .clear_buffer, .time_us_32 t0] ++ rest ∧
      puts rest = [] ∧ .clear_buffer ∉ rest ∧
      reads (send_at_response cfg8 env_ok_fifth 4 (str "AT+CPIN?") 1000 w_fourth).world.trace
        = reads w_fourth.trace ++ reads rest :=
  ⟨by decide, command_written_first cfg8 env_ok_fifth 4 (str "AT+CPIN?") 1000 w_fourth
    (by decide)⟩

/-! ## Results on `start_modem` -/

/-- A `send_at` call whose window closes: it returns, one window later, having
written its command line. -/
theorem send_at_of_capture (cfg : Config) (env : Env) (fuel : Nat) (cmd expected : Bytes)
    (timeout : Nat) (w : World) (b : Bytes)
    (hcap : capture cfg env fuel timeout w.win = some b) :
    ∃ w3 r, send_at cfg env fuel cmd expected timeout w = .ret r w3 ∧
      w3.win = w.win + 1 ∧
      hw w3.trace = hw w.trace ++ [.uart_puts (c_str (cmd ++ str "\r\n"))] := by
  obtain ⟨w3, h1, -⟩ := send_at_response_of_capture cfg env fuel cmd timeout w b hcap
  obtain ⟨bs, -, h2, h3, -⟩ := send_at_response_spec cfg env fuel cmd timeout w
  rw [h1] at h2 h3
  refine ⟨w3, decide ((response_of b).length > 0) && (find (response_of b) expected).isSome,
    ?_, h3, h2⟩
  unfold send_at
  rw [h1]

/-- C14 (as stated) fails: after `boot_modem` reaches Ready on the first probe,
the commands written are `ATE1` and `AT+CMEE=2`; the echo-off command `ATE0`
is not sent. -/
theorem start_modem_sends_ate1 :
    (start_modem cfg8 (env_say (str "OK")) 4 w_init).val = some true ∧
      puts (start_modem cfg8 (env_say (str "OK")) 4 w_init).world.trace
        = [str "AT\r\n", str "ATE1\r\n", str "AT+CMEE=2\r\n"] ∧
      str "ATE0\r\n" ∉ puts (start_modem cfg8 (env_say (str "OK")) 4 w_init).world.trace := by
  decide

/-- C14 (amended): when the `boot_modem` call of `start_modem` reaches Ready,
`start_modem` issues exactly two further commands, in order: `ATE1` (the echo
command with parameter 1) and `AT+CMEE=2`, and returns true whatever bytes
`b1`, `b2` (none included) the two reply windows deliver; when `boot_modem`
returns false, `start_modem` returns false without writing anything more to
the UART. In both cases its result is the result of `boot_modem`. -/
theorem start_modem_result (cfg : Config) (env : Env) (fuel : Nat) (w : World) :
    (∀ w2 b1 b2,
      boot_modem cfg env fuel (printf env "\n=== Starting Modem ===\n" [] w) = .ret true w2 →
      capture cfg env fuel cfg.send_at_timeout w2.win = some b1 →
      capture cfg env fuel cfg.send_at_timeout (w2.win + 1) = some b2 →
      ∃ w5, start_modem cfg env fuel w = .ret true w5 ∧
        puts w5.trace = puts w2.trace ++ [str "ATE1\r\n", str "AT+CMEE=2\r\n"]) ∧
    (∀ w2,
      boot_modem cfg env fuel (printf env "\n=== Starting Modem ===\n" [] w) = .ret false w2 →
      ∃ w5, start_modem cfg env fuel w = .ret false w5 ∧ puts w5.trace = puts w2.trace) := by
  constructor
  · intro w2 b1 b2 hboot h1 h2
    obtain ⟨w4, r1, s1, s2, s3⟩ := send_at_of_capture cfg env fuel (str "ATE1")
      cfg.send_at_expected cfg.send_at_timeout (printf env "Modem ready\n" [] w2) b1 h1
    have hwin : w4.win = w2.win + 1 := s2
    rw [← hwin] at h2
    obtain ⟨w5, r2, t1, -, t3⟩ := send_at_of_capture cfg env fuel (str "AT+CMEE=2")
      cfg.send_at_expected cfg.send_at_timeout w4 b2 h2
    refine ⟨w5, ?_, ?_⟩
    · unfold start_modem
      simp only []
      rw [hboot]
      dsimp only
      rw [s1]
      dsimp only
      rw [t1]
    · rw [← puts_hw, t3, s3]
      have e0 : hw (printf env "Modem ready\n" [] w2).trace = hw w2.trace := by
        simp [printf, Event.isHw]
      have c1 : c_str (str "ATE1" ++ str "\r\n") = str "ATE1\r\n" := by decide
      have c2 : c_str (str "AT+CMEE=2" ++ str "\r\n") = str "AT+CMEE=2\r\n" := by decide
      rw [e0, c1, c2]
      simp only [puts_append, puts_hw, List.append_assoc]
      rfl
  · intro w2 hboot
    obtain ⟨rest, b1, b2⟩ := blink_hw cfg env 6 (printf env "ERROR: Modem boot failed\n" [] w2)
    refine ⟨blink cfg env 6 (printf env "ERROR: Modem boot failed\n" [] w2), ?_, ?_⟩
    · unfold start_modem
      simp only []
      rw [hboot]
    · rw [← puts_hw, b1]
      have e0 : hw (printf env "ERROR: Modem boot failed\n" [] w2).trace = hw w2.trace := by
        simp [printf, Event.isHw]
      rw [e0, puts_append, puts_hw]
      have : puts rest = [] := by
        simp only [puts, List.filterMap_eq_nil_iff]
        intro e he
        rcases b2 e he with ⟨d, h⟩ | ⟨v, h⟩ <;> subst h <;> rfl
      rw [this, List.append_nil]

/-- Instance of the amended C14: Ready on the first probe, then two replies. -/
theorem start_modem_result_witness :
    (boot_modem cfg8 (env_say (str "OK")) 4
        (printf (env_say (str "OK")) "\n=== Starting Modem ===\n" [] w_init)
      = .ret true (boot_modem cfg8 (env_say (str "OK")) 4
        (printf (env_say (str "OK")) "\n=== Starting Modem ===\n" [] w_init)).world ∧
      capture cfg8 (env_say (str "OK")) 4 cfg8.send_at_timeout
        (boot_modem cfg8 (env_say (str "OK")) 4
          (printf (env_say (str "OK")) "\n=== Starting Modem ===\n" [] w_init)).world.win
        = some (str "OK") ∧
      capture cfg8 (env_say (str "OK")) 4 cfg8.send_at_timeout
        ((boot_modem cfg8 (env_say (str "OK")) 4
          (printf (env_say (str "OK")) "\n=== Starting Modem ===\n" [] w_init)).world.win + 1)
        = some (str "OK")) ∧
    ∃ w5, start_modem cfg8 (env_say (str "OK")) 4 w_init = .ret true w5 ∧
      puts w5.trace
        = puts (boot_modem cfg8 (env_say (str "OK")) 4
            (printf (env_say (str "OK")) "\n=== Starting Modem ===\n" [] w_init)).world.trace
          ++ [str "ATE1\r\n", str "AT+CMEE=2\r\n"] :=
  ⟨⟨eq_ret_of_val _ _ (by decide), by decide, by decide⟩,
    (start_modem_result cfg8 (env_say (str "OK")) 4 w_init).1 _ (str "OK") (str "OK")
      (eq_ret_of_val _ true (by decide)) (by decide) (by decide)⟩

/-! ## Results on the read deadline -/

/-- C15 (as stated) fails for a timeout whose product with 1000 exceeds 32 bits:
with `t = 4294968` ms the deadline computed is 704 microseconds, so the loop
stops at its first check, 1000 microseconds after `start`, without polling,
although a byte is waiting, the buffer is empty and far less than `t` ms
have elapsed. -/
theorem long_timeout_cut_short :
    mul32 4294968 1000 = 704 ∧
      (read_buffer cfg4 env_flood 5 4294968 w_init).val = some () ∧
      (read_buffer cfg4 env_flood 5 4294968 w_init).world.trace
        = [.clear_buffer, .time_us_32 4294001000, .time_us_32 4294002000] ∧
      env_flood.rx (w_init.win + 1) 3 = some 70 ∧
      (read_buffer cfg4 env_flood 5 4294968 w_init).world.rx_ptr = 0 ∧
      4294002000 - 4294001000 < 4294968 * 1000 := by
  decide

/-- C15 (amended): at every evaluation of the loop condition of
`read_buffer(t)`, with `d < 2^32` the true elapsed time in microseconds since
`start` was sampled: if `d` is below `t * 1000` reduced modulo `2^32` and the
buffer is not full, the loop makes another availability check and reads the
byte if one is ready; otherwise it returns without another poll or read. The
deadline is `t` milliseconds exactly when `t * 1000 < 2^32`. -/
theorem poll_continues_iff (cfg : Config) (env : Env) (t s d fuel : Nat) (w : World)
    (hd : d < 4294967296) (hnow : w.now = s + d) :
    (d < t * 1000 % 4294967296 ∧ w.rx_ptr < cfg.UART_BUFFER_SIZE →
      (∀ b, env.rx w.win (w.op + 1) = some b →
        poll cfg env (u32 s) t (fuel + 1) w = poll cfg env (u32 s) t fuel (read_step env b w)) ∧
      (env.rx w.win (w.op + 1) = none →
        poll cfg env (u32 s) t (fuel + 1) w = poll cfg env (u32 s) t fuel (idle_step env w))) ∧
    (¬ (d < t * 1000 % 4294967296 ∧ w.rx_ptr < cfg.UART_BUFFER_SIZE) →
      poll cfg env (u32 s) t (fuel + 1) w = .ret () (time_us_32 env w).2) ∧
    (t < 4294967296 → mul32 t 1000 = t * 1000 % 4294967296) ∧
    (t * 1000 < 4294967296 → t * 1000 % 4294967296 = t * 1000) := by
  have hm : t < 4294967296 → mul32 t 1000 = t * 1000 % 4294967296 := by
    intro ht
    unfold mul32 u32
    rw [Nat.mod_eq_of_lt ht]
  have hm2 : mul32 t 1000 = t * 1000 % 4294967296 := by
    unfold mul32 u32
    rw [show (1000 : Nat) % 4294967296 = 1000 by rfl, Nat.mod_mul_mod]
  have hiff : in_window cfg (u32 s) t w
      ↔ d < t * 1000 % 4294967296 ∧ w.rx_ptr < cfg.UART_BUFFER_SIZE := by
    unfold in_window
    rw [hnow, sub32_elapsed, Nat.mod_eq_of_lt hd, hm2]
  refine ⟨?_, ?_, hm, fun h => Nat.mod_eq_of_lt h⟩
  · intro hc
    exact ⟨fun b hb => poll_read cfg env _ t fuel w b (hiff.mpr hc) hb,
      fun hn => poll_idle cfg env _ t fuel w (hiff.mpr hc) hn⟩
  · intro hc
    exact poll_stop cfg env _ t fuel w (fun h => hc (hiff.mp h))

/-- Instance of the amended C15: 2000 microseconds into a window of 1000 ms with
nothing ready at this poll, the loop polls and goes on. -/
theorem poll_continues_iff_witness :
    ((2000 : Nat) < 4294967296 ∧
      ({ w_init with now := 4294000000 + 2000 } : World).now = 4294000000 + 2000 ∧
      (2000 < 1000 * 1000 % 4294967296 ∧ w_init.rx_ptr < cfg8.UART_BUFFER_SIZE) ∧
      (env_say (str "OK")).rx w_init.win (w_init.op + 1) = none) ∧
    poll cfg8 (env_say (str "OK")) (u32 4294000000) 1000 (3 + 1)
        { w_init with now := 4294000000 + 2000 }
      = poll cfg8 (env_say (str "OK")) (u32 4294000000) 1000 3
          (idle_step (env_say (str "OK")) { w_init with now := 4294000000 + 2000 }) :=
  ⟨⟨by decide, rfl, by decide, by decide⟩,
    ((poll_continues_iff cfg8 (env_say (str "OK")) 1000 4294000000 2000 3
      { w_init with now := 4294000000 + 2000 } (by decide) rfl).1 (by decide)).2 (by decide)⟩

/-! ## Results on `print_response` -/

theorem find_from_single_some (c : Byte) (rest : Bytes) :
    ∀ (seg : Bytes) (pos : Nat), c ∉ seg →
      find_from [c] (seg ++ c :: rest) pos = some (pos + seg.length) := by
  intro seg
  induction seg with
  | nil => intro pos _; simp [find_from, starts]
  | cons h t ih =>
    intro pos hc
    have hne : h ≠ c := fun e => hc (e ▸ List.mem_cons_self _ _)
    have hct : c ∉ t := fun m => hc (List.mem_cons_of_mem _ m)
    simp only [List.cons_append, find_from, starts, hne, decide_False, Bool.false_and,
      Bool.false_eq_true, if_false]
    show find_from [c] (t ++ c :: rest) (pos + 1) = _
    rw [ih (pos + 1) hct]
    simp only [List.length_cons]
    congr 1
    omega

theorem find_from_single_none (c : Byte) :
    ∀ (seg : Bytes) (pos : Nat), c ∉ seg → find_from [c] seg pos = none := by
  intro seg
  induction seg with
  | nil => intro pos _; simp [find_from, starts]
  | cons h t ih =>
    intro pos hc
    have hne : h ≠ c := fun e => hc (e ▸ List.mem_cons_self _ _)
    have hct : c ∉ t := fun m => hc (List.mem_cons_of_mem _ m)
    simp only [find_from, starts, hne, decide_False, Bool.false_and, Bool.false_eq_true,
      if_false]
    exact ih (pos + 1) hct

theorem strip_cr_eq_spec (seg : Bytes) : strip_cr seg = spec_strip seg := by
  unfold strip_cr spec_strip
  by_cases h : seg.getLast? = some 13
  · have hne : seg ≠ [] := by
      intro e
      rw [e] at h
      simp at h
    rw [if_pos ⟨hne, h⟩, if_pos h]
    simp [substr, List.dropLast_eq_take]
  · rw [if_neg (fun hh => h hh.2), if_neg h]

theorem print_line_trace (env : Env) (seg : Bytes) (w : World) :
    (print_line env seg w).trace = w.trace ++ segment_events seg := by
  unfold print_line segment_events
  split
  · rfl
  · simp

theorem splitOn_first (seg rest : Bytes) (h : (10 : Byte) ∉ seg) :
    (seg ++ 10 :: rest).splitOn 10 = seg :: rest.splitOn 10 := by
  unfold List.splitOn
  apply List.splitOnP_first
  · intro x hx hp
    simp only [beq_iff_eq] at hp
    exact h (hp ▸ hx)
  · simp

theorem splitOn_single (seg : Bytes) (h : (10 : Byte) ∉ seg) :
    seg.splitOn 10 = [seg] := by
  unfold List.splitOn
  apply List.splitOnP_eq_single
  intro x hx hp
  simp only [beq_iff_eq] at hp
  exact h (hp ▸ hx)

/-- The loop of `print_response`, started at the end of `pre`, prints the
segments of the rest of the text. -/
theorem print_loop_trace (env : Env) (msg : Bytes) :
    ∀ (n : Nat) (pre rest : Bytes) (w : World),
      msg = pre ++ rest → rest.length < n →
      (print_loop env msg n pre.length w).trace
        = w.trace ++ ((rest.splitOn 10).map segment_events).flatten := by
  intro n
  induction n with
  | zero => intro pre rest w _ h; omega
  | succ n ih =>
    intro pre rest w hmsg hlen
    have hdrop : msg.drop pre.length = rest := by rw [hmsg, List.drop_left]
    unfold print_loop
    unfold find_char
    rw [hdrop]
    by_cases hin : (10 : Byte) ∈ rest
    · obtain ⟨seg, rest2, hrest, hseg⟩ := List.eq_append_cons_of_mem hin
      rw [hrest, find_from_single_some 10 rest2 seg pre.length hseg]
      simp only []
      have hsub : substr msg pre.length (pre.length + seg.length - pre.length) = seg := by
        unfold substr
        rw [hdrop, hrest, Nat.add_sub_cancel_left, List.take_left]
      rw [hsub]
      have hpre : pre.length + seg.length + 1 = (pre ++ seg ++ [10]).length := by
        simp only [List.length_append, List.length_singleton]
      rw [hpre]
      rw [ih (pre ++ seg ++ [10]) rest2 (print_line env seg w)
        (by rw [hmsg, hrest]; simp) (by rw [hrest] at hlen; simp at hlen; omega)]
      rw [print_line_trace, splitOn_first seg rest2 hseg]
      simp [List.append_assoc]
    · rw [find_from_single_none 10 rest pre.length hin]
      simp only []
      rw [splitOn_single rest hin]
      have hl : msg.length = pre.length + rest.length := by rw [hmsg]; simp
      by_cases hr : rest = []
      · subst hr
        have : ¬ pre.length < msg.length := by rw [hl]; simp
        rw [if_neg this]
        simp [segment_events, strip_cr]
      · have hpos : 0 < rest.length := List.length_pos.mpr hr
        have : pre.length < msg.length := by omega
        rw [if_pos this, print_line_trace]
        simp

theorem segments_to_lines (L : List Bytes) :
    (L.map segment_events).flatten
      = ((L.map spec_strip).filter fun l => l ≠ []).map line_event := by
  induction L with
  | nil => rfl
  | cons seg L ih =>
    simp only [List.map_cons, List.flatten_cons, ih, segment_events, strip_cr_eq_spec]
    by_cases h : spec_strip seg = []
    · simp [h]
    · simp [h]

/-- The events of `print_response`: one `printf` per logical line. -/
theorem print_response_trace (env : Env) (msg : Bytes) (w : World) :
    (print_response env msg w).trace = w.trace ++ (spec_lines msg).map line_event := by
  unfold print_response
  have := print_loop_trace env msg (msg.length + 1) [] msg w rfl (by omega)
  rw [List.length_nil] at this
  rw [this, segments_to_lines]
  rfl

theorem splitOnP_mem (p : Byte → Bool) :
    ∀ (xs : Bytes), ∀ seg ∈ xs.splitOnP p, ∀ x ∈ seg, x ∈ xs ∧ p x = false := by
  intro xs
  induction xs with
  | nil =>
    intro seg hseg x hx
    simp only [List.splitOnP_nil, List.mem_singleton] at hseg
    subst hseg
    simp at hx
  | cons a xs ih =>
    intro seg hseg x hx
    rw [List.splitOnP_cons] at hseg
    by_cases hp : p a = true
    · rw [if_pos hp] at hseg
      rcases List.mem_cons.mp hseg with h | h
      · subst h; simp at hx
      · obtain ⟨h1, h2⟩ := ih seg h x hx
        exact ⟨List.mem_cons_of_mem _ h1, h2⟩
    · rw [if_neg hp] at hseg
      cases hs : xs.splitOnP p with
      | nil => exact absurd hs (List.splitOnP_ne_nil p xs)
      | cons hd tl =>
        rw [hs] at hseg ih
        simp only [List.modifyHead_cons, List.mem_cons] at hseg
        rcases hseg with h | h
        · subst h
          rcases List.mem_cons.mp hx with h | h
          · subst h
            exact ⟨List.mem_cons_self _ _, by simpa using hp⟩
          · obtain ⟨h1, h2⟩ := ih hd (List.mem_cons_self _ _) x h
            exact ⟨List.mem_cons_of_mem _ h1, h2⟩
        · obtain ⟨h1, h2⟩ := ih seg (List.mem_cons_of_mem _ h) x hx
          exact ⟨List.mem_cons_of_mem _ h1, h2⟩

theorem spec_strip_subset (seg : Bytes) : ∀ x ∈ spec_strip seg, x ∈ seg := by
  intro x hx
  unfold spec_strip at hx
  split at hx
  · exact List.mem_of_mem_dropLast hx
  · exact hx

theorem spec_lines_mem (msg : Bytes) :
    ∀ l ∈ spec_lines msg, l ≠ [] ∧ (10 : Byte) ∉ l ∧ ∀ x ∈ l, x ∈ msg := by
  intro l hl
  unfold spec_lines at hl
  simp only [List.mem_filter, List.mem_map, decide_eq_true_eq] at hl
  obtain ⟨⟨seg, hseg, rfl⟩, hne⟩ := hl
  refine ⟨hne, ?_, ?_⟩
  · intro h10
    have := (splitOnP_mem (· == 10) msg seg hseg 10 (spec_strip_subset seg 10 h10)).2
    simp at this
  · intro x hx
    exact (splitOnP_mem (· == 10) msg seg hseg x (spec_strip_subset seg x hx)).1

/-- C12 (as stated) fails on a text with a NUL byte: for the text NUL, `A`,
line feed the only segment is the two bytes NUL, `A`, yet the line printed is
empty, because `printf` receives `c_str()` and stops at the NUL. -/
theorem nul_empties_printed_line :
    spec_lines [0, 65, 10] = [[0, 65]] ∧
      (print_response env_silent [0, 65, 10] w_init).trace
        = w_init.trace ++ [.printf "  %s\n" [.s []]] := by
  decide

/-- C12 (amended): for every input text, `print_response` prints one line per
segment that is non-empty after splitting at every line feed and stripping one
trailing carriage return (a final segment without line feed included), in
order, and the text printed for a segment is its bytes up to its first NUL.
For a text without NUL bytes the lines printed are therefore exactly those
segments; each of them is non-empty and contains no line feed. The text
`A\r\nB\r\n` gives the two lines `A` and `B`, the text `\r\n\r\n` gives none. -/
theorem print_response_lines (env : Env) (msg : Bytes) (w : World) :
    (print_response env msg w).trace
        = w.trace ++ (spec_lines msg).map (fun l => Event.printf "  %s\n" [.s (c_str l)]) ∧
    ((0 : Byte) ∉ msg →
      (print_response env msg w).trace
        = w.trace ++ (spec_lines msg).map (fun l => Event.printf "  %s\n" [.s l])) ∧
    (∀ l ∈ spec_lines msg, l ≠ [] ∧ (10 : Byte) ∉ l) ∧
    spec_lines (str "A\r\nB\r\n") = [str "A", str "B"] ∧
    spec_lines (str "\r\n\r\n") = [] := by
  refine ⟨print_response_trace env msg w, ?_, ?_, by decide, by decide⟩
  · intro hnul
    rw [print_response_trace]
    congr 1
    apply List.map_congr_left
    intro l hl
    have hsub := (spec_lines_mem msg l hl).2.2
    have : c_str l = l := c_str_of_no_nul l (fun h0 => hnul (hsub 0 h0))
    simp [line_event, this]
  · intro l hl
    exact ⟨(spec_lines_mem msg l hl).1, (spec_lines_mem msg l hl).2.1⟩

/-- Instance of the amended C12 for the text `A\r\nB\r\n`. -/
theorem print_response_lines_witness :
    (0 : Byte) ∉ str "A\r\nB\r\n" ∧
    (print_response env_silent (str "A\r\nB\r\n") w_init).trace
      = w_init.trace
        ++ (spec_lines (str "A\r\nB\r\n")).map (fun l => Event.printf "  %s\n" [.s l]) :=
  ⟨by decide, (print_response_lines env_silent (str "A\r\nB\r\n") w_init).2.1 (by decide)⟩

/-! ## Results on the recorded boot time -/

theorem slept_append (a b : List Event) : slept (a ++ b) = slept a + slept b := by
  induction a with
  | nil => simp [slept]
  | cons e a ih =>
    cases e with
    | sleep_ms ms =>
      show ms + slept (a ++ b) = ms + slept a + slept b
      rw [ih]; omega
    | _ => exact ih

theorem slept_hw (tr : List Event) : slept (hw tr) = slept tr := by
  induction tr with
  | nil => rfl
  | cons e tr ih =>
    rw [hw_cons]
    cases e <;> simp only [Event.isHw, if_true, if_false, Bool.false_eq_true, slept, ih]

theorem slept_pulse (cfg : Config) : slept (pulse cfg) = 36500 := by
  simp [pulse, slept]

theorem slept_cycles (m : Nat) : slept (cycles m) = 4000 * m := by
  induction m with
  | zero => rfl
  | succ m ih =>
    show slept (probe :: .sleep_ms 4000 :: cycles m) = _
    simp only [probe, slept, ih]
    omega

theorem run_append (env : Env) (c : Clock) (a b : List Event) :
    Clock.run env c (a ++ b) = Clock.run env (Clock.run env c a) b := by
  simp [Clock.run, List.foldl_append]

theorem step_now_ge (env : Env) (c : Clock) (e : Event) :
    c.now + 1000 * slept [e] ≤ (Clock.step env c e).now := by
  cases e <;> simp only [Clock.step, slept] <;> omega

/-- The clock advances by at least the delays slept. -/
theorem run_now_ge (env : Env) : ∀ (tr : List Event) (c : Clock),
    c.now + 1000 * slept tr ≤ (Clock.run env c tr).now := by
  intro tr
  induction tr with
  | nil => intro c; simp [Clock.run, slept]
  | cons e tr ih =>
    intro c
    have h1 := step_now_ge env c e
    have h2 := ih (Clock.step env c e)
    have h3 : slept (e :: tr) = slept [e] + slept tr := slept_append [e] tr
    rw [h3]
    show _ ≤ (Clock.run env (Clock.step env c e) tr).now
    omega

theorem Tracks.here (env : Env) (w : World) : Tracks env w w := ⟨[], by simp, rfl⟩

theorem Tracks.next {env : Env} {w1 w2 w3 : World} (h12 : Tracks env w1 w2)
    (h23 : Tracks env w2 w3) : Tracks env w1 w3 := by
  obtain ⟨n1, a1, a2⟩ := h12
  obtain ⟨n2, b1, b2⟩ := h23
  refine ⟨n1 ++ n2, by rw [b1, a1, List.append_assoc], ?_⟩
  rw [run_append, ← a2, b2]

theorem tracks_emit (env : Env) (e : Event) (extra : Nat) (w : World)
    (h : Clock.step env w.clock e
      = { now := w.now + extra + env.dt w.win w.op, win := w.win, op := w.op + 1 }) :
    Tracks env w (w.emit env e extra) :=
  ⟨[e], rfl, h.symm⟩

theorem tracks_printf (env : Env) (fmt : String) (args : List Arg) (w : World) :
    Tracks env w (printf env fmt args w) := tracks_emit env _ 0 w rfl

theorem tracks_gpio_put (env : Env) (pin : Nat) (v : Bool) (w : World) :
    Tracks env w (gpio_put env pin v w) := tracks_emit env _ 0 w rfl

theorem tracks_sleep_ms (env : Env) (ms : Nat) (w : World) :
    Tracks env w (sleep_ms env ms w) := tracks_emit env _ (ms * 1000) w rfl

theorem tracks_uart_puts (env : Env) (s : Bytes) (w : World) :
    Tracks env w (uart_puts env s w) := tracks_emit env _ 0 w rfl

theorem tracks_time (env : Env) (w : World) : Tracks env w (time_us_32 env w).2 :=
  tracks_emit env _ 0 w rfl

theorem tracks_idle_step (env : Env) (w : World) : Tracks env w (idle_step env w) :=
  (tracks_time env w).next (tracks_emit env _ 0 _ rfl)

theorem tracks_read_step (env : Env) (b : Byte) (w : World) :
    Tracks env w (read_step env b w) :=
  (tracks_idle_step env w).next
    ⟨[.uart_read_blocking (idle_step env w).rx_ptr b], rfl, rfl⟩

theorem tracks_poll (cfg : Config) (env : Env) (start timeout : Nat) :
    ∀ (fuel : Nat) (w : World), Tracks env w (poll cfg env start timeout fuel w).world := by
  intro fuel
  induction fuel with
  | zero => intro w; exact Tracks.here env w
  | succ n ih =>
    intro w
    by_cases hc : in_window cfg start timeout w
    · cases hrx : env.rx w.win (w.op + 1) with
      | none =>
        rw [poll_idle cfg env start timeout n w hc hrx]
        exact (tracks_idle_step env w).next (ih _)
      | some b =>
        rw [poll_read cfg env start timeout n w b hc hrx]
        exact (tracks_read_step env b w).next (ih _)
    · rw [poll_stop cfg env start timeout n w hc]
      exact tracks_time env w

theorem tracks_read_buffer (cfg : Config) (env : Env) (fuel timeout : Nat) (w : World) :
    Tracks env w (read_buffer cfg env fuel timeout w).world := by
  rw [read_buffer_eq]
  refine Tracks.next ?_ (tracks_poll cfg env _ timeout fuel _)
  exact ⟨[.clear_buffer, .time_us_32 (u32 (window_clock env w))],
    by simp [window_start, window_clock], rfl⟩

theorem tracks_dump_raw (env : Env) :
    ∀ (bs : Bytes) (w : World), Tracks env w (dump_raw env bs w) := by
  intro bs
  induction bs with
  | nil => intro w; exact Tracks.here env w
  | cons b bs ih =>
    intro w
    unfold dump_raw
    split
    · exact (tracks_printf env _ _ w).next (ih _)
    · exact (tracks_printf env _ _ w).next (ih _)

theorem tracks_send_at_response (cfg : Config) (env : Env) (fuel : Nat) (cmd : Bytes)
    (timeout : Nat) (w : World) :
    Tracks env w (send_at_response cfg env fuel cmd timeout w).world := by
  have h0 : Tracks env w (printf env "[TX] %s\n" [.s (c_str cmd)]
      (uart_puts env (cmd ++ str "\r\n") w)) :=
    (tracks_uart_puts env _ w).next (tracks_printf env _ _ _)
  have h1 := tracks_read_buffer cfg env fuel timeout
    (printf env "[TX] %s\n" [.s (c_str cmd)] (uart_puts env (cmd ++ str "\r\n") w))
  unfold send_at_response
  simp only []
  cases hr : read_buffer cfg env fuel timeout
      (printf env "[TX] %s\n" [.s (c_str cmd)] (uart_puts env (cmd ++ str "\r\n") w)) with
  | spin w3 =>
    rw [hr] at h1
    exact h0.next h1
  | ret u w3 =>
    rw [hr] at h1
    simp only [world_ret] at h1
    dsimp only
    split
    · exact (h0.next h1).next
        (((tracks_printf env _ _ w3).next (tracks_printf env _ _ _)).next
          ((tracks_dump_raw env _ _).next (tracks_printf env _ _ _)))
    · exact (h0.next h1).next (tracks_printf env _ _ w3)

theorem tracks_power_up (cfg : Config) (env : Env) (powered : Bool) (w : World) :
    Tracks env w (power_up cfg env powered w) := by
  cases powered
  · exact ((tracks_printf env _ _ w).next
      (((tracks_gpio_put env _ _ _).next (tracks_sleep_ms env _ _)).next
        (tracks_gpio_put env _ _ _))).next
      ((tracks_printf env _ _ _).next (tracks_sleep_ms env _ _))
  · exact Tracks.here env w

theorem tracks_probe_state (cfg : Config) (env : Env) (powered : Bool) (attempts : Nat)
    (w : World) : Tracks env w (probe_state cfg env powered attempts w) :=
  (tracks_power_up cfg env powered w).next (tracks_printf env _ _ _)

theorem tracks_print_line (env : Env) (line : Bytes) (w : World) :
    Tracks env w (print_line env line w) := by
  unfold print_line
  split
  · exact tracks_printf env _ _ w
  · exact Tracks.here env w

theorem tracks_print_loop (env : Env) (msg : Bytes) :
    ∀ (n start : Nat) (w : World), Tracks env w (print_loop env msg n start w) := by
  intro n
  induction n with
  | zero => intro start w; exact Tracks.here env w
  | succ n ih =>
    intro start w
    unfold print_loop
    split
    · exact (tracks_print_line env _ w).next (ih _ _)
    · split
      · exact tracks_print_line env _ w
      · exact Tracks.here env w

theorem tracks_print_response (env : Env) (msg : Bytes) (w : World) :
    Tracks env w (print_response env msg w) := tracks_print_loop env msg _ 0 w

theorem tracks_of_ret {α : Type} {env : Env} {w w3 : World} {o : Outcome α} {a : α}
    (h : o = .ret a w3) (ht : Tracks env w o.world) : Tracks env w w3 := by
  rw [h] at ht
  exact ht

/-- The run of `m` unanswered probes of `boot_loop_retries`, with the clock it
arrives at. -/
theorem boot_loop_retries_clocked (cfg : Config) (env : Env) (fuel st : Nat) :
    ∀ (m n : Nat) (powered : Bool) (attempts : Nat) (w : World),
      attempts + m ≤ 20 →
      (∀ j, j < m → ∃ b, capture cfg env fuel 1000 (w.win + j) = some b ∧
        find b (str "OK") = none) →
      ∃ w2, boot_loop cfg env fuel st (n + m) powered attempts w
          = boot_loop cfg env fuel st n (if m = 0 then powered else true) (attempts + m) w2 ∧
        w2.win = w.win + m ∧
        hw w2.trace
          = hw w.trace ++ (if powered ∨ m = 0 then [] else pulse cfg) ++ cycles m ∧
        Tracks env w w2 := by
  intro m
  induction m with
  | zero =>
    intro n powered attempts w _ _
    exact ⟨w, by simp, by simp, by simp [cycles], Tracks.here env w⟩
  | succ m ih =>
    intro n powered attempts w hle hcap
    obtain ⟨b, hb, hnone⟩ := hcap 0 (Nat.succ_pos m)
    obtain ⟨w3, hs, hwin, hhw⟩ := probe_spec cfg env fuel powered attempts w b hb
    have hadv3 : Tracks env w w3 := (tracks_probe_state cfg env powered attempts w).next
      (tracks_of_ret hs (tracks_send_at_response cfg env fuel (str "AT") 1000 _))
    have hstep := boot_loop_retry cfg env fuel st (n + m) powered attempts w w3 (response_of b)
      (by omega) hs (find_response_none b hnone)
    obtain ⟨w2, e1, e2, e3, e4⟩ := ih n true (attempts + 1)
      (sleep_ms env 4000 (printf env "No response or error: %s\n" [.s (c_str (response_of b))] w3))
      (by omega)
      (by
        intro j hj
        have := hcap (j + 1) (by omega)
        have hw5 : (sleep_ms env 4000 (printf env "No response or error: %s\n"
            [.s (c_str (response_of b))] w3)).win = w.win + 1 := hwin
        rw [hw5]
        rw [show w.win + 1 + j = w.win + (j + 1) by omega]
        exact this)
    refine ⟨w2, ?_, ?_, ?_, ?_⟩
    · rw [show n + (m + 1) = n + m + 1 by omega, hstep, e1]
      simp only [Nat.succ_ne_zero, if_false, ite_self]
      rw [show attempts + 1 + m = attempts + (m + 1) by omega]
    · rw [e2]
      show w3.win + m = _
      rw [hwin]; omega
    · rw [e3]
      have : hw (sleep_ms env 4000 (printf env "No response or error: %s\n"
          [.s (c_str (response_of b))] w3)).trace = hw w3.trace ++ [.sleep_ms 4000] := by
        simp [sleep_ms, printf, Event.isHw]
      rw [this, hhw]
      cases powered <;> simp [cycles]
    · exact (hadv3.next ((tracks_printf env _ _ w3).next (tracks_sleep_ms env _ _))).next e4

/-- Success on probe `m + 1` after `m` unanswered ones, with the state `w3` in
which the final clock read is made. -/
theorem boot_loop_succeeds_clocked (cfg : Config) (env : Env) (fuel st : Nat) (m n : Nat)
    (powered : Bool) (attempts : Nat) (w : World) (hle : attempts + m < 20)
    (hfail : ∀ j, j < m → ∃ b, capture cfg env fuel 1000 (w.win + j) = some b ∧
      find b (str "OK") = none)
    (hok : ∃ b, capture cfg env fuel 1000 (w.win + m) = some b ∧
      (find b (str "OK")).isSome = true) :
    ∃ w2 w3 tail, boot_loop cfg env fuel st (n + 1 + m) powered attempts w = .ret true w2 ∧
      w2.trace = w3.trace ++ .time_us_32 (u32 w3.now) :: tail ++
        [.printf "Modem ready after %u ms (%u attempts)\n"
          [.u (sub32 (u32 w3.now) st / 1000), .u (attempts + m + 1)]] ∧
      (∀ e ∈ tail, e.isPrintf = true) ∧
      Tracks env w w3 ∧ Tracks env w3 w2 ∧
      hw w3.trace = hw w.trace ++ (if powered then [] else pulse cfg) ++ cycles m ++ [probe] := by
  obtain ⟨w1, e1, e2, e3, e4⟩ := boot_loop_retries_clocked cfg env fuel st m (n + 1) powered
    attempts w (by omega) hfail
  obtain ⟨b, hb, hfound⟩ := hok
  rw [← e2] at hb
  obtain ⟨w3, hs, -, hhw⟩ := probe_spec cfg env fuel (if m = 0 then powered else true)
    (attempts + m) w1 b hb
  have hadv3 : Tracks env w1 w3 := (tracks_probe_state cfg env _ (attempts + m) w1).next
    (tracks_of_ret hs (tracks_send_at_response cfg env fuel (str "AT") 1000 _))
  rw [response_of_found b hfound] at hs
  have hstep := boot_loop_ready cfg env fuel st n (if m = 0 then powered else true)
    (attempts + m) w1 w3 b (by omega) hs hfound
  obtain ⟨-, -, -, tail, q1, q2⟩ :=
    (quiet_printf env "Modem responded:\n" [] (time_us_32 env w3).2).trans
      (quiet_print_response env b _)
  refine ⟨_, w3, tail, e1.trans hstep, ?_, q2, e4.next hadv3, ?_, ?_⟩
  · show (print_response env b (printf env "Modem responded:\n" [] (time_us_32 env w3).2)).trace
        ++ [_] = _
    rw [q1]
    simp
  · exact ((tracks_time env w3).next
      ((tracks_printf env _ _ _).next (tracks_print_response env b _))).next
      (tracks_printf env _ _ _)
  · rw [hhw, e3]
    by_cases hm : m = 0
    · subst hm; cases powered <;> simp [cycles]
    · cases powered <;> simp [hm]

/-- C17 (as stated) fails when the clock overruns 32 bits: with a settle delay
that returns about 71 minutes late, `boot_modem` reaches Ready on attempt 1
and records 7000 ms, although its `sleep_ms` calls alone account for
36500 ms. -/
theorem boot_time_wraps :
    (boot_modem cfg8 env_stall 4 w_init).val = some true ∧
      (boot_modem cfg8 env_stall 4 w_init).world.trace.getLast?
        = some (.printf "Modem ready after %u ms (%u attempts)\n" [.u 7000, .u 1]) ∧
      slept (boot_modem cfg8 env_stall 4 w_init).world.trace = 1500 + 35000 ∧
      7000 < 1500 + 35000 + 4000 * (1 - 1) := by
  decide

/-- C17 (amended): when `boot_modem` reaches Ready on attempt `k`, its first
hardware operation is the sample of the start timestamp `t_start`, taken
before the power pulse; the pulse, the settle delay, `k - 1` unanswered probes
with their inter-attempt delays and the `k`-th probe lie between that sample
and the last clock read of the run, which is made at clock time `t_ready`; and
the value recorded is `((t_ready - t_start) mod 2^32) / 1000`. Here `t_ready`
is the reading of the hardware clock after the operations recorded before that
read, in a clock where `sleep_ms(d)` takes at least `d` ms, so that
`t_ready - t_start` is at least `1500 + 35000 + 4000 * (k - 1)` ms. As long as
`t_ready - t_start` is below `2^32` microseconds, the recorded value is
`(t_ready - t_start) / 1000` and is at least `1500 + 35000 + 4000 * (k - 1)`. -/
theorem boot_time_recorded (cfg : Config) (env : Env) (fuel : Nat) (w : World)
    (k : Nat) (hk1 : 1 ≤ k) (hk20 : k ≤ 20)
    (hfail : ∀ j, j + 1 < k →
      ∃ b, capture cfg env fuel 1000 (w.win + j) = some b ∧ ¬ str "OK" <:+: b)
    (hok : ∃ b, capture cfg env fuel 1000 (w.win + (k - 1)) = some b ∧ str "OK" <:+: b) :
    ∃ (w2 : World) (new mid tail : List Event) (t_ready : Nat),
      boot_modem cfg env fuel w = .ret true w2 ∧
      w2.trace = w.trace ++ new ∧
      w2.clock = Clock.run env w.clock new ∧
      new = .time_us_32 (u32 w.now) :: mid ++ .time_us_32 (u32 t_ready) :: tail ++
        [.printf "Modem ready after %u ms (%u attempts)\n"
          [.u (sub32 (u32 t_ready) (u32 w.now) / 1000), .u k]] ∧
      hw mid = pulse cfg ++ cycles (k - 1) ++ [probe] ∧
      (∀ e ∈ tail, e.isPrintf = true) ∧
      t_ready = (Clock.run env w.clock (.time_us_32 (u32 w.now) :: mid)).now ∧
      sub32 (u32 t_ready) (u32 w.now) = (t_ready - w.now) % 4294967296 ∧
      w.now + 1000 * (1500 + 35000 + 4000 * (k - 1)) ≤ t_ready ∧
      (t_ready - w.now < 4294967296 →
        sub32 (u32 t_ready) (u32 w.now) / 1000 = (t_ready - w.now) / 1000 ∧
        1500 + 35000 + 4000 * (k - 1) ≤ sub32 (u32 t_ready) (u32 w.now) / 1000) := by
  obtain ⟨m, rfl⟩ : ∃ m, k = m + 1 := ⟨k - 1, by omega⟩
  obtain ⟨w2, w3, tail, h1, h2, htail, ⟨mid, a1, a2⟩, ⟨fin, b1, b2⟩, h4⟩ :=
    boot_loop_succeeds_clocked cfg env fuel
    (u32 w.now) m (20 - m) false 0 (time_us_32 env w).2 (by omega)
    (by
      intro j hj
      obtain ⟨b, hb, hn⟩ := hfail j (by omega)
      exact ⟨b, hb, (find_eq_none_iff b _).mpr hn⟩)
    (by
      obtain ⟨b, hb, hy⟩ := hok
      exact ⟨b, hb, (find_isSome_iff b _).mpr hy⟩)
  have hrun : boot_modem cfg env fuel w = .ret true w2 := by
    rw [← h1]
    show boot_loop cfg env fuel (u32 w.now) 21 false 0 _ = _
    rw [show 20 - m + 1 + m = 21 by omega]
    rfl
  have hmid : hw mid = pulse cfg ++ cycles m ++ [probe] := by
    rw [a1, hw_append] at h4
    simp only [Bool.false_eq_true, if_false, List.append_assoc] at h4
    have := List.append_cancel_left h4
    rw [this]
    simp
  have hslept : slept mid = 36500 + 4000 * m := by
    rw [← slept_hw, hmid, slept_append, slept_append, slept_pulse, slept_cycles]
    simp [slept, probe]
  have hclock : w3.clock = Clock.run env w.clock (.time_us_32 (u32 w.now) :: mid) := a2
  have hnow : w3.now = (Clock.run env w.clock (.time_us_32 (u32 w.now) :: mid)).now :=
    congrArg Clock.now hclock
  have hge : w.now + 1000 * (36500 + 4000 * m) ≤ w3.now := by
    have := run_now_ge env (.time_us_32 (u32 w.now) :: mid) w.clock
    rw [← hnow] at this
    have hs : slept (.time_us_32 (u32 w.now) :: mid) = slept mid := rfl
    rw [hs, hslept] at this
    exact this
  have hfin : fin = .time_us_32 (u32 w3.now) :: tail ++
      [.printf "Modem ready after %u ms (%u attempts)\n"
        [.u (sub32 (u32 w3.now) (u32 w.now) / 1000), .u (0 + m + 1)]] := by
    rw [b1, List.append_assoc] at h2
    exact List.append_cancel_left h2
  have hsub : sub32 (u32 w3.now) (u32 w.now) = (w3.now - w.now) % 4294967296 := by
    have he : w3.now = w.now + (w3.now - w.now) := by omega
    conv => lhs; rw [he]
    exact sub32_elapsed _ _
  refine ⟨w2, .time_us_32 (u32 w.now) :: mid ++ fin, mid, tail, w3.now, hrun, ?_, ?_, ?_,
    hmid, htail, hnow, hsub, ?_, ?_⟩
  · rw [b1, a1]
    simp
  · rw [b2, hclock]
    exact (run_append env w.clock _ fin).symm
  · rw [hfin]
    simp
  · simp only [Nat.add_sub_cancel]
    omega
  · intro hlt
    rw [hsub, Nat.mod_eq_of_lt hlt]
    refine ⟨rfl, ?_⟩
    simp only [Nat.add_sub_cancel]
    rw [Nat.le_div_iff_mul_le (by decide)]
    omega

set_option maxRecDepth 200000 in
/-- Instance of the amended C17 with `k = 5`: the transport is silent on four
probes and answers the fifth, the counter wraps on the way, and the value
recorded is 67700 ms. -/
theorem boot_time_recorded_witness :
    (∃ (w2 : World) (new mid tail : List Event) (t_ready : Nat),
      boot_modem cfg8 env_ok_fifth 4 w_init = .ret true w2 ∧
      w2.trace = w_init.trace ++ new ∧
      w2.clock = Clock.run env_ok_fifth w_init.clock new ∧
      new = .time_us_32 (u32 w_init.now) :: mid ++ .time_us_32 (u32 t_ready) :: tail ++
        [.printf "Modem ready after %u ms (%u attempts)\n"
          [.u (sub32 (u32 t_ready) (u32 w_init.now) / 1000), .u 5]] ∧
      hw mid = pulse cfg8 ++ cycles (5 - 1) ++ [probe] ∧
      (∀ e ∈ tail, e.isPrintf = true) ∧
      t_ready
        = (Clock.run env_ok_fifth w_init.clock (.time_us_32 (u32 w_init.now) :: mid)).now ∧
      sub32 (u32 t_ready) (u32 w_init.now) = (t_ready - w_init.now) % 4294967296 ∧
      w_init.now + 1000 * (1500 + 35000 + 4000 * (5 - 1)) ≤ t_ready ∧
      (t_ready - w_init.now < 4294967296 →
        sub32 (u32 t_ready) (u32 w_init.now) / 1000 = (t_ready - w_init.now) / 1000 ∧
        1500 + 35000 + 4000 * (5 - 1) ≤ sub32 (u32 t_ready) (u32 w_init.now) / 1000)) ∧
    (boot_modem cfg8 env_ok_fifth 4 w_init).world.trace.getLast?
      = some (.printf "Modem ready after %u ms (%u attempts)\n" [.u 67700, .u 5]) ∧
    1500 + 35000 + 4000 * (5 - 1) ≤ 67700 :=
  ⟨boot_time_recorded cfg8 env_ok_fifth 4 w_init 5 (by decide) (by decide)
    (by
      intro j hj
      have hj4 : j < 4 := by omega
      interval_cases j <;> exact ⟨[], by decide, by decide⟩)
    ⟨str "OK", by decide, by decide⟩,
    by decide, by decide⟩

end Sim7080G
